import Mathlib

/-!
Amdox job board: a shallow embedding of the backend request handlers.

The document store is a record of collections (lists of documents).  Every
route handler of `backend/src/routes` that the properties below talk about is
a pure function from the store, the authenticated user, the clock and the
request to a new store and a reply.  Handlers are modelled after the
`auth` / `requireRole` middleware has admitted the request, so `user` is the
`req.user` the handler body sees.

Conventions
* `ObjectId`s are natural numbers; the store hands out fresh ones from
  `nextId`.
* dates are milliseconds since the epoch (`Nat`).
* an exception that escapes a handler (and is passed to the `errorHandler`
  middleware) is the reply `Reply.thrown`.
* the case mappings of strings, the date parser, the digest and the email
  validator belong to the JavaScript runtime and its libraries; they are the
  fields of `Runtime`, and what is used of the case mappings is the
  hypothesis `Runtime.Lawful`.
* the setters a schema declares for a path (`trim`, `uppercase`, `lowercase`)
  are applied to a value that is assigned to the path and to a value that a
  query filter gives for it.
* the certificates carry the `createdAt` and `updatedAt` of `timestamps: true`;
  for the other collections `updatedAt` is not part of the documents.
* a stored document satisfies its schema, so `save()` on a loaded document
  only re-checks the paths the handler assigned.
* numbers of the listing query are binary64 values (`toNumber`,
  `ceilQuotient`); lengths that a schema bounds are counted in UTF-16 code
  units (`jsLength`).
-/

namespace Amdox

abbrev ObjectId := Nat

/-! ## Replies -/

/-- What a handler answers: `res.status(s).json({ error })`, the validator's
`{ errors: [...] }`, a success body with its message and payload, or an
exception left to the error middleware. -/
inductive Reply (α : Type) where
  | error (status : Nat) (error : String)
  | errors (status : Nat) (messages : List String)
  | ok (status : Nat) (message : String) (payload : α)
  | thrown (name : String)
deriving DecidableEq, Repr

/-- A request parameter that Mongoose casts to an `ObjectId`: absent or empty,
present but not castable, or a well-formed id.  A path parameter `:id` is
never absent; the handlers answer that case like an unknown id. -/
inductive IdParam where
  | absent
  | invalid
  | valid (id : ObjectId)
deriving DecidableEq, Repr

/-- The `req.user` document that the `auth` middleware attaches. -/
structure ReqUser where
  _id : ObjectId
  name : String
  role : String
deriving DecidableEq, Repr

/-- A truthy `interviewDate` of a request body: `epoch` is the date Mongoose
casts it to for the `Date` path of models/Application.js (`none` when the cast
fails, as for the text 'soon'), `localeDate` the text that
`new Date(d).toLocaleDateString()` renders for it on the server. -/
structure DateValue where
  epoch : Option Nat
  localeDate : String
deriving DecidableEq, Repr

/-! ## Documents (models/*.js) -/

/-- The `salaryRange` sub-document of models/Job.js. -/
structure SalaryRange where
  min : Option Int := none
  max : Option Int := none
  currency : String := "INR"
deriving DecidableEq, Repr

/-- A document of models/Job.js. -/
structure Job where
  _id : ObjectId
  employerId : ObjectId
  title : String
  description : String
  qualifications : String
  responsibilities : String
  location : String
  salaryRange : SalaryRange := {}
  jobType : String := "full-time"
  experienceLevel : String := "entry"
  industry : Option String := none
  skills : List String := []
  benefits : List String := []
  companyName : Option String := none
  companyLogo : Option String := none
  applicationDeadline : Option Nat := none
  isActive : Bool := true
  isFeatured : Bool := false
  applicationCount : Int := 0
  viewCount : Int := 0
  createdAt : Nat := 0
deriving DecidableEq, Repr

/-- One element of `statusHistory` in models/Application.js. -/
structure StatusEntry where
  status : String
  changedAt : Nat
  changedBy : Option ObjectId := none
  notes : Option String := none
deriving DecidableEq, Repr

/-- A document of models/Application.js. -/
structure Application where
  _id : ObjectId
  jobId : ObjectId
  seekerId : ObjectId
  coverLetter : Option String := none
  resumeURL : Option String := none
  status : String := "pending"
  statusHistory : List StatusEntry := []
  interviewDate : Option Nat := none
  createdAt : Nat := 0
deriving DecidableEq, Repr

/-- The `data` payload of a notification. -/
structure NotificationData where
  jobId : Option ObjectId := none
  applicationId : Option ObjectId := none
  fromUserId : Option ObjectId := none
deriving DecidableEq, Repr

/-- A notification document, with the fields the routes read and write. -/
structure Notification where
  _id : ObjectId
  userId : ObjectId
  type : String
  title : String
  message : String
  data : NotificationData := {}
  isRead : Bool := false
  readAt : Option Nat := none
  createdAt : Nat := 0
deriving DecidableEq, Repr

/-- The payload of a `notification` event emitted to a socket.io room; the
room is named by the string form of a user id. -/
structure SocketEvent where
  room : ObjectId
  id : ObjectId
  type : String
  title : String
  message : String
  data : NotificationData := {}
  createdAt : Nat := 0
deriving DecidableEq, Repr

/-- One element of `experience` in models/Profile.js. -/
structure Experience where
  title : String
  company : String
  «from» : Option Int
  «to» : Option Int := none
  current : Bool := false
  description : Option String := none
deriving DecidableEq, Repr

/-- A document of models/Profile.js. -/
structure Profile where
  userId : ObjectId
  bio : Option String := none
  skills : List String := []
  experience : List Experience := []
  resumeURL : Option String := none
  resumePublicId : Option String := none
  companyName : Option String := none
  companyLogo : Option String := none
  companyLogoPublicId : Option String := none
  website : Option String := none
  companyDescription : Option String := none
  location : Option String := none
  phone : Option String := none
deriving DecidableEq, Repr

/-- A document of models/User.js.  `passwordHash` stands for the bcrypt hash
of the password it holds: `comparePassword` accepts exactly that password. -/
structure User where
  _id : ObjectId
  name : String
  email : String
  passwordHash : String
  role : String := "seeker"
  isActive : Bool := true
  isEmailVerified : Bool := false
  passwordResetToken : Option String := none
  passwordResetExpires : Option Nat := none
  emailVerificationToken : Option String := none
  savedJobs : List ObjectId := []
  lastLogin : Option Nat := none
deriving DecidableEq, Repr

/-- A document of models/Certificate.js.  A date is a time value
(milliseconds, possibly before the epoch), `none` when `new Date(..)` produced
an invalid date; `createdAt` and `updatedAt` are the fields of
`timestamps: true`. -/
structure Certificate where
  _id : ObjectId
  certificateId : String
  studentName : String
  domain : String
  startDate : Option Int
  endDate : Option Int
  isActive : Bool := true
  uploadedBy : Option ObjectId := none
  createdAt : Nat
  updatedAt : Nat
deriving DecidableEq, Repr

/-- A spreadsheet cell as `xlsx.utils.sheet_to_json` delivers it. -/
inductive Cell where
  | missing
  | str (s : String)
  | num (n : Int)
  | bool (b : Bool)
deriving DecidableEq, Repr

/-- A parsed sheet row: the object keyed by column header. -/
abbrev Row := List (String × Cell)

/-- One element of `errors` in models/UploadLog.js. -/
structure RowError where
  row : Nat
  reason : String
  data : Row
deriving DecidableEq, Repr

/-- A document of models/UploadLog.js. -/
structure UploadLog where
  _id : ObjectId
  adminId : ObjectId
  fileName : String
  totalRows : Nat
  successRows : Nat
  failedRows : Nat
  errors : List RowError
  certificateIds : List String
deriving DecidableEq, Repr

/-- The document store. -/
structure Db where
  jobs : List Job := []
  applications : List Application := []
  notifications : List Notification := []
  profiles : List Profile := []
  certificates : List Certificate := []
  uploadLogs : List UploadLog := []
  nextId : ObjectId := 0
  users : List User := []
  emitted : List SocketEvent := []
deriving DecidableEq, Repr

/-- The empty database. -/
def emptyDb : Db := {}

/-! ## JavaScript string helpers -/

/-- The code points that `String.prototype.trim` strips (WhiteSpace and
LineTerminator of the language definition). -/
def isWhiteSpace (c : Char) : Bool :=
  let n := c.toNat
  (9 ≤ n && n ≤ 13) || n == 32 || n == 160 || n == 5760 || (8192 ≤ n && n ≤ 8202) ||
    n == 8232 || n == 8233 || n == 8239 || n == 8287 || n == 12288 || n == 65279

/-- JavaScript `String.prototype.trim`. -/
def trim (s : String) : String :=
  ⟨((s.data.dropWhile isWhiteSpace).reverse.dropWhile isWhiteSpace).reverse⟩

/-- The upper-casing of the ASCII letters, every other character staying as
it is.  On a string of ASCII characters this is what JavaScript's
`toUpperCase` returns. -/
def asciiUpperCase (s : String) : String :=
  ⟨s.data.map Char.toUpper⟩

/-- The lower-casing of the ASCII letters, every other character staying as
it is.  On a string of ASCII characters this is what JavaScript's
`toLowerCase` returns. -/
def asciiLowerCase (s : String) : String :=
  ⟨s.data.map Char.toLower⟩

/-- A string of ASCII characters. -/
def isAscii (s : String) : Bool :=
  s.data.all (fun c => decide (c.toNat < 128))

/-- JavaScript `s.length`: the number of UTF-16 code units, two for a
character outside the basic plane. -/
def jsLength (s : String) : Nat :=
  (s.data.map (fun c => if c.toNat < 65536 then 1 else 2)).sum

/-- The schema pattern of an email, `/^\S+@\S+\.\S+$/`: no white space, an
`@` after at least one character, and after it a `.` with at least one
character on either side. -/
def emailPattern (s : String) : Bool :=
  let cs := s.data
  cs.all (fun c => !isWhiteSpace c) &&
  (List.range cs.length).any (fun i =>
    cs.get? i == some '@' && decide (1 ≤ i) &&
    (List.range cs.length).any (fun j =>
      cs.get? j == some '.' && decide (i + 2 ≤ j) && decide (j + 2 ≤ cs.length)))

/-! ## The runtime -/

/-- What the handlers take from the JavaScript runtime, its libraries and the
environment: the Unicode case mappings `String.prototype.toUpperCase` and
`toLowerCase`, the parser of `new Date(text)` (`none` is an invalid date),
`crypto.createHash('sha256')...digest('hex')`, the `isEmail` validator and
`process.env.NODE_ENV`.  None of them is defined here; what the properties
need of the case mappings is stated as `Runtime.Lawful`. -/
structure Runtime where
  toUpperCase : String → String
  toLowerCase : String → String
  parseDate : String → Option Int
  sha256 : String → String
  isEmail : String → Bool
  nodeEnv : String

/-- Facts of the language definition about the case mappings: each is
idempotent, commutes with `trim` (white space has no case, and no letter maps
to white space), and is the ASCII mapping on strings of ASCII characters. -/
def Runtime.Lawful (rt : Runtime) : Prop :=
  (∀ s, rt.toUpperCase (rt.toUpperCase s) = rt.toUpperCase s) ∧
  (∀ s, trim (rt.toUpperCase s) = rt.toUpperCase (trim s)) ∧
  (∀ s, isAscii s = true → rt.toUpperCase s = asciiUpperCase s) ∧
  (∀ s, rt.toLowerCase (rt.toLowerCase s) = rt.toLowerCase s) ∧
  (∀ s, trim (rt.toLowerCase s) = rt.toLowerCase (trim s)) ∧
  (∀ s, isAscii s = true → rt.toLowerCase s = asciiLowerCase s)

/-- The setters that the schema option `trim: true, uppercase: true` of
`certificateId` puts on the path, applied to a value that is assigned to the
path or passed for it in a query filter. -/
def certificateIdSetters (rt : Runtime) (v : String) : String :=
  trim (rt.toUpperCase v)

/-- The setters that the schema option `lowercase: true, trim: true` of
`email` puts on the path, applied to a value that is assigned to the path or
passed for it in a query filter. -/
def emailSetters (rt : Runtime) (v : String) : String :=
  rt.toLowerCase (trim v)

/-- A runtime for the scenarios: the ASCII case mappings, a `Date` that parses
no text (the scenarios' dates are numbers), a stand-in digest, an email check
that asks for the shape `x@y.z` without white space, production mode. -/
def testRuntime : Runtime :=
  { toUpperCase := asciiUpperCase
    toLowerCase := asciiLowerCase
    parseDate := fun _ => none
    sha256 := fun s => "sha256:" ++ s
    isEmail := emailPattern
    nodeEnv := "production" }

/-! ## Store primitives -/

/-- Query `Job.findById`. -/
def Db.findJob (db : Db) (id : ObjectId) : Option Job :=
  db.jobs.find? (fun j => j._id == id)

/-- Effect of `job.save()` on a job that was loaded from the store. -/
def Db.saveJob (db : Db) (j : Job) : Db :=
  { db with jobs := db.jobs.map (fun x => if x._id = j._id then j else x) }

/-- Query `Application.findById`. -/
def Db.findApplication (db : Db) (id : ObjectId) : Option Application :=
  db.applications.find? (fun a => a._id == id)

/-- Effect of `application.save()` on an application that was loaded from the store. -/
def Db.saveApplication (db : Db) (a : Application) : Db :=
  { db with applications := db.applications.map (fun x => if x._id = a._id then a else x) }

/-- Query `Profile.findOne({ userId })`. -/
def Db.findProfile (db : Db) (userId : ObjectId) : Option Profile :=
  db.profiles.find? (fun p => p.userId == userId)

/-- Saving a new notification: the store assigns the `_id`. -/
def Db.addNotification (db : Db) (now : Nat) (userId : ObjectId) (type title message : String)
    (data : NotificationData) : Db :=
  { db with
    notifications := db.notifications ++
      [{ _id := db.nextId, userId := userId, type := type, title := title, message := message,
         data := data, createdAt := now }]
    nextId := db.nextId + 1 }

/-- The call `io.to(room).emit('notification', payload)`, recorded in the
trace of emitted events. -/
def Db.emit (db : Db) (e : SocketEvent) : Db :=
  { db with emitted := db.emitted ++ [e] }

/-! ## routes/jobs.js -/

/-- The body of `POST /jobs` and `PUT /jobs/:id`: every schema path may be
present, `none` is `undefined`.  `_id` and `createdAt` are paths too: a body
may bring its own `_id` (`.invalid` is a value no ObjectId can be cast from)
and its own `createdAt`. -/
structure JobBody where
  _id : IdParam := .absent
  title : Option String := none
  description : Option String := none
  qualifications : Option String := none
  responsibilities : Option String := none
  location : Option String := none
  salaryRange : Option SalaryRange := none
  jobType : Option String := none
  experienceLevel : Option String := none
  industry : Option String := none
  skills : Option (List String) := none
  benefits : Option (List String) := none
  companyName : Option String := none
  companyLogo : Option String := none
  applicationDeadline : Option Nat := none
  isActive : Option Bool := none
  isFeatured : Option Bool := none
  applicationCount : Option Int := none
  viewCount : Option Int := none
  employerId : Option ObjectId := none
  createdAt : Option Nat := none
deriving DecidableEq, Repr

def jobTypes : List String := ["full-time", "part-time", "contract", "internship", "remote"]

def experienceLevels : List String := ["entry", "mid", "senior", "executive"]

/-- The value of `body(field).trim()`: a missing field reads as `''`. -/
def trimmed (v : Option String) : String := trim (v.getD "")

/-- The express-validator chain of `POST /jobs`: the messages of the checks
that fail. -/
def postJobErrors (b : JobBody) : List String :=
  (if trimmed b.title = "" then ["Title is required"] else []) ++
  (if trimmed b.description = "" then ["Description is required"] else []) ++
  (if trimmed b.qualifications = "" then ["Qualifications are required"] else []) ++
  (if trimmed b.responsibilities = "" then ["Responsibilities are required"] else []) ++
  (if trimmed b.location = "" then ["Location is required"] else []) ++
  (match b.jobType with
    | some t => if t ∈ jobTypes then [] else ["Invalid job type"]
    | none => ["Invalid job type"]) ++
  (match b.experienceLevel with
    | some l => if l ∈ experienceLevels then [] else ["Invalid value"]
    | none => [])

/-- The schema validators of models/Job.js that `job.save()` runs. -/
def jobSchemaValid (j : Job) : Bool :=
  j.title != "" && decide (jsLength j.title ≤ 200) &&
  j.description != "" && decide (jsLength j.description ≤ 5000) &&
  j.qualifications != "" && decide (jsLength j.qualifications ≤ 3000) &&
  j.responsibilities != "" && decide (jsLength j.responsibilities ≤ 3000) &&
  j.location != "" &&
  decide (∀ m ∈ j.salaryRange.min, (0 : Int) ≤ m) &&
  decide (∀ m ∈ j.salaryRange.max, (0 : Int) ≤ m) &&
  decide (j.jobType ∈ jobTypes) && decide (j.experienceLevel ∈ experienceLevels)

/-- The document `new Job({ ...req.body, employerId, companyName, companyLogo })`
builds and `save()` completes: every schema path of the body is taken over,
the three named ones are overridden, the rest get their schema defaults; the
`_id` is the body's when it brings one and a freshly generated one otherwise,
and `createdAt` is set by the `timestamps` option unless the body set it. -/
def newJob (db : Db) (user : ReqUser) (now : Nat) (b : JobBody) : Job :=
  let profile := db.findProfile user._id
  { _id := match b._id with
      | .valid i => i
      | _ => db.nextId
    employerId := user._id
    title := trimmed b.title
    description := trimmed b.description
    qualifications := trimmed b.qualifications
    responsibilities := trimmed b.responsibilities
    location := trimmed b.location
    salaryRange := b.salaryRange.getD {}
    jobType := b.jobType.getD "full-time"
    experienceLevel := b.experienceLevel.getD "entry"
    industry := b.industry.map trim
    skills := (b.skills.getD []).map trim
    benefits := (b.benefits.getD []).map trim
    companyName :=
      match profile.bind (fun p => p.companyName) with
      | some c => if c != "" then some (trim c) else some (trim user.name)
      | none => some (trim user.name)
    companyLogo := profile.bind (fun p => p.companyLogo)
    applicationDeadline := b.applicationDeadline
    isActive := b.isActive.getD true
    isFeatured := b.isFeatured.getD false
    applicationCount := b.applicationCount.getD 0
    viewCount := b.viewCount.getD 0
    createdAt := b.createdAt.getD now }

/-- Route `POST /jobs` (employer).  `job.save()` validates the document (a
failed cast of the body's `_id` is a validation error) and then inserts it;
the insert is refused when a stored job has the `_id` the body brought.
Generated ids are fresh: `nextId` stays above every id in use. -/
def postJob (db : Db) (user : ReqUser) (now : Nat) (b : JobBody) : Db × Reply Job :=
  let errs := postJobErrors b
  if errs ≠ [] then (db, .errors 400 errs)
  else
    let job := newJob db user now b
    if b._id = .invalid || !jobSchemaValid job then (db, .thrown "ValidationError")
    else if (match b._id with
        | .valid i => (db.findJob i).isSome
        | _ => false) then
      -- E11000: the `_id` index is unique
      (db, .thrown "MongoServerError")
    else
      ({ db with jobs := db.jobs ++ [job], nextId := max db.nextId job._id + 1 },
        .ok 201 "Job created successfully" job)

/-- The `allowedUpdates.forEach` loop of `PUT /jobs/:id`: a field is assigned
when the body defines it. -/
def applyAllowedUpdates (j : Job) (b : JobBody) : Job :=
  { j with
    title := (b.title.map trim).getD j.title
    description := b.description.getD j.description
    qualifications := b.qualifications.getD j.qualifications
    responsibilities := b.responsibilities.getD j.responsibilities
    location := b.location.getD j.location
    salaryRange := b.salaryRange.getD j.salaryRange
    jobType := b.jobType.getD j.jobType
    experienceLevel := b.experienceLevel.getD j.experienceLevel
    industry := match b.industry with
      | some i => some (trim i)
      | none => j.industry
    skills := (b.skills.map (fun l => l.map trim)).getD j.skills
    benefits := (b.benefits.map (fun l => l.map trim)).getD j.benefits
    applicationDeadline := match b.applicationDeadline with
      | some d => some d
      | none => j.applicationDeadline
    isActive := b.isActive.getD j.isActive }

/-- Route `PUT /jobs/:id` (employer). -/
def putJob (db : Db) (user : ReqUser) (id : IdParam) (b : JobBody) : Db × Reply Job :=
  match id with
  | .absent => (db, .error 404 "Job not found")
  | .invalid => (db, .thrown "CastError")
  | .valid i =>
    match db.findJob i with
    | none => (db, .error 404 "Job not found")
    | some job =>
      if job.employerId ≠ user._id then (db, .error 403 "Not authorized to edit this job")
      else
        let job1 := applyAllowedUpdates job b
        if !jobSchemaValid job1 then (db, .thrown "ValidationError")
        else (db.saveJob job1, .ok 200 "Job updated successfully" job1)

/-- Route `DELETE /jobs/:id` (employer): the soft delete. -/
def deleteJob (db : Db) (user : ReqUser) (id : IdParam) : Db × Reply Unit :=
  match id with
  | .absent => (db, .error 404 "Job not found")
  | .invalid => (db, .thrown "CastError")
  | .valid i =>
    match db.findJob i with
    | none => (db, .error 404 "Job not found")
    | some job =>
      if job.employerId ≠ user._id then (db, .error 403 "Not authorized to delete this job")
      else (db.saveJob { job with isActive := false }, .ok 200 "Job deleted successfully" ())

/-- Route `GET /jobs/:id`: a view, which counts. -/
def getJob (db : Db) (id : IdParam) : Db × Reply (Job × Option Profile) :=
  match id with
  | .absent => (db, .error 404 "Job not found")
  | .invalid => (db, .thrown "CastError")
  | .valid i =>
    match db.findJob i with
    | none => (db, .error 404 "Job not found")
    | some job =>
      let job1 := { job with viewCount := job.viewCount + 1 }
      (db.saveJob job1, .ok 200 "" (job1, db.findProfile job1.employerId))

/-! ## routes/applications.js -/

/-- The body of `POST /applications`. -/
structure ApplyBody where
  jobId : IdParam := .absent
  coverLetter : Option String := none
deriving DecidableEq, Repr

/-- Route `POST /applications` (seeker). -/
def postApplication (db : Db) (user : ReqUser) (now : Nat) (b : ApplyBody) :
    Db × Reply Application :=
  match b.jobId with
  | .absent => (db, .errors 400 ["Job ID is required"])
  | .invalid => (db, .thrown "CastError")
  | .valid jobId =>
    match db.findJob jobId with
    | none => (db, .error 404 "Job not found")
    | some job =>
      if !job.isActive then
        (db, .error 400 "This job is no longer accepting applications")
      else if (match job.applicationDeadline with
          | some d => decide (now > d)
          | none => false) then
        (db, .error 400 "Application deadline has passed")
      else if (db.applications.find? (fun a => a.jobId == jobId && a.seekerId == user._id)).isSome then
        (db, .error 400 "You have already applied for this job")
      else
        let profile := db.findProfile user._id
        let application : Application :=
          { _id := db.nextId
            jobId := jobId
            seekerId := user._id
            coverLetter := b.coverLetter
            resumeURL := profile.bind (fun p => p.resumeURL)
            statusHistory := [{ status := "pending", changedAt := now, changedBy := some user._id }]
            createdAt := now }
        if (match b.coverLetter with
            | some c => decide (jsLength c > 2000)
            | none => false) then
          (db, .thrown "ValidationError")
        else
          let db1 : Db :=
            { db with applications := db.applications ++ [application], nextId := db.nextId + 1 }
          let db2 := db1.saveJob { job with applicationCount := job.applicationCount + 1 }
          let db3 := db2.addNotification now job.employerId "application_received"
            "New Application Received" (user.name ++ " applied for " ++ job.title)
            { jobId := some job._id, applicationId := some application._id,
              fromUserId := some user._id }
          let db4 := db3.emit
            { room := job.employerId, id := db2.nextId, type := "application_received"
              title := "New Application Received"
              message := user.name ++ " applied for " ++ job.title
              data := { jobId := some job._id, applicationId := some application._id,
                        fromUserId := some user._id }
              createdAt := now }
          (db4, .ok 201 "Application submitted successfully" application)

def applicationStatuses : List String :=
  ["pending", "reviewed", "shortlisted", "interview", "hired", "rejected"]

/-- The body of `PUT /applications/:id/status`; `interviewDate` is `none` when
the body has none or a falsy one (which the handler skips).  `notes` is the
text that the String path of a history entry holds for the body's `notes`
(`none` for `undefined`); `notesUncastable` says that the body's `notes` is an
object or an array, which no text can be cast from. -/
structure StatusBody where
  status : Option String := none
  notes : Option String := none
  notesUncastable : Bool := false
  interviewDate : Option DateValue := none
deriving DecidableEq, Repr

/-- Whether a value that the handler assigns from the body fails its cast:
the `notes` of the history entry, or the `interviewDate`.  Mongoose records
the failure on the document, and `save()` then rejects. -/
def StatusBody.castFails (b : StatusBody) : Bool :=
  b.notesUncastable ||
    (match b.interviewDate with
      | some d => d.epoch.isNone
      | none => false)

/-- The `statusMessages[status] || ...` text of the status notification. -/
def statusMessage (status : String) (interviewDate : Option DateValue) : String :=
  if status = "reviewed" then "Your application has been reviewed"
  else if status = "shortlisted" then "Congratulations! You have been shortlisted"
  else if status = "interview" then
    "You have been invited for an interview" ++
      (match interviewDate with
        | some d => " on " ++ d.localeDate
        | none => "")
  else if status = "hired" then "Congratulations! You have been hired"
  else if status = "rejected" then "Your application was not selected"
  else "Your application status has been updated to: " ++ status

/-- The three assignments `PUT /applications/:id/status` makes on the loaded
application: `status`, the `statusHistory.push` and, when the body carries a
truthy one, `interviewDate`. -/
def setStatus (application : Application) (user : ReqUser) (now : Nat) (status : String)
    (b : StatusBody) : Application :=
  { application with
    status := status
    statusHistory := application.statusHistory ++
      [{ status := status, changedAt := now, changedBy := some user._id, notes := b.notes }]
    interviewDate := match b.interviewDate with
      | some d => d.epoch
      | none => application.interviewDate }

/-- Route `PUT /applications/:id/status` (employer). -/
def putApplicationStatus (db : Db) (user : ReqUser) (now : Nat) (id : IdParam) (b : StatusBody) :
    Db × Reply Application :=
  match b.status with
  | none => (db, .errors 400 ["Invalid status"])
  | some status =>
    if status ∉ applicationStatuses then (db, .errors 400 ["Invalid status"])
    else
      match id with
      | .absent => (db, .error 404 "Application not found")
      | .invalid => (db, .thrown "CastError")
      | .valid i =>
        match db.findApplication i with
        | none => (db, .error 404 "Application not found")
        | some application =>
          -- populate('jobId', 'employerId title')
          match db.findJob application.jobId with
          | none => (db, .thrown "TypeError")
          | some job =>
            if job.employerId ≠ user._id then
              (db, .error 403 "Not authorized to update this application")
            else if b.castFails then
              -- `application.save()` rejects
              (db, .thrown "ValidationError")
            else
              let application1 := setStatus application user now status b
              let db1 := db.saveApplication application1
              let db2 := db1.addNotification now application1.seekerId
                (if status = "interview" then "interview_request" else "application_status")
                "Application Status Update" (statusMessage status b.interviewDate)
                { jobId := some job._id, applicationId := some application1._id }
              let db3 := db2.emit
                { room := application1.seekerId, id := db1.nextId
                  type := if status = "interview" then "interview_request"
                    else "application_status"
                  title := "Application Status Update"
                  message := statusMessage status b.interviewDate
                  data := { jobId := some job._id, applicationId := some application1._id }
                  createdAt := now }
              (db3, .ok 200 "Status updated successfully" application1)

/-- Route `DELETE /applications/:id` (seeker): withdrawing an application. -/
def deleteApplication (db : Db) (user : ReqUser) (id : IdParam) : Db × Reply Unit :=
  match id with
  | .absent => (db, .error 404 "Application not found")
  | .invalid => (db, .thrown "CastError")
  | .valid i =>
    match db.applications.find? (fun a => a._id == i && a.seekerId == user._id) with
    | none => (db, .error 404 "Application not found")
    | some application =>
      if application.status ≠ "pending" then
        (db, .error 400 "Cannot withdraw application after it has been reviewed")
      else
        let db1 :=
          match db.findJob application.jobId with
          | some job => db.saveJob { job with applicationCount := max 0 (job.applicationCount - 1) }
          | none => db
        ({ db1 with applications := db1.applications.eraseP (fun a => a._id == i) },
          .ok 200 "Application withdrawn successfully" ())

/-! ## Properties of the store -/

/-- No two applications share the same (jobId, seekerId) pair. -/
def UniquePairs (db : Db) : Prop :=
  (db.applications.map (fun a => (a.jobId, a.seekerId))).Nodup

instance (db : Db) : Decidable (UniquePairs db) := by
  unfold UniquePairs; infer_instance

/-- A job the handler of `POST /applications` lets through its first guards:
it exists, is active and its deadline, if any, has not passed. -/
def acceptingAt (db : Db) (now : Nat) (jobId : ObjectId) : Prop :=
  ∃ job, db.findJob jobId = some job ∧ job.isActive = true ∧
    ∀ d, job.applicationDeadline = some d → ¬ now > d

/-- The order the specification gives the statuses:
pending → reviewed → shortlisted → interview → hired/rejected. -/
def specStatusRank (s : String) : Option Nat :=
  if s = "pending" then some 0
  else if s = "reviewed" then some 1
  else if s = "shortlisted" then some 2
  else if s = "interview" then some 3
  else if s = "hired" then some 4
  else if s = "rejected" then some 4
  else none

/-- In the specification's order, `t` comes after `s`. -/
def specComesAfter (s t : String) : Prop :=
  ∃ m n, specStatusRank s = some m ∧ specStatusRank t = some n ∧ m < n

instance (s t : String) : Decidable (specComesAfter s t) :=
  match hs : specStatusRank s, ht : specStatusRank t with
  | some m, some n =>
    if h : m < n then isTrue ⟨m, n, hs, ht, h⟩
    else isFalse (by
      rintro ⟨m1, n1, h1, h2, h3⟩
      rw [hs] at h1; rw [ht] at h2
      cases h1; cases h2
      exact h h3)
  | none, _ => isFalse (by
      rintro ⟨m1, n1, h1, -, -⟩
      rw [hs] at h1; cases h1)
  | _, none => isFalse (by
      rintro ⟨m1, n1, -, h2, -⟩
      rw [ht] at h2; cases h2)

/-- The shape every application keeps: a non-empty history that starts with
the seeker's own 'pending' entry, an actor on every entry, and a status that
is the status of the last entry. -/
def HistoryWellFormed (a : Application) : Prop :=
  a.statusHistory ≠ [] ∧
  (∃ e, a.statusHistory.head? = some e ∧ e.status = "pending" ∧ e.changedBy = some a.seekerId) ∧
  (∀ e ∈ a.statusHistory, e.changedBy.isSome = true) ∧
  (∃ e, a.statusHistory.getLast? = some e ∧ a.status = e.status)

/-- Each job's applicationCount equals the number of applications whose jobId
is that job. -/
def CountMirrors (db : Db) : Prop :=
  ∀ j ∈ db.jobs, j.applicationCount = ((db.applications.filter (fun a => a.jobId == j._id)).length : Int)

instance (db : Db) : Decidable (CountMirrors db) := by
  unfold CountMirrors; infer_instance

/-- The states reachable from the empty store through the job and application
routes, when every `POST /jobs` body satisfies `P`. -/
inductive ReachableWith (P : JobBody → Prop) : Db → Prop where
  | empty : ReachableWith P emptyDb
  | postJob {db : Db} (user : ReqUser) (now : Nat) (b : JobBody) :
      P b → ReachableWith P db → ReachableWith P (postJob db user now b).1
  | putJob {db : Db} (user : ReqUser) (id : IdParam) (b : JobBody) :
      ReachableWith P db → ReachableWith P (putJob db user id b).1
  | deleteJob {db : Db} (user : ReqUser) (id : IdParam) :
      ReachableWith P db → ReachableWith P (deleteJob db user id).1
  | getJob {db : Db} (id : IdParam) :
      ReachableWith P db → ReachableWith P (getJob db id).1
  | postApplication {db : Db} (user : ReqUser) (now : Nat) (b : ApplyBody) :
      ReachableWith P db → ReachableWith P (postApplication db user now b).1
  | deleteApplication {db : Db} (user : ReqUser) (id : IdParam) :
      ReachableWith P db → ReachableWith P (deleteApplication db user id).1
  | putApplicationStatus {db : Db} (user : ReqUser) (now : Nat) (id : IdParam) (b : StatusBody) :
      ReachableWith P db → ReachableWith P (putApplicationStatus db user now id b).1

/-- The states reachable from the empty store through the job and application
routes, with any request bodies. -/
abbrev Reachable : Db → Prop := ReachableWith (fun _ => True)

/-- The bookkeeping of identifiers that the store keeps up: issued ids lie
below `nextId`, and application ids are pairwise distinct. -/
def IdsFresh (db : Db) : Prop :=
  (∀ j ∈ db.jobs, j._id < db.nextId) ∧
  (∀ a ∈ db.applications, a._id < db.nextId ∧ a.jobId < db.nextId) ∧
  (db.applications.map (fun a => a._id)).Nodup

/-! ### Scenario: an application, then the job is soft-deleted -/

def employer1 : ReqUser := { _id := 100, name := "Acme", role := "employer" }

def seeker1 : ReqUser := { _id := 200, name := "Sam", role := "seeker" }

def jobBody1 : JobBody :=
  { title := some "Engineer", description := some "Build", qualifications := some "BSc",
    responsibilities := some "Code", location := some "Pune", jobType := some "full-time" }

/-- The store after employer1 posts a job (id 0) and seeker1 applies to it
(application id 1). -/
def appliedDb : Db :=
  (postApplication (postJob emptyDb employer1 10 jobBody1).1 seeker1 20 { jobId := .valid 0 }).1

/-- The store after employer1 then soft-deletes the job. -/
def closedJobDb : Db :=
  (deleteJob appliedDb employer1 (.valid 0)).1

/-- A request that sets the status back to 'pending'. -/
def pendingBody : StatusBody := { status := some "pending" }

/-- The request by which employer1 marks the application hired. -/
def hiredBody : StatusBody := { status := some "hired", notes := some "great" }

/-- The store after employer1 marks the application hired. -/
def hiredDb : Db :=
  (putApplicationStatus appliedDb employer1 30 (.valid 1) hiredBody).1

/-- The application as it stands after that request. -/
def hiredApplication : Application :=
  { _id := 1
    jobId := 0
    seekerId := 200
    status := "hired"
    statusHistory :=
      [{ status := "pending", changedAt := 20, changedBy := some 200 },
       { status := "hired", changedAt := 30, changedBy := some 100, notes := some "great" }]
    createdAt := 20 }

/-- A valid `POST /jobs` body that also carries an `applicationCount`. -/
def jobBodyWithCount : JobBody := { jobBody1 with applicationCount := some 5 }

/-- The store after employer1 posts that body to the empty store. -/
def inflatedDb : Db :=
  (postJob emptyDb employer1 10 jobBodyWithCount).1

/-! ## routes/certificates.js -/

/-- Query `Certificate.findById`. -/
def Db.findCertificate (db : Db) (id : ObjectId) : Option Certificate :=
  db.certificates.find? (fun c => c._id == id)

/-- Effect of `certificate.save()` on a certificate that was loaded from the store. -/
def Db.saveCertificate (db : Db) (c : Certificate) : Db :=
  { db with certificates := db.certificates.map (fun x => if x._id = c._id then c else x) }

/-- Route `GET /certificates/search/:id` (public):
`findOne({ certificateId: req.params.id.toUpperCase(), isActive: true })`.
The query casts the filter value through the setters of the path. -/
def searchCertificate (rt : Runtime) (db : Db) (id : String) : Reply Certificate :=
  match db.certificates.find?
      (fun c => c.certificateId == certificateIdSetters rt (rt.toUpperCase id) &&
        c.isActive == true) with
  | none => .error 404 "Certificate not found"
  | some certificate => .ok 200 "" certificate

/-- Route `GET /certificates/:id/pdf` (public); the payload is the certificate the
PDF is rendered from. -/
def getCertificatePdf (db : Db) (id : IdParam) : Reply Certificate :=
  match id with
  | .absent => .error 404 "Certificate not found"
  | .invalid => .thrown "CastError"
  | .valid i =>
    match db.findCertificate i with
    | none => .error 404 "Certificate not found"
    | some certificate =>
      if !certificate.isActive then .error 404 "Certificate not found"
      else .ok 200 "" certificate

/-- Route `DELETE /certificates/:id` (admin): the soft delete.  Saving a
document that the assignment modified also sets `updatedAt`; saving an
unmodified one writes nothing. -/
def deleteCertificate (db : Db) (now : Nat) (id : IdParam) : Db × Reply Unit :=
  match id with
  | .absent => (db, .error 404 "Certificate not found")
  | .invalid => (db, .thrown "CastError")
  | .valid i =>
    match db.findCertificate i with
    | none => (db, .error 404 "Certificate not found")
    | some certificate =>
      (db.saveCertificate
          { certificate with
            isActive := false
            updatedAt := if certificate.isActive then now else certificate.updatedAt },
        .ok 200 "Certificate deleted successfully" ())

/-! ## routes/upload.js -/

/-- The file multer hands to the handler; `sheet` is the first worksheet as
`sheet_to_json` returns it, `none` when reading the workbook throws. -/
structure UploadedFile where
  originalname : String
  mimetype : String
  size : Nat
  sheet : Option (List Row)
deriving DecidableEq, Repr

/-- The multer `fileFilter`: an Excel MIME type, or a name ending in `.xlsx`
or `.xls`. -/
def fileFilter (f : UploadedFile) : Bool :=
  f.mimetype == "application/vnd.openxmlformats-officedocument.spreadsheetml.sheet" ||
  f.mimetype == "application/vnd.ms-excel" ||
  ".xlsx".data.isSuffixOf f.originalname.data || ".xls".data.isSuffixOf f.originalname.data

/-- JavaScript `row[col]`. -/
def Row.get (row : Row) (col : String) : Cell :=
  (row.lookup col).getD .missing

/-- JavaScript truthiness of a cell. -/
def Cell.truthy : Cell → Bool
  | .missing => false
  | .str s => s != ""
  | .num n => n != 0
  | .bool b => b

/-- JavaScript `typeof c === 'string'`. -/
def Cell.isString : Cell → Bool
  | .str _ => true
  | _ => false

/-- JavaScript `c.toString()` of a string cell (the only cells it is applied to). -/
def Cell.toString : Cell → String
  | .str s => s
  | .num n => ToString.toString n
  | .bool b => if b then "true" else "false"
  | .missing => "undefined"

/-- JavaScript `new Date(c)`: `none` is an invalid date.  Text is parsed by the runtime
(`rt`), a number is a time value within the range of `Date`. -/
def newDate (parseDate : String → Option Int) : Cell → Option Int
  | .missing => none
  | .str s => parseDate s
  | .num n => if -8640000000000000 ≤ n ∧ n ≤ 8640000000000000 then some n else none
  | .bool b => some (if b then 1 else 0)

def requiredColumns : List String :=
  ["Certificate ID", "Student Name", "Domain", "Start Date", "End Date"]

/-- JavaScript `requiredColumns.filter(col => !headers.includes(col))` with the headers of
the first row. -/
def missingColumns (rows : List Row) : List String :=
  let headers := (rows.headD []).map Prod.fst
  requiredColumns.filter (fun col => !headers.contains col)

/-- The `rowErrors` a row collects in the required-field checks. -/
def rowErrors (row : Row) : List String :=
  (if !(row.get "Certificate ID").truthy || !(row.get "Certificate ID").isString
    then ["Invalid or missing Certificate ID"] else []) ++
  (if !(row.get "Student Name").truthy || !(row.get "Student Name").isString
    then ["Invalid or missing Student Name"] else []) ++
  (if !(row.get "Domain").truthy || !(row.get "Domain").isString
    then ["Invalid or missing Domain"] else []) ++
  (if !(row.get "Start Date").truthy || !(row.get "End Date").truthy
    then ["Missing Start Date or End Date"] else [])

/-- The filter value of the duplicate lookup:
`row['Certificate ID'].toString().toUpperCase()`. -/
def lookupId (rt : Runtime) (row : Row) : String :=
  rt.toUpperCase (row.get "Certificate ID").toString

/-- The `certificateId` of the certificate built from a row:
`row['Certificate ID'].toString().toUpperCase().trim()`. -/
def storedId (rt : Runtime) (row : Row) : String :=
  trim (rt.toUpperCase (row.get "Certificate ID").toString)

/-- The first certificate whose stored `certificateId` is the given string. -/
def Db.findCertificateById (db : Db) (certificateId : String) : Option Certificate :=
  db.certificates.find? (fun c => c.certificateId == certificateId)

/-- Query `Certificate.findOne({ certificateId: v })`: the filter value is cast
through the setters of the path before it is compared. -/
def Db.findOneCertificate (db : Db) (rt : Runtime) (v : String) : Option Certificate :=
  db.findCertificateById (certificateIdSetters rt v)

/-- A certificate as pushed on `validCertificates`, before the store assigns
its `_id`. -/
structure NewCertificate where
  certificateId : String
  studentName : String
  domain : String
  startDate : Option Int
  endDate : Option Int
  uploadedBy : ObjectId
  isActive : Bool
deriving DecidableEq, Repr

deriving instance DecidableEq for Except

/-- One iteration of the row loop for the row at 0-based index `i`: the error
entry pushed on `errors`, or the certificate pushed on `validCertificates`. -/
def classifyRow (db : Db) (rt : Runtime) (uploadedBy : ObjectId)
    (i : Nat) (row : Row) : Except RowError NewCertificate :=
  let rowNum := i + 2
  let errs := rowErrors row
  if errs.length > 0 then
    .error { row := rowNum, reason := "; ".intercalate errs, data := row }
  else if (db.findOneCertificate rt (lookupId rt row)).isSome then
    .error { row := rowNum
             reason := "Certificate ID " ++ (row.get "Certificate ID").toString ++
               " already exists"
             data := row }
  else
    .ok { certificateId := storedId rt row
          studentName := trim (row.get "Student Name").toString
          domain := trim (row.get "Domain").toString
          startDate := newDate rt.parseDate (row.get "Start Date")
          endDate := newDate rt.parseDate (row.get "End Date")
          uploadedBy := uploadedBy
          isActive := true }

/-- The row loop, from index `i` on: `(validCertificates, errors)`, both in row
order.  The store is only read, never written, while the loop runs. -/
def uploadLoop (db : Db) (rt : Runtime) (uploadedBy : ObjectId) :
    Nat → List Row → List NewCertificate × List RowError
  | _, [] => ([], [])
  | i, row :: rest =>
    let r := uploadLoop db rt uploadedBy (i + 1) rest
    match classifyRow db rt uploadedBy i row with
    | .ok c => (c :: r.1, r.2)
    | .error e => (r.1, e :: r.2)

/-- The document Mongoose builds from an object passed to `insertMany`: the
setters of the schema are applied to the three text paths. -/
def castCertificate (rt : Runtime) (c : NewCertificate) : NewCertificate :=
  { c with
    certificateId := certificateIdSetters rt c.certificateId
    studentName := trim c.studentName
    domain := trim c.domain }

/-- The schema validators of models/Certificate.js that `insertMany` runs on a
document: the required paths are present (a required string is non-empty, a
required date is a valid date). -/
def certificateSchemaValid (c : NewCertificate) : Bool :=
  c.certificateId != "" && c.studentName != "" && c.domain != "" &&
  c.startDate.isSome && c.endDate.isSome

/-- The ordered insert of validated documents at time `now`: documents go in
one by one and the first one whose `certificateId` violates the unique index
stops the insert with an error (`false`), the earlier ones staying in the
store. -/
def insertOrdered (now : Nat) : Db → List NewCertificate → Db × Bool
  | db, [] => (db, true)
  | db, c :: rest =>
    if (db.findCertificateById c.certificateId).isSome then (db, false)
    else
      insertOrdered now
        { db with
          certificates := db.certificates ++
            [{ _id := db.nextId, certificateId := c.certificateId, studentName := c.studentName,
               domain := c.domain, startDate := c.startDate, endDate := c.endDate,
               isActive := c.isActive,
               uploadedBy := some c.uploadedBy,
               createdAt := now, updatedAt := now }]
          nextId := db.nextId + 1 }
        rest

/-- Query `Certificate.insertMany(docs)`: all documents are built and validated
first, and one invalid document rejects the call before anything is written. -/
def insertMany (rt : Runtime) (now : Nat) (db : Db) (docs : List NewCertificate) : Db × Bool :=
  if (docs.map (castCertificate rt)).all certificateSchemaValid then
    insertOrdered now db (docs.map (castCertificate rt))
  else (db, false)

/-- The JSON body of a completed upload. -/
structure UploadResult where
  totalRows : Nat
  successRows : Nat
  failedRows : Nat
  errors : List RowError
  uploadLogId : ObjectId
deriving DecidableEq, Repr

/-- The part of `POST /upload/certificates` that follows the header checks. -/
def processSheet (db : Db) (user : ReqUser) (rt : Runtime) (now : Nat)
    (fileName : String) (rows : List Row) : Db × Reply UploadResult :=
  let r := uploadLoop db rt user._id 0 rows
  let validCertificates := r.1
  let errors := r.2
  let ins :=
    if validCertificates.length > 0 then insertMany rt now db validCertificates else (db, true)
  if !ins.2 then (ins.1, .error 500 "Failed to process Excel file")
  else
    let successCount := if validCertificates.length > 0 then validCertificates.length else 0
    let db1 := ins.1
    let uploadLog : UploadLog :=
      { _id := db1.nextId
        adminId := user._id
        fileName := fileName
        totalRows := rows.length
        successRows := successCount
        failedRows := errors.length
        errors := errors
        certificateIds := validCertificates.map (fun c => c.certificateId) }
    ({ db1 with uploadLogs := db1.uploadLogs ++ [uploadLog], nextId := db1.nextId + 1 },
      .ok 200 "Upload completed"
        { totalRows := rows.length
          successRows := successCount
          failedRows := errors.length
          errors := errors.take 50
          uploadLogId := uploadLog._id })

/-- Route `POST /upload/certificates` (admin), after `upload.single('file')`.  The
`body('file')` validator only records its error: the handler never reads
`validationResult`, so a missing file surfaces as the exception of
`req.file.buffer`, which the `catch` turns into the 500 answer. -/
def postUploadCertificates (db : Db) (user : ReqUser) (rt : Runtime) (now : Nat)
    (file : Option UploadedFile) : Db × Reply UploadResult :=
  match file with
  | none => (db, .error 500 "Failed to process Excel file")
  | some f =>
    if !fileFilter f then (db, .thrown "Only Excel files are allowed")
    else if f.size > 10 * 1024 * 1024 then (db, .thrown "MulterError")
    else
      match f.sheet with
      | none => (db, .error 500 "Failed to process Excel file")
      | some rows =>
        if rows.length = 0 then (db, .error 400 "Excel file is empty")
        else if (missingColumns rows).length > 0 then
          (db, .error 400 ("Missing required columns: " ++ ", ".intercalate (missingColumns rows)))
        else processSheet db user rt now f.originalname rows

/-! ## Properties of the certificates collection -/

/-- What the store guarantees of the certificates collection: `_id` is a key,
`certificateId` carries a unique index and every stored value went through the
setters of the schema. -/
def CertificatesWellFormed (rt : Runtime) (db : Db) : Prop :=
  (db.certificates.map (fun c => c._id)).Nodup ∧
  (db.certificates.map (fun c => c.certificateId)).Nodup ∧
  ∀ c ∈ db.certificates, certificateIdSetters rt c.certificateId = c.certificateId

instance (rt : Runtime) (db : Db) : Decidable (CertificatesWellFormed rt db) := by
  unfold CertificatesWellFormed; infer_instance

/-- The insert of an upload goes through: there is nothing to insert, or
`insertMany` succeeds. -/
def uploadInserts (db : Db) (user : ReqUser) (rt : Runtime) (now : Nat)
    (rows : List Row) : Bool :=
  let validCertificates := (uploadLoop db rt user._id 0 rows).1
  validCertificates.length = 0 || (insertMany rt now db validCertificates).2

/-- The states reachable from the empty store through the certificate routes
and the job and application routes. -/
inductive StoreReachable (rt : Runtime) : Db → Prop where
  | empty : StoreReachable rt emptyDb
  | upload {db : Db} (user : ReqUser) (now : Nat) (file : Option UploadedFile) :
      StoreReachable rt db → StoreReachable rt (postUploadCertificates db user rt now file).1
  | deleteCertificate {db : Db} (now : Nat) (id : IdParam) :
      StoreReachable rt db → StoreReachable rt (deleteCertificate db now id).1
  | postJob {db : Db} (user : ReqUser) (now : Nat) (b : JobBody) :
      StoreReachable rt db → StoreReachable rt (postJob db user now b).1
  | putJob {db : Db} (user : ReqUser) (id : IdParam) (b : JobBody) :
      StoreReachable rt db → StoreReachable rt (putJob db user id b).1
  | deleteJob {db : Db} (user : ReqUser) (id : IdParam) :
      StoreReachable rt db → StoreReachable rt (deleteJob db user id).1
  | getJob {db : Db} (id : IdParam) :
      StoreReachable rt db → StoreReachable rt (getJob db id).1
  | postApplication {db : Db} (user : ReqUser) (now : Nat) (b : ApplyBody) :
      StoreReachable rt db → StoreReachable rt (postApplication db user now b).1
  | deleteApplication {db : Db} (user : ReqUser) (id : IdParam) :
      StoreReachable rt db → StoreReachable rt (deleteApplication db user id).1
  | putApplicationStatus {db : Db} (user : ReqUser) (now : Nat) (id : IdParam) (b : StatusBody) :
      StoreReachable rt db → StoreReachable rt (putApplicationStatus db user now id b).1

/-! ### Scenario: certificate sheets -/

def admin1 : ReqUser := { _id := 300, name := "Root", role := "admin" }

/-- A sheet row with the five required columns. -/
def certRow (id name : String) : Row :=
  [("Certificate ID", .str id), ("Student Name", .str name), ("Domain", .str "Web"),
   ("Start Date", .num 1000), ("End Date", .num 2000)]

def sheetFile (rows : List Row) : UploadedFile :=
  { originalname := "batch.xlsx", mimetype := "application/vnd.ms-excel", size := 4096,
    sheet := some rows }

/-- The store after admin1 uploads a sheet with the single certificate 'a1'. -/
def certDb : Db :=
  (postUploadCertificates emptyDb admin1 testRuntime 40
    (some (sheetFile [certRow "a1" "Ann"]))).1

/-- The certificate that upload stores. -/
def certA1 : Certificate :=
  { _id := 0, certificateId := "A1", studentName := "Ann", domain := "Web",
    startDate := some 1000, endDate := some 2000, isActive := true, uploadedBy := some 300,
    createdAt := 40, updatedAt := 40 }

/-- A sheet whose two rows carry the same certificate ID, up to letter case. -/
def repeatedSheet : List Row := [certRow "b7" "Bob", certRow "B7" "Bea"]

/-- A sheet with one good row, one row without a student name and one row whose
ID is already stored in `certDb`. -/
def mixedSheet : List Row :=
  [certRow "c3" "Cy",
   [("Certificate ID", .str "d4"), ("Student Name", .missing), ("Domain", .str "Web"),
    ("Start Date", .num 1000), ("End Date", .num 2000)],
   certRow "A1" "Al"]

/-! ## Second group of properties: definitions -/

/-- The error the `body('file').custom(...)` validator of
`POST /upload/certificates` records for a request. -/
def uploadFileErrors (file : Option UploadedFile) : List String :=
  if file.isNone then ["No file uploaded"] else []

/-- The specification's 'missing' cell: absent from the row, or holding an
empty value (the empty text, the number 0, false). -/
def cellMissing : Cell → Prop
  | .missing => True
  | .str s => s = ""
  | .num n => n = 0
  | .bool b => b = false

instance (c : Cell) : Decidable (cellMissing c) := by
  cases c <;> simp only [cellMissing] <;> infer_instance

/-- The specification's text cell that is in order: a text, and not the empty
one. -/
def cellIsText : Cell → Prop
  | .str s => s ≠ ""
  | _ => False

instance (c : Cell) : Decidable (cellIsText c) := by
  cases c <;> simp only [cellIsText] <;> infer_instance

/-- The normalised certificate ID of a row, in the specification's words: the
row's 'Certificate ID' upper-cased and trimmed. -/
def specNormalizedId (rt : Runtime) (row : Row) : String :=
  trim (rt.toUpperCase (row.get "Certificate ID").toString)

/-- A row that the specification says must be reported: Certificate ID,
Student Name or Domain is missing or not a text, Start Date or End Date is
missing, or the row's normalised ID is the certificateId of a stored
certificate. -/
def rowDefective (rt : Runtime) (db : Db) (row : Row) : Prop :=
  ¬ cellIsText (row.get "Certificate ID") ∨ ¬ cellIsText (row.get "Student Name") ∨
  ¬ cellIsText (row.get "Domain") ∨ cellMissing (row.get "Start Date") ∨
  cellMissing (row.get "End Date") ∨
  ∃ c ∈ db.certificates, c.certificateId = specNormalizedId rt row

instance (rt : Runtime) (db : Db) (row : Row) : Decidable (rowDefective rt db row) := by
  unfold rowDefective; infer_instance

/-- A sheet with a good row, a row without student name, a row whose ID is a
number, a row whose end date is empty, and a row whose ID (padded, in lower
case) is already stored in `certDb`. -/
def defectSheet : List Row :=
  [certRow "c3" "Cy",
   [("Certificate ID", .str "d4"), ("Student Name", .missing), ("Domain", .str "Web"),
    ("Start Date", .num 1000), ("End Date", .num 2000)],
   [("Certificate ID", .num 55), ("Student Name", .str "Eve"), ("Domain", .str "Web"),
    ("Start Date", .num 1000), ("End Date", .num 2000)],
   [("Certificate ID", .str "f6"), ("Student Name", .str "Fay"), ("Domain", .str "Web"),
    ("Start Date", .num 1000), ("End Date", .str "")],
   certRow " a1 " "Al"]

/-- The store keeps `_id` a key of the jobs collection. -/
def JobIdsUnique (db : Db) : Prop :=
  (db.jobs.map (fun j => j._id)).Nodup

instance (db : Db) : Decidable (JobIdsUnique db) := by
  unfold JobIdsUnique; infer_instance

/-- The store keeps `_id` a key of the applications collection. -/
def ApplicationIdsUnique (db : Db) : Prop :=
  (db.applications.map (fun a => a._id)).Nodup

instance (db : Db) : Decidable (ApplicationIdsUnique db) := by
  unfold ApplicationIdsUnique; infer_instance

/-- A second employer, who owns no job of the scenario. -/
def employer2 : ReqUser := { _id := 101, name := "Bolt", role := "employer" }

/-- A second seeker, who has no application in the scenario. -/
def seeker2 : ReqUser := { _id := 201, name := "Tia", role := "seeker" }

/-- The request that invites the applicant to an interview. -/
def interviewBody : StatusBody :=
  { status := some "interview",
    interviewDate := some { epoch := some 5000, localeDate := "1/1/2030" } }

/-- A valid `POST /jobs` body that names another user as `employerId`. -/
def jobBodyWithOwner : JobBody := { jobBody1 with employerId := some 999 }

/-- A valid `POST /jobs` body that brings the `_id` of the job of the
scenario. -/
def jobBodyWithTakenId : JobBody := { jobBody1 with _id := .valid 0 }

/-- The store after seeker1's application was marked reviewed. -/
def reviewedDb : Db :=
  (putApplicationStatus appliedDb employer1 30 (.valid 1) { status := some "reviewed" }).1

/-! ## routes/auth.js -/

/-- The token `jwt.sign({ userId }, ...)` returns, named by the id it signs. -/
structure Jwt where
  userId : ObjectId
deriving DecidableEq, Repr

/-- The `user` object and token of the register and login answers. -/
structure AuthPayload where
  id : ObjectId
  name : String
  email : String
  role : String
  token : Jwt
deriving DecidableEq, Repr

/-- The first user whose stored `email` is the given string. -/
def Db.findUserByEmail (db : Db) (email : String) : Option User :=
  db.users.find? (fun u => u.email == email)

/-- Query `User.findOne({ email: v })`: the filter value is cast through the
setters of the path before it is compared. -/
def Db.findOneUserByEmail (db : Db) (rt : Runtime) (v : String) : Option User :=
  db.findUserByEmail (emailSetters rt v)

/-- Query `User.findById`. -/
def Db.findUser (db : Db) (id : ObjectId) : Option User :=
  db.users.find? (fun u => u._id == id)

/-- Effect of `user.save()` on a user that was loaded from the store. -/
def Db.saveUser (db : Db) (u : User) : Db :=
  { db with users := db.users.map (fun x => if x._id = u._id then u else x) }

/-- The schema validators of models/User.js that `user.save()` runs on a new
user. -/
def userSchemaValid (u : User) : Bool :=
  u.name != "" && decide (jsLength u.name ≤ 100) &&
  u.email != "" && emailPattern u.email &&
  decide (6 ≤ jsLength u.passwordHash) &&
  decide (u.role ∈ ["admin", "employer", "seeker"])

/-- The body of `POST /auth/register`. -/
structure RegisterBody where
  name : Option String := none
  email : Option String := none
  password : Option String := none
  role : Option String := none
deriving DecidableEq, Repr

/-- The express-validator chain of `POST /auth/register`. -/
def registerErrors (rt : Runtime) (b : RegisterBody) : List String :=
  (if trimmed b.name = "" then ["Name is required"] else []) ++
  (if rt.isEmail (b.email.getD "") then [] else ["Please enter a valid email"]) ++
  (if (b.password.getD "").length < 6 then ["Password must be at least 6 characters"]
    else []) ++
  (match b.role with
    | some r => if r ∈ ["employer", "seeker"] then [] else ["Invalid role"]
    | none => ["Invalid role"])

/-- Saving the profile `new Profile({ userId })` of a new user; the unique
index on `userId` rejects a second profile of the same user. -/
def Db.addProfile (db : Db) (userId : ObjectId) : Db × Bool :=
  if (db.findProfile userId).isSome then (db, false)
  else ({ db with profiles := db.profiles ++ [{ userId := userId }] }, true)

/-- Route `POST /auth/register`. -/
def register (rt : Runtime) (db : Db) (b : RegisterBody) : Db × Reply AuthPayload :=
  let errs := registerErrors rt b
  if errs ≠ [] then (db, .errors 400 errs)
  else
    let email := rt.toLowerCase (b.email.getD "")
    if (db.findOneUserByEmail rt email).isSome then (db, .error 400 "Email already registered")
    else
      let user : User :=
        { _id := db.nextId
          name := trimmed b.name
          email := emailSetters rt email
          passwordHash := b.password.getD ""
          role := b.role.getD "seeker" }
      if !userSchemaValid user then (db, .thrown "ValidationError")
      else if (db.findUserByEmail user.email).isSome then (db, .thrown "MongoServerError")
      else
        let db1 : Db := { db with users := db.users ++ [user], nextId := db.nextId + 1 }
        let r := db1.addProfile user._id
        if !r.2 then (r.1, .thrown "MongoServerError")
        else
          (r.1, .ok 201 "Registration successful"
            { id := user._id, name := user.name, email := user.email, role := user.role,
              token := { userId := user._id } })

/-- The body of `POST /auth/login`. -/
structure LoginBody where
  email : Option String := none
  password : Option String := none
deriving DecidableEq, Repr

/-- The express-validator chain of `POST /auth/login`. -/
def loginErrors (rt : Runtime) (b : LoginBody) : List String :=
  (if rt.isEmail (b.email.getD "") then [] else ["Please enter a valid email"]) ++
  (if b.password.getD "" = "" then ["Password is required"] else [])

/-- Route `POST /auth/login`. -/
def login (rt : Runtime) (db : Db) (now : Nat) (b : LoginBody) : Db × Reply AuthPayload :=
  let errs := loginErrors rt b
  if errs ≠ [] then (db, .errors 400 errs)
  else
    match db.findOneUserByEmail rt (rt.toLowerCase (b.email.getD "")) with
    | none => (db, .error 401 "Invalid credentials")
    | some user =>
      if !user.isActive then (db, .error 401 "Account is deactivated")
      else if b.password.getD "" ≠ user.passwordHash then (db, .error 401 "Invalid credentials")
      else
        (db.saveUser { user with lastLogin := some now },
          .ok 200 "Login successful"
            { id := user._id, name := user.name, email := user.email, role := user.role,
              token := { userId := user._id } })

/-- The method `createPasswordResetToken` of models/User.js, for the random
token `resetToken` it drew at time `now`; the token itself is what it returns. -/
def createPasswordResetToken (rt : Runtime) (u : User) (now : Nat) (resetToken : String) : User :=
  { u with
    passwordResetToken := some (rt.sha256 resetToken)
    passwordResetExpires := some (now + 10 * 60 * 1000) }

/-- Route `POST /auth/forgot-password`; `resetToken` is the random token drawn
when a user is found.  The payload is the `resetToken` field of the answer. -/
def forgotPassword (rt : Runtime) (db : Db) (now : Nat) (email : Option String)
    (resetToken : String) : Db × Reply (Option String) :=
  if !rt.isEmail (email.getD "") then (db, .errors 400 ["Please enter a valid email"])
  else
    match db.findOneUserByEmail rt (rt.toLowerCase (email.getD "")) with
    | none => (db, .ok 200 "If an account exists, a password reset link has been sent" none)
    | some user =>
      (db.saveUser (createPasswordResetToken rt user now resetToken),
        .ok 200 "If an account exists, a password reset link has been sent"
          (if rt.nodeEnv = "development" then some resetToken else none))

/-- Query `User.findOne({ passwordResetToken, passwordResetExpires: { $gt } })`. -/
def Db.findUserByResetToken (db : Db) (hashedToken : String) (now : Nat) : Option User :=
  db.users.find? (fun u =>
    u.passwordResetToken == some hashedToken &&
    (match u.passwordResetExpires with
      | some e => decide (e > now)
      | none => false))

/-- Route `POST /auth/reset-password/:token`. -/
def resetPassword (rt : Runtime) (db : Db) (now : Nat) (token : String)
    (password : Option String) : Db × Reply Jwt :=
  if (password.getD "").length < 6 then
    (db, .errors 400 ["Password must be at least 6 characters"])
  else
    match db.findUserByResetToken (rt.sha256 token) now with
    | none => (db, .error 400 "Token is invalid or has expired")
    | some user =>
      (db.saveUser
          { user with
            passwordHash := password.getD ""
            passwordResetToken := none
            passwordResetExpires := none },
        .ok 200 "Password reset successful" { userId := user._id })

/-- Route `PUT /auth/change-password`. -/
def changePassword (db : Db) (user : ReqUser) (currentPassword newPassword : Option String) :
    Db × Reply Unit :=
  let errs :=
    (if currentPassword.getD "" = "" then ["Current password is required"] else []) ++
    (if (newPassword.getD "").length < 6 then ["New password must be at least 6 characters"]
      else [])
  if errs ≠ [] then (db, .errors 400 errs)
  else
    match db.findUser user._id with
    | none => (db, .thrown "TypeError")
    | some u =>
      if currentPassword.getD "" ≠ u.passwordHash then
        (db, .error 400 "Current password is incorrect")
      else
        (db.saveUser { u with passwordHash := newPassword.getD "" },
          .ok 200 "Password changed successfully" ())

/-- Route `POST /auth/saved-jobs/:jobId`. -/
def saveJobForLater (db : Db) (user : ReqUser) (jobId : IdParam) : Db × Reply (List ObjectId) :=
  match db.findUser user._id with
  | none => (db, .thrown "TypeError")
  | some u =>
    match jobId with
    | .absent => (db, .thrown "CastError")
    | .invalid => (db, .thrown "CastError")
    | .valid j =>
      if j ∈ u.savedJobs then (db, .error 400 "Job already saved")
      else
        (db.saveUser { u with savedJobs := u.savedJobs ++ [j] },
          .ok 200 "Job saved successfully" (u.savedJobs ++ [j]))

/-- Route `DELETE /auth/saved-jobs/:jobId`. -/
def removeSavedJob (db : Db) (user : ReqUser) (jobId : IdParam) : Db × Reply (List ObjectId) :=
  match db.findUser user._id with
  | none => (db, .thrown "TypeError")
  | some u =>
    let kept := u.savedJobs.filter (fun x => IdParam.valid x != jobId)
    (db.saveUser { u with savedJobs := kept }, .ok 200 "Job removed from saved" kept)

/-- Route `POST /auth/admin-seed`. -/
def adminSeed (db : Db) : Db × Reply Unit :=
  if (db.users.find? (fun u => u.role == "admin")).isSome then
    (db, .error 400 "Admin user already exists")
  else
    let admin : User :=
      { _id := db.nextId, name := "Admin", email := "admin@amdox.com",
        passwordHash := "admin123", role := "admin" }
    if (db.findUserByEmail admin.email).isSome then (db, .thrown "MongoServerError")
    else
      let db1 : Db := { db with users := db.users ++ [admin], nextId := db.nextId + 1 }
      let r := db1.addProfile admin._id
      if !r.2 then (r.1, .thrown "MongoServerError")
      else (r.1, .ok 201 "Admin user created" ())

/-- A request to one of the routes of routes/auth.js. -/
inductive AuthRequest where
  | register (b : RegisterBody)
  | login (now : Nat) (b : LoginBody)
  | logout
  | me (user : ReqUser)
  | forgotPassword (now : Nat) (email : Option String) (resetToken : String)
  | resetPassword (now : Nat) (token : String) (password : Option String)
  | changePassword (user : ReqUser) (currentPassword newPassword : Option String)
  | saveJob (user : ReqUser) (jobId : IdParam)
  | removeSavedJob (user : ReqUser) (jobId : IdParam)
  | savedJobs (user : ReqUser)
  | adminSeed

/-- The store after an auth request; `logout`, `me` and the saved-jobs listing
only read. -/
def authStep (rt : Runtime) (db : Db) : AuthRequest → Db
  | .register b => (register rt db b).1
  | .login now b => (login rt db now b).1
  | .logout => db
  | .me _ => db
  | .forgotPassword now email resetToken => (forgotPassword rt db now email resetToken).1
  | .resetPassword now token password => (resetPassword rt db now token password).1
  | .changePassword user c n => (changePassword db user c n).1
  | .saveJob user jobId => (saveJobForLater db user jobId).1
  | .removeSavedJob user jobId => (removeSavedJob db user jobId).1
  | .savedJobs _ => db
  | .adminSeed => (adminSeed db).1

/-! ## routes/profile.js -/

/-- The body of `PUT /profile`; `none` is `undefined`.  The last three fields
are paths of the schema that the handler never reads. -/
structure ProfileBody where
  bio : Option String := none
  skills : Option (List String) := none
  experience : Option (List Experience) := none
  companyName : Option String := none
  companyLogo : Option String := none
  companyDescription : Option String := none
  website : Option String := none
  location : Option String := none
  phone : Option String := none
  userId : Option ObjectId := none
  resumeURL : Option String := none
  resumePublicId : Option String := none
deriving DecidableEq, Repr

/-- The express-validator chain of `PUT /profile`: the two length checks (the
`isArray` and `isString` checks hold by the types of the body). -/
def putProfileErrors (b : ProfileBody) : List String :=
  (match b.bio with
    | some v => if v.length ≤ 2000 then [] else ["Invalid value"]
    | none => []) ++
  (match b.companyDescription with
    | some v => if v.length ≤ 2000 then [] else ["Invalid value"]
    | none => [])

/-- The schema pattern of a website, `/^https?:\/\//`. -/
def websitePattern (s : String) : Bool :=
  "http://".data.isPrefixOf s.data || "https://".data.isPrefixOf s.data

/-- The schema pattern of a phone number, `/^\+?[\d\s-]+$/`. -/
def phonePattern (s : String) : Bool :=
  let body := match s.data with
    | '+' :: rest => rest
    | cs => cs
  body != [] && body.all (fun c => c.isDigit || isWhiteSpace c || c == '-')

/-- A `match` validator passes a missing and an empty string. -/
def matchValid (pattern : String → Bool) : Option String → Bool
  | none => true
  | some v => v == "" || pattern v

/-- The schema validators of models/Profile.js that `profile.save()` runs. -/
def profileSchemaValid (p : Profile) : Bool :=
  decide (∀ v ∈ p.bio, jsLength v ≤ 2000) &&
  decide (∀ v ∈ p.companyDescription, jsLength v ≤ 2000) &&
  matchValid websitePattern p.website && matchValid phonePattern p.phone &&
  p.experience.all (fun e => e.title != "" && e.company != "" && e.«from».isSome)

/-- The three `forEach` loops of `PUT /profile`: the fields of the requester's
role and the shared fields are assigned when the body defines them.  The
schema trims each skill. -/
def applyProfileBody (role : String) (p : Profile) (b : ProfileBody) : Profile :=
  let p1 : Profile :=
    if role = "seeker" then
      { p with
        bio := match b.bio with
          | some v => some v
          | none => p.bio
        skills := match b.skills with
          | some v => v.map trim
          | none => p.skills
        experience := b.experience.getD p.experience }
    else p
  let p2 : Profile :=
    if role = "employer" then
      { p1 with
        companyName := match b.companyName with
          | some v => some v
          | none => p1.companyName
        companyLogo := match b.companyLogo with
          | some v => some v
          | none => p1.companyLogo
        companyDescription := match b.companyDescription with
          | some v => some v
          | none => p1.companyDescription
        website := match b.website with
          | some v => some v
          | none => p1.website }
    else p1
  { p2 with
    location := match b.location with
      | some v => some v
      | none => p2.location
    phone := match b.phone with
      | some v => some v
      | none => p2.phone }

/-- Route `PUT /profile` (any authenticated user). -/
def putProfile (db : Db) (user : ReqUser) (b : ProfileBody) : Db × Reply Profile :=
  let errs := putProfileErrors b
  if errs ≠ [] then (db, .errors 400 errs)
  else
    match db.findProfile user._id with
    | some existing =>
      let profile := applyProfileBody user.role existing b
      if !profileSchemaValid profile then (db, .thrown "ValidationError")
      else
        ({ db with profiles := db.profiles.map (fun x =>
              if x.userId = existing.userId then profile else x) },
          .ok 200 "Profile updated successfully" profile)
    | none =>
      let profile := applyProfileBody user.role { userId := user._id } b
      if !profileSchemaValid profile then (db, .thrown "ValidationError")
      else
        ({ db with profiles := db.profiles ++ [profile] },
          .ok 200 "Profile updated successfully" profile)

/-- The middleware `auth` admits a request of a user of the store. -/
def Authenticated (db : Db) (user : ReqUser) : Prop :=
  ∃ u ∈ db.users, u._id = user._id

/-- The states reachable from the empty store through `POST /auth/register`,
`POST /auth/admin-seed` and `PUT /profile`. -/
inductive AccountReachable (rt : Runtime) : Db → Prop where
  | empty : AccountReachable rt emptyDb
  | register {db : Db} (b : RegisterBody) :
      AccountReachable rt db → AccountReachable rt (register rt db b).1
  | adminSeed {db : Db} :
      AccountReachable rt db → AccountReachable rt (adminSeed db).1
  | putProfile {db : Db} (user : ReqUser) (b : ProfileBody) :
      Authenticated db user → AccountReachable rt db → AccountReachable rt (putProfile db user b).1

/-- The number of profiles of a user. -/
def profileCount (db : Db) (userId : ObjectId) : Nat :=
  (db.profiles.filter (fun p => p.userId == userId)).length

/-! ### Scenario: accounts -/

def registerSam : RegisterBody :=
  { name := some "Sam", email := some "Sam@Mail.com", password := some "secret1",
    role := some "seeker" }

def registerAcme : RegisterBody :=
  { name := some "Acme", email := some "hr@acme.com", password := some "secret2",
    role := some "employer" }

/-- The store after Sam (id 0) and Acme (id 1) registered. -/
def accountsDb : Db :=
  (register testRuntime (register testRuntime emptyDb registerSam).1 registerAcme).1

/-- Sam and Acme as the `auth` middleware presents them. -/
def samUser : ReqUser := { _id := 0, name := "Sam", role := "seeker" }

def acmeUser : ReqUser := { _id := 1, name := "Acme", role := "employer" }

/-- A profile update that defines fields of both roles. -/
def profileBody1 : ProfileBody :=
  { bio := some "Hello", skills := some [" js ", "lean"], companyName := some "Sneaky",
    website := some "https://x.io", location := some "Pune", phone := some "+91 20-1234" }

/-- The store of the scenario with Sam's account deactivated. -/
def deactivatedDb : Db :=
  { accountsDb with users := accountsDb.users.map (fun u =>
      if u._id = 0 then { u with isActive := false } else u) }

/-- The unique index on `email` of models/User.js. -/
def UserEmailsUnique (db : Db) : Prop :=
  (db.users.map (fun u => u.email)).Nodup

instance (db : Db) : Decidable (UserEmailsUnique db) := by
  unfold UserEmailsUnique; infer_instance

/-! ## Third group of properties: definitions -/

/-- The states reachable from a store `db0` through `POST /auth/register` and
`POST /auth/admin-seed`. -/
inductive SignupReachable (rt : Runtime) (db0 : Db) : Db → Prop where
  | start : SignupReachable rt db0 db0
  | register {db : Db} (b : RegisterBody) :
      SignupReachable rt db0 db → SignupReachable rt db0 (register rt db b).1
  | adminSeed {db : Db} :
      SignupReachable rt db0 db → SignupReachable rt db0 (adminSeed db).1

/-- The number of users with role 'admin'. -/
def adminCount (db : Db) : Nat :=
  (db.users.filter (fun u => u.role == "admin")).length

/-- A registration that names an existing email and has no name. -/
def registerNameless : RegisterBody :=
  { name := some "", email := some "sam@mail.com", password := some "secret9",
    role := some "seeker" }

/-- A registration that asks for the role 'admin'. -/
def registerAdmin : RegisterBody :=
  { name := some "Eve", email := some "eve@mail.com", password := some "secret9",
    role := some "admin" }

/-- The store after Sam asked for a password reset at time 100 and the token
'tok' was drawn. -/
def resetRequestedDb : Db :=
  (forgotPassword testRuntime accountsDb 100 (some "sam@mail.com") "tok").1

/-- The store after Sam then reset the password at time 200. -/
def resetDoneDb : Db :=
  (resetPassword testRuntime resetRequestedDb 200 "tok" (some "newsecret")).1

/-! ### routes/applications.js: reading one application, statistics -/

/-- Route `GET /applications/:id` (any authenticated user); the payload is the
application and the `seekerProfile` of the answer.  The two `populate` calls
leave `null` for a job or seeker that is not in the store, which the handler
then dereferences. -/
def getApplication (db : Db) (user : ReqUser) (id : IdParam) :
    Reply (Application × Option Profile) :=
  match id with
  | .absent => .error 404 "Application not found"
  | .invalid => .thrown "CastError"
  | .valid i =>
    match db.findApplication i with
    | none => .error 404 "Application not found"
    | some application =>
      match db.findUser application.seekerId with
      | none => .thrown "TypeError"
      | some seeker =>
        match db.findJob application.jobId with
        | none => .thrown "TypeError"
        | some job =>
          let isSeeker := seeker._id == user._id
          let isEmployer := job.employerId == user._id
          if !isSeeker && !isEmployer && user.role != "admin" then
            .error 403 "Not authorized to view this application"
          else
            let seekerProfile :=
              if isEmployer || user.role == "admin" then db.findProfile seeker._id else none
            .ok 200 "" (application, seekerProfile)

/-- The `$match` and `$group` stages of the statistics query: one group per
status among the seeker's applications, with its count. -/
def statusGroups (db : Db) (seekerId : ObjectId) : List (String × Nat) :=
  let mine := db.applications.filter (fun a => a.seekerId == seekerId)
  (mine.map (fun a => a.status)).dedup.map
    (fun s => (s, (mine.filter (fun a => a.status == s)).length))

/-- Assignment `result[key] = value` on an object given by its entries. -/
def setKey (obj : List (String × Nat)) (key : String) (value : Nat) : List (String × Nat) :=
  if obj.any (fun e => e.1 == key) then
    obj.map (fun e => if e.1 = key then (key, value) else e)
  else obj ++ [(key, value)]

/-- Reading `result[key]`, 0 standing for a key that is not there. -/
def getKey (obj : List (String × Nat)) (key : String) : Nat :=
  ((obj.find? (fun e => e.1 == key)).map Prod.snd).getD 0

/-- Route `GET /applications/seeker/stats` (seeker): the answered object. -/
def seekerStats (db : Db) (user : ReqUser) : List (String × Nat) :=
  (statusGroups db user._id).foldl
    (fun result g => setKey (setKey result g.1 g.2) "total" (getKey (setKey result g.1 g.2) "total" + g.2))
    [("total", 0), ("pending", 0), ("reviewed", 0), ("shortlisted", 0), ("interview", 0),
     ("hired", 0), ("rejected", 0)]

/-- The number of a seeker's applications with a given status. -/
def statusCount (db : Db) (seekerId : ObjectId) (status : String) : Nat :=
  (db.applications.filter (fun a => a.seekerId == seekerId && a.status == status)).length

/-- The schema lets an application hold one of the six statuses only. -/
def StatusesInEnum (db : Db) : Prop :=
  ∀ a ∈ db.applications, a.status ∈ applicationStatuses

instance (db : Db) : Decidable (StatusesInEnum db) := by
  unfold StatusesInEnum; infer_instance

/-! ### routes/dashboard.js -/

/-- Truthiness of `profile[field]` together with the array test of
`calculateProfileCompletion`: a text field counts when present and not empty,
an array field when not empty. -/
def fieldFilled (p : Profile) (field : String) : Bool :=
  let text (v : Option String) : Bool := match v with
    | some s => s != ""
    | none => false
  if field = "bio" then text p.bio
  else if field = "skills" then !p.skills.isEmpty
  else if field = "experience" then !p.experience.isEmpty
  else if field = "resumeURL" then text p.resumeURL
  else if field = "location" then text p.location
  else if field = "phone" then text p.phone
  else if field = "companyName" then text p.companyName
  else if field = "companyDescription" then text p.companyDescription
  else if field = "companyLogo" then text p.companyLogo
  else if field = "website" then text p.website
  else false

/-- The field list `calculateProfileCompletion` picks for a role. -/
def completionFields (role : String) : List String :=
  if role = "seeker" then ["bio", "skills", "experience", "resumeURL", "location", "phone"]
  else if role = "employer" then
    ["companyName", "companyDescription", "companyLogo", "website", "location", "phone"]
  else []

/-- The function `calculateProfileCompletion(profile, role)`; `none` is the
`NaN` of a division by an empty field list.  `Math.round(c / n * 100)` is the
nearest integer to 100c/n, halves going up. -/
def calculateProfileCompletion (profile : Option Profile) (role : String) : Option Nat :=
  match profile with
  | none => some 0
  | some p =>
    let fields := completionFields role
    let completed := (fields.filter (fieldFilled p)).length
    if fields.length = 0 then none
    else some ((200 * completed + fields.length) / (2 * fields.length))

/-- The value the specification gives for k filled fields out of six:
round(100·k/6). -/
def specCompletion (k : Nat) : Nat :=
  [0, 17, 33, 50, 67, 83, 100].getD k 100

/-! ### routes/jobs.js: the listing -/

/-- The query of `GET /jobs` as far as pagination goes: `page` and `limit`
are the integers their text denotes (`none` when absent), of any size.  The
other parameters of the query are taken to pass their validators; they decide
the list of matching jobs. -/
structure ListQuery where
  page : Option Int := none
  limit : Option Int := none
deriving DecidableEq, Repr

/-- A JavaScript number that is a whole number from 0 on, or `Infinity`. -/
inductive JsNumber where
  | finite (n : Nat)
  | infinity
deriving DecidableEq, Repr

/-- The number of binary digits that `n` has beyond 53, found by halving. -/
def excessBits : Nat → Nat → Nat
  | 0, _ => 0
  | fuel + 1, n => if n < 2 ^ 53 then 0 else excessBits fuel (n / 2) + 1

/-- The whole number nearest to `n / d`, the even one of two that are equally
near: the rounding of binary64 arithmetic. -/
def roundHalfEven (n d : Nat) : Nat :=
  let m := n / d
  let r := n % d
  if d < 2 * r ∨ (2 * r = d ∧ m % 2 = 1) then m + 1 else m

/-- The binary64 value of the whole number `n`, which is what `parseInt`
gives for a text of decimal digits and what a sum or product of whole numbers
is rounded to: `n` is rounded to 53 significant binary digits, and the result
is `Infinity` from 2^1024 on (`s` digits are dropped; the result is below
2^1024 when `s < 971`, or `s = 971` and the significand stays below 2^53). -/
def toNumber (n : Nat) : JsNumber :=
  let s := excessBits n n
  let m := roundHalfEven n (2 ^ s)
  if s < 971 ∨ (s = 971 ∧ m < 2 ^ 53) then .finite (m * 2 ^ s) else .infinity

/-- JavaScript `x - 1` for a number `x` that is at least 1. -/
def JsNumber.minusOne : JsNumber → JsNumber
  | .finite n => toNumber (n - 1)
  | .infinity => .infinity

/-- JavaScript `x * l` for a whole number `l` from 1 to 50. -/
def JsNumber.times (x : JsNumber) (l : Nat) : JsNumber :=
  match x with
  | .finite n => toNumber (n * l)
  | .infinity => .infinity

/-- The number of doublings of `n` until `n / b` has 53 binary digits. -/
def scaleUp : Nat → Nat → Nat → Nat
  | 0, _, _ => 0
  | fuel + 1, n, b => if 2 ^ 52 * b ≤ n then 0 else scaleUp fuel (2 * n) b + 1

/-- JavaScript `Math.ceil(a / b)` for a count `a` and a whole number `b` from 1
to 50: the quotient is rounded to 53 significant binary digits (it is
`m / 2 ^ k`, or `m * 2 ^ s` when it has more than 53 digits before the point)
and then rounded up to a whole number. -/
def ceilQuotient (a b : Nat) : Nat :=
  if a = 0 then 0
  else if a / b < 2 ^ 53 then
    let k := scaleUp (53 + b) a b
    let m := roundHalfEven (a * 2 ^ k) b
    (m + 2 ^ k - 1) / 2 ^ k
  else
    let s := excessBits (a / b) (a / b)
    roundHalfEven a (b * 2 ^ s) * 2 ^ s

/-- The `pagination` object of a listing. -/
structure Pagination where
  current : JsNumber
  pages : Nat
  total : Nat
deriving DecidableEq, Repr

/-- The answer of `GET /jobs`, with the number of documents the query
skipped. -/
structure JobListing where
  jobs : List Job
  skipped : Nat
  pagination : Pagination
deriving DecidableEq, Repr

/-- The validators `page: isInt({ min: 1 })` and `limit: isInt({ min: 1, max: 50 })`.
They compare the number the text converts to; conversion keeps the order and
1 and 50 convert to themselves, so the integers are compared here. -/
def listQueryErrors (q : ListQuery) : List String :=
  (match q.page with
    | some p => if 1 ≤ p then [] else ["Invalid value"]
    | none => []) ++
  (match q.limit with
    | some l => if 1 ≤ l ∧ l ≤ 50 then [] else ["Invalid value"]
    | none => [])

/-- Route `GET /jobs`: `matching` is the list of the active jobs that satisfy
the filters of the query, in the requested sort order.  The store refuses a
`skip` that is no 64-bit integer. -/
def listJobs (matching : List Job) (q : ListQuery) : Reply JobListing :=
  let errs := listQueryErrors q
  if errs ≠ [] then .errors 400 errs
  else
    let page := toNumber (q.page.getD 1).toNat
    let limit := (q.limit.getD 10).toNat
    let skip := page.minusOne.times limit
    match skip with
    | .infinity => .thrown "MongoServerError"
    | .finite skipped =>
      if 2 ^ 63 ≤ skipped then .thrown "MongoServerError"
      else
        let total := matching.length
        .ok 200 ""
          { jobs := (matching.drop skipped).take limit
            skipped := skipped
            pagination := { current := page, pages := ceilQuotient total limit, total := total } }

/-! ### routes/notifications.js -/

/-- Route `PUT /notifications/:id/read`. -/
def markNotificationRead (db : Db) (user : ReqUser) (now : Nat) (id : IdParam) :
    Db × Reply Notification :=
  match id with
  | .absent => (db, .error 404 "Notification not found")
  | .invalid => (db, .thrown "CastError")
  | .valid i =>
    match db.notifications.find? (fun n => n._id == i && n.userId == user._id) with
    | none => (db, .error 404 "Notification not found")
    | some notification =>
      let n1 := { notification with isRead := true, readAt := some now }
      ({ db with notifications := db.notifications.map (fun x =>
            if x._id = n1._id then n1 else x) },
        .ok 200 "Notification marked as read" n1)

/-- Route `PUT /notifications/read-all`. -/
def markAllNotificationsRead (db : Db) (user : ReqUser) (now : Nat) : Db × Reply Unit :=
  ({ db with notifications := db.notifications.map (fun n =>
        if n.userId == user._id && n.isRead == false then
          { n with isRead := true, readAt := some now }
        else n) },
    .ok 200 "All notifications marked as read" ())

/-- Route `DELETE /notifications/:id`. -/
def deleteNotification (db : Db) (user : ReqUser) (id : IdParam) : Db × Reply Unit :=
  match id with
  | .absent => (db, .error 404 "Notification not found")
  | .invalid => (db, .thrown "CastError")
  | .valid i =>
    match db.notifications.find? (fun n => n._id == i && n.userId == user._id) with
    | none => (db, .error 404 "Notification not found")
    | some _ =>
      ({ db with notifications :=
            db.notifications.eraseP (fun n => n._id == i && n.userId == user._id) },
        .ok 200 "Notification deleted" ())

/-- Route `DELETE /notifications`. -/
def deleteAllNotifications (db : Db) (user : ReqUser) : Db × Reply Unit :=
  ({ db with notifications := db.notifications.filter (fun n => !(n.userId == user._id)) },
    .ok 200 "All notifications deleted" ())

/-- The notifications of a user, in store order. -/
def inbox (db : Db) (userId : ObjectId) : List Notification :=
  db.notifications.filter (fun n => n.userId == userId)

/-- The answer of `GET /notifications/unread-count`. -/
def unreadCount (db : Db) (userId : ObjectId) : Nat :=
  (db.notifications.filter (fun n => n.userId == userId && n.isRead == false)).length

/-- The store keeps `_id` a key of the notifications collection. -/
def NotificationIdsUnique (db : Db) : Prop :=
  (db.notifications.map (fun n => n._id)).Nodup

instance (db : Db) : Decidable (NotificationIdsUnique db) := by
  unfold NotificationIdsUnique; infer_instance

/-- A `PUT /jobs/:id` body with a padded title and a field outside the list of
allowed updates. -/
def jobUpdate1 : JobBody :=
  { title := some " Dev ", location := some "Goa", applicationCount := some 99,
    isFeatured := some true }

/-- The store after Acme (user 1) posts a job (id 2) and Sam (user 0) applies
to it (application id 3). -/
def hiringDb : Db :=
  (postApplication (postJob accountsDb acmeUser 10 jobBody1).1 samUser 20
    { jobId := .valid 2 }).1

/-- Sam's application, Sam's account and Acme's job in that store. -/
def samApplication : Application :=
  { _id := 3, jobId := 2, seekerId := 0, status := "pending",
    statusHistory := [{ status := "pending", changedAt := 20, changedBy := some 0 }],
    createdAt := 20 }

def samAccount : User :=
  { _id := 0, name := "Sam", email := "sam@mail.com", passwordHash := "secret1" }

def acmeJob : Job :=
  { _id := 2, employerId := 1, title := "Engineer", description := "Build",
    qualifications := "BSc", responsibilities := "Code", location := "Pune",
    companyName := some "Acme", applicationCount := 1, createdAt := 10 }

/-- Whether a text field counts as filled (1) or not (0): it is present and
not the empty string. -/
def filledText (v : Option String) : Nat :=
  if v.getD "" ≠ "" then 1 else 0

/-- The number of filled fields among the six of a seeker. -/
def seekerFilled (p : Profile) : Nat :=
  filledText p.bio + (if p.skills ≠ [] then 1 else 0) + (if p.experience ≠ [] then 1 else 0) +
    filledText p.resumeURL + filledText p.location + filledText p.phone

/-- The number of filled fields among the six of an employer. -/
def employerFilled (p : Profile) : Nat :=
  filledText p.companyName + filledText p.companyDescription + filledText p.companyLogo +
    filledText p.website + filledText p.location + filledText p.phone

/-- A seeker profile with three of the six fields filled. -/
def halfProfile : Profile :=
  { userId := 0, bio := some "Hi", skills := ["lean"], phone := some "123" }

/-- Three matching jobs, and the query for the second page of two. -/
def threeJobs : List Job :=
  [acmeJob, { acmeJob with _id := 5 }, { acmeJob with _id := 6 }]

def pageTwo : ListQuery := { page := some 2, limit := some 2 }

/-- The query for page 2^53 + 1 with the default limit. -/
def pageBeyondExact : ListQuery := { page := some 9007199254740993 }

/-! ## Theorems -/

/-! ### Trimming and the ASCII case mappings -/

theorem toUpper_of_not_lower (c : Char) (h : ¬ (c.toNat ≥ 97 ∧ c.toNat ≤ 122)) :
    c.toUpper = c := by
  unfold Char.toUpper
  simp only [h, if_false]

theorem toUpper_cases (c : Char) :
    c.toUpper = c ∨
      (65 ≤ c.toUpper.toNat ∧ c.toUpper.toNat ≤ 90 ∧ 97 ≤ c.toNat ∧ c.toNat ≤ 122) := by
  by_cases h : c.toNat ≥ 97 ∧ c.toNat ≤ 122
  · right
    have hc : c = Char.ofNat c.toNat := (Char.ofNat_toNat c).symm
    obtain ⟨h1, h2⟩ := h
    generalize c.toNat = n at hc h1 h2
    subst hc
    interval_cases n <;> decide
  · exact Or.inl (toUpper_of_not_lower c h)

theorem toUpper_toUpper (c : Char) : c.toUpper.toUpper = c.toUpper := by
  rcases toUpper_cases c with h | ⟨h1, h2, -, -⟩
  · rw [h, h]
  · exact toUpper_of_not_lower _ (by omega)

theorem isWhiteSpace_of_range (c : Char) (h1 : 33 ≤ c.toNat) (h2 : c.toNat ≤ 159) :
    isWhiteSpace c = false := by
  unfold isWhiteSpace
  simp only [Bool.or_eq_false_iff, Bool.and_eq_false_iff, decide_eq_false_iff_not,
    beq_eq_false_iff_ne]
  omega

theorem isWhiteSpace_toUpper (c : Char) : isWhiteSpace c.toUpper = isWhiteSpace c := by
  rcases toUpper_cases c with h | ⟨h1, h2, h3, h4⟩
  · rw [h]
  · rw [isWhiteSpace_of_range _ (by omega) (by omega),
      isWhiteSpace_of_range _ (by omega) (by omega)]

/-- The effect of `trim` on the list of characters. -/
theorem trim_data (s : String) :
    (trim s).data = (s.data.dropWhile isWhiteSpace).rdropWhile isWhiteSpace := rfl

theorem dropWhile_map_toUpper (l : List Char) :
    (l.map Char.toUpper).dropWhile isWhiteSpace =
      (l.dropWhile isWhiteSpace).map Char.toUpper := by
  rw [List.dropWhile_map]
  have : (isWhiteSpace ∘ Char.toUpper) = isWhiteSpace := funext isWhiteSpace_toUpper
  rw [this]

theorem rdropWhile_map_toUpper (l : List Char) :
    (l.map Char.toUpper).rdropWhile isWhiteSpace =
      (l.rdropWhile isWhiteSpace).map Char.toUpper := by
  unfold List.rdropWhile
  rw [← List.map_reverse, dropWhile_map_toUpper, List.map_reverse]

theorem dropWhile_rdropWhile_dropWhile (l : List Char) :
    ((l.dropWhile isWhiteSpace).rdropWhile isWhiteSpace).dropWhile isWhiteSpace =
      (l.dropWhile isWhiteSpace).rdropWhile isWhiteSpace := by
  have hpre : (l.dropWhile isWhiteSpace).rdropWhile isWhiteSpace <+:
      l.dropWhile isWhiteSpace := List.rdropWhile_prefix _ _
  have hhead := List.head?_dropWhile_not isWhiteSpace l
  obtain ⟨t, ht⟩ := hpre
  cases hr : (l.dropWhile isWhiteSpace).rdropWhile isWhiteSpace with
  | nil => rfl
  | cons x xs =>
    rw [hr] at ht
    rw [← ht] at hhead
    simp only [List.cons_append, List.head?_cons] at hhead
    simp [List.dropWhile_cons, hhead]

theorem toLower_of_not_upper (c : Char) (h : ¬ (c.toNat ≥ 65 ∧ c.toNat ≤ 90)) :
    c.toLower = c := by
  unfold Char.toLower
  simp only [h, if_false]

theorem toLower_cases (c : Char) :
    c.toLower = c ∨
      (97 ≤ c.toLower.toNat ∧ c.toLower.toNat ≤ 122 ∧ 65 ≤ c.toNat ∧ c.toNat ≤ 90) := by
  by_cases h : c.toNat ≥ 65 ∧ c.toNat ≤ 90
  · right
    have hc : c = Char.ofNat c.toNat := (Char.ofNat_toNat c).symm
    obtain ⟨h1, h2⟩ := h
    generalize c.toNat = n at hc h1 h2
    subst hc
    interval_cases n <;> decide
  · exact Or.inl (toLower_of_not_upper c h)

theorem toLower_toLower (c : Char) : c.toLower.toLower = c.toLower := by
  rcases toLower_cases c with h | ⟨h1, h2, -, -⟩
  · rw [h, h]
  · exact toLower_of_not_upper _ (by omega)

theorem isWhiteSpace_toLower (c : Char) : isWhiteSpace c.toLower = isWhiteSpace c := by
  rcases toLower_cases c with h | ⟨h1, h2, h3, h4⟩
  · rw [h]
  · rw [isWhiteSpace_of_range _ (by omega) (by omega),
      isWhiteSpace_of_range _ (by omega) (by omega)]

theorem dropWhile_map_toLower (l : List Char) :
    (l.map Char.toLower).dropWhile isWhiteSpace =
      (l.dropWhile isWhiteSpace).map Char.toLower := by
  rw [List.dropWhile_map]
  have : (isWhiteSpace ∘ Char.toLower) = isWhiteSpace := funext isWhiteSpace_toLower
  rw [this]

theorem rdropWhile_map_toLower (l : List Char) :
    (l.map Char.toLower).rdropWhile isWhiteSpace =
      (l.rdropWhile isWhiteSpace).map Char.toLower := by
  unfold List.rdropWhile
  rw [← List.map_reverse, dropWhile_map_toLower, List.map_reverse]

theorem string_ext_data (a b : String) (h : a.data = b.data) : a = b := by
  cases a; cases b; cases h; rfl

/-- Trimming and lower-casing commute. -/
theorem trim_toLowerCase (s : String) : trim (asciiLowerCase s) = asciiLowerCase (trim s) := by
  apply string_ext_data
  rw [trim_data]
  show ((List.map Char.toLower s.data).dropWhile isWhiteSpace).rdropWhile isWhiteSpace =
    List.map Char.toLower (trim s).data
  rw [trim_data, dropWhile_map_toLower, rdropWhile_map_toLower]

theorem toLowerCase_idempotent (s : String) : asciiLowerCase (asciiLowerCase s) = asciiLowerCase s := by
  apply string_ext_data
  show List.map Char.toLower (List.map Char.toLower s.data) = List.map Char.toLower s.data
  rw [List.map_map]
  exact List.map_congr_left (fun c _ => toLower_toLower c)

theorem trim_trim (s : String) : trim (trim s) = trim s := by
  apply string_ext_data
  rw [trim_data, trim_data, dropWhile_rdropWhile_dropWhile, List.rdropWhile_idempotent]

theorem trim_asciiUpperCase (s : String) : trim (asciiUpperCase s) = asciiUpperCase (trim s) := by
  apply string_ext_data
  rw [trim_data]
  show ((List.map Char.toUpper s.data).dropWhile isWhiteSpace).rdropWhile isWhiteSpace =
    List.map Char.toUpper (trim s).data
  rw [trim_data, dropWhile_map_toUpper, rdropWhile_map_toUpper]

theorem asciiUpperCase_idempotent (s : String) :
    asciiUpperCase (asciiUpperCase s) = asciiUpperCase s := by
  apply string_ext_data
  show List.map Char.toUpper (List.map Char.toUpper s.data) = List.map Char.toUpper s.data
  rw [List.map_map]
  exact List.map_congr_left (fun c _ => toUpper_toUpper c)

/-- The runtime of the scenarios meets the laws of the case mappings. -/
theorem testRuntime_lawful : testRuntime.Lawful :=
  ⟨asciiUpperCase_idempotent, trim_asciiUpperCase, fun _ _ => rfl,
    toLowerCase_idempotent, trim_toLowerCase, fun _ _ => rfl⟩

/-! ### The setters of the schemas -/

theorem certificateIdSetters_toUpperCase (rt : Runtime) (hrt : rt.Lawful) (s : String) :
    certificateIdSetters rt (rt.toUpperCase s) = trim (rt.toUpperCase s) := by
  unfold certificateIdSetters
  rw [hrt.1]

/-- Upper-casing and trimming twice is the same as doing it once. -/
theorem trim_toUpperCase_idempotent (rt : Runtime) (hrt : rt.Lawful) (s : String) :
    trim (rt.toUpperCase (trim (rt.toUpperCase s))) = trim (rt.toUpperCase s) := by
  rw [← hrt.2.1 (rt.toUpperCase s), hrt.1, trim_trim]

theorem certificateIdSetters_idempotent (rt : Runtime) (hrt : rt.Lawful) (s : String) :
    certificateIdSetters rt (certificateIdSetters rt s) = certificateIdSetters rt s :=
  trim_toUpperCase_idempotent rt hrt s

theorem emailSetters_idempotent (rt : Runtime) (hrt : rt.Lawful) (s : String) :
    emailSetters rt (emailSetters rt s) = emailSetters rt s := by
  unfold emailSetters
  rw [hrt.2.2.2.2.1 (trim s), trim_trim, hrt.2.2.2.1]

theorem toLowerCase_emailSetters (rt : Runtime) (hrt : rt.Lawful) (s : String) :
    rt.toLowerCase (emailSetters rt s) = emailSetters rt s := by
  unfold emailSetters
  rw [hrt.2.2.2.1]

theorem find?_isSome_of_mem {α : Type} (p : α → Bool) (l : List α) (a : α) (ha : a ∈ l)
    (hp : p a = true) : (l.find? p).isSome = true := by
  cases h : l.find? p with
  | some _ => rfl
  | none =>
    rw [List.find?_eq_none] at h
    exact absurd hp (h a ha)

theorem postApplication_cases (db : Db) (user : ReqUser) (now : Nat) (b : ApplyBody) :
    (postApplication db user now b).1 = db ∨
    ∃ jobId job, b.jobId = .valid jobId ∧ db.findJob jobId = some job ∧
      (db.applications.find? (fun a => a.jobId == jobId && a.seekerId == user._id)) = none ∧
      ∃ application : Application, application.jobId = jobId ∧ application.seekerId = user._id ∧
        application._id = db.nextId ∧
        (postApplication db user now b).1.applications = db.applications ++ [application] ∧
        (postApplication db user now b).1.jobs =
          db.jobs.map (fun x => if x._id = job._id then
            { job with applicationCount := job.applicationCount + 1 } else x) ∧
        HistoryWellFormed application ∧
        (postApplication db user now b).1.nextId = db.nextId + 2 := by
  unfold postApplication
  split
  · exact Or.inl rfl
  · exact Or.inl rfl
  · rename_i jobId hb
    split
    · exact Or.inl rfl
    · rename_i job hjob
      split
      · exact Or.inl rfl
      · split
        · exact Or.inl rfl
        · split
          · exact Or.inl rfl
          · rename_i hex
            split
            · exact Or.inl rfl
            · refine Or.inr ⟨jobId, job, hb, hjob, ?_, ?_⟩
              · simpa using hex
              · refine ⟨_, rfl, rfl, rfl, rfl, rfl, ?_, rfl⟩
                exact ⟨by simp, ⟨_, rfl, rfl, rfl⟩, by simp, ⟨_, rfl, rfl⟩⟩

theorem postApplication_existing (db : Db) (user : ReqUser) (now : Nat) (b : ApplyBody)
    (jobId : ObjectId) (hb : b.jobId = .valid jobId)
    (hex : ∃ a ∈ db.applications, a.jobId = jobId ∧ a.seekerId = user._id) :
    (postApplication db user now b).1 = db ∧
    (∃ msg, (postApplication db user now b).2 = .error 400 msg ∨
      (postApplication db user now b).2 = .error 404 msg) ∧
    (acceptingAt db now jobId →
      (postApplication db user now b).2 = .error 400 "You have already applied for this job") := by
  obtain ⟨a, ha, hj, hs⟩ := hex
  have hfind : (db.applications.find?
      (fun a => a.jobId == jobId && a.seekerId == user._id)).isSome = true :=
    find?_isSome_of_mem _ _ a ha (by simp [hj, hs])
  unfold postApplication
  rw [hb]
  simp only
  cases hjob : db.findJob jobId with
  | none =>
    refine ⟨rfl, ⟨_, Or.inr rfl⟩, ?_⟩
    rintro ⟨job, hjob1, -, -⟩
    rw [hjob] at hjob1
    cases hjob1
  | some job =>
    simp only
    by_cases hact : job.isActive = true
    · cases hdl : job.applicationDeadline with
      | none =>
        simp only [hact, hfind, Bool.not_true, Bool.false_eq_true, if_false, if_true]
        exact ⟨trivial, ⟨_, Or.inl rfl⟩, fun _ => trivial⟩
      | some d =>
        by_cases hnow : now > d
        · simp only [hact, hnow, Bool.not_true, Bool.false_eq_true, if_false, if_true,
            decide_True]
          refine ⟨trivial, ⟨_, Or.inl rfl⟩, ?_⟩
          rintro ⟨job1, hjob1, -, hd⟩
          rw [hjob] at hjob1
          cases hjob1
          exact absurd hnow (hd d hdl)
        · simp only [hact, hnow, hfind, Bool.not_true, Bool.false_eq_true, if_false, if_true,
            decide_False]
          exact ⟨trivial, ⟨_, Or.inl rfl⟩, fun _ => trivial⟩
    · simp only [Bool.not_eq_true] at hact
      simp only [hact, Bool.not_false, if_true]
      refine ⟨trivial, ⟨_, Or.inl rfl⟩, ?_⟩
      rintro ⟨job1, hjob1, hact1, -⟩
      rw [hjob] at hjob1
      cases hjob1
      rw [hact] at hact1
      cases hact1

/-- C1 (as amended): `POST /applications` keeps the (jobId, seekerId) pairs of
the applications pairwise distinct; when the requesting seeker already has an
application for the job, the store is left exactly as it was (no application
added, every applicationCount unchanged) and the answer is a 400 or 404 error,
which is 400 'You have already applied for this job' whenever the job exists,
is active and its deadline has not passed. -/
theorem postApplication_unique_pairs (db : Db) (user : ReqUser) (now : Nat) (b : ApplyBody)
    (h : UniquePairs db) :
    UniquePairs (postApplication db user now b).1 ∧
    ∀ jobId, b.jobId = .valid jobId →
      (∃ a ∈ db.applications, a.jobId = jobId ∧ a.seekerId = user._id) →
      (postApplication db user now b).1 = db ∧
      (∃ msg, (postApplication db user now b).2 = .error 400 msg ∨
        (postApplication db user now b).2 = .error 404 msg) ∧
      (acceptingAt db now jobId →
        (postApplication db user now b).2 =
          .error 400 "You have already applied for this job") := by
  refine ⟨?_, fun jobId hb hex => postApplication_existing db user now b jobId hb hex⟩
  rcases postApplication_cases db user now b with h1 | ⟨jobId, job, -, -, hnone, app, hj, hs, -, happs, -⟩
  · rw [h1]; exact h
  · unfold UniquePairs at h ⊢
    rw [happs, List.map_append, List.nodup_append]
    refine ⟨h, List.nodup_singleton _, ?_⟩
    rw [List.find?_eq_none] at hnone
    intro x hx hx1
    simp only [List.map_cons, List.map_nil, List.mem_singleton] at hx1
    subst hx1
    obtain ⟨a, ha, heq⟩ := List.mem_map.mp hx
    have := hnone a ha
    simp only [Prod.mk.injEq] at heq
    simp [heq.1, heq.2, hj, hs] at this

/-- Witness of C1: on the store with the soft-deleted job and seeker1's
application, a second application keeps the pairs unique. -/
theorem postApplication_unique_pairs_witness :
    UniquePairs closedJobDb ∧
    UniquePairs (postApplication closedJobDb seeker1 30 { jobId := .valid 0 }).1 :=
  ⟨by decide,
    (postApplication_unique_pairs closedJobDb seeker1 30 { jobId := .valid 0 } (by decide)).1⟩

/-- C1 as stated fails: seeker1 already has an application for job 0, the pairs
are unique, yet a second `POST /applications` for that job is answered
'This job is no longer accepting applications' (the job was soft-deleted), not
'You have already applied for this job'. -/
theorem postApplication_already_applied_counterexample :
    UniquePairs closedJobDb ∧
    (∃ a ∈ closedJobDb.applications, a.jobId = 0 ∧ a.seekerId = seeker1._id) ∧
    (postApplication closedJobDb seeker1 30 { jobId := .valid 0 }).2 =
      .error 400 "This job is no longer accepting applications" ∧
    (postApplication closedJobDb seeker1 30 { jobId := .valid 0 }).2 ≠
      .error 400 "You have already applied for this job" := by
  decide

/-- C2: the code at the failing input.  A validated `POST /jobs` body that
carries `applicationCount: 5` is stored with that count, so the state reached
from the empty store by this single request has a job whose applicationCount
is 5 while no application refers to it. -/
theorem postJob_applicationCount_from_body :
    Reachable inflatedDb ∧ postJobErrors jobBodyWithCount = [] ∧
    (∃ j ∈ inflatedDb.jobs, j.applicationCount = 5 ∧
      (inflatedDb.applications.filter (fun a => a.jobId == j._id)).length = 0) ∧
    ¬ CountMirrors inflatedDb :=
  ⟨ReachableWith.postJob employer1 10 jobBodyWithCount trivial ReachableWith.empty, by decide,
    by decide,
    by decide⟩

theorem find?_id_some {l : List Application} {i : ObjectId} {a : Application}
    (h : l.find? (fun a => a._id == i) = some a) : a._id = i ∧ a ∈ l := by
  have h1 := List.find?_some h
  exact ⟨by simpa using h1, List.mem_of_find?_eq_some h⟩

theorem find?_map_replace (l : List Application) (i : ObjectId) (a a1 : Application)
    (h : l.find? (fun a => a._id == i) = some a) (h1 : a1._id = i) :
    (l.map (fun x => if x._id = a1._id then a1 else x)).find? (fun a => a._id == i) = some a1 := by
  induction l with
  | nil => simp at h
  | cons x xs ih =>
    by_cases hx : x._id = i
    · simp [List.find?, hx, h1]
    · have hx1 : (x._id == i) = false := by simpa using hx
      rw [List.find?_cons, hx1] at h
      simp only [List.map_cons, h1, hx, if_false, List.find?_cons, hx1]
      simpa [h1] using ih h

theorem putApplicationStatus_spec (db : Db) (user : ReqUser) (now : Nat) (id : IdParam)
    (b : StatusBody) :
    (∃ i app job s, id = .valid i ∧ b.status = some s ∧ s ∈ applicationStatuses ∧
      db.findApplication i = some app ∧ db.findJob app.jobId = some job ∧
      job.employerId = user._id ∧
      (putApplicationStatus db user now id b).2 =
        .ok 200 "Status updated successfully" (setStatus app user now s b) ∧
      (putApplicationStatus db user now id b).1.applications =
        db.applications.map
          (fun x => if x._id = (setStatus app user now s b)._id then setStatus app user now s b
            else x) ∧
      (putApplicationStatus db user now id b).1.jobs = db.jobs ∧
      (putApplicationStatus db user now id b).1.nextId = db.nextId + 1) ∨
    ((putApplicationStatus db user now id b).1 = db ∧
      ∀ st msg a, (putApplicationStatus db user now id b).2 ≠ .ok st msg a) := by
  unfold putApplicationStatus
  split
  · exact Or.inr ⟨rfl, by intro st msg a h; cases h⟩
  · rename_i s hs
    split
    · exact Or.inr ⟨rfl, by intro st msg a h; cases h⟩
    · rename_i hmem
      split
      · exact Or.inr ⟨rfl, by intro st msg a h; cases h⟩
      · exact Or.inr ⟨rfl, by intro st msg a h; cases h⟩
      · rename_i i
        split
        · exact Or.inr ⟨rfl, by intro st msg a h; cases h⟩
        · rename_i app happ
          split
          · exact Or.inr ⟨rfl, by intro st msg a h; cases h⟩
          · rename_i job hjob
            split
            · exact Or.inr ⟨rfl, by intro st msg a h; cases h⟩
            · rename_i hown
              split
              · exact Or.inr ⟨rfl, by intro st msg a h; cases h⟩
              · refine Or.inl ⟨i, app, job, s, rfl, hs, ?_, happ, hjob, ?_, rfl, rfl, rfl, rfl⟩
                · simpa using hmem
                · simpa using hown

/-- C3: whenever `PUT /applications/:id/status` accepts an update (answers
with a success body), the application existed, and the application that is
answered and stored has the new status and the previous statusHistory followed
by exactly one new entry carrying the new status, the acting employer and the
notes of the request. -/
theorem putApplicationStatus_appends (db : Db) (user : ReqUser) (now : Nat) (id : IdParam)
    (b : StatusBody) (st : Nat) (msg : String) (app1 : Application)
    (h : (putApplicationStatus db user now id b).2 = .ok st msg app1) :
    ∃ i app s, id = .valid i ∧ b.status = some s ∧ db.findApplication i = some app ∧
      app1.statusHistory = app.statusHistory ++
        [{ status := s, changedAt := now, changedBy := some user._id, notes := b.notes }] ∧
      app1.status = s ∧
      (putApplicationStatus db user now id b).1.findApplication i = some app1 := by
  rcases putApplicationStatus_spec db user now id b with
    ⟨i, app, job, s, hid, hs, -, happ, -, -, hreply, happs, -⟩ | ⟨-, hno⟩
  · rw [hreply] at h
    injection h with _ _ happ1
    subst happ1
    refine ⟨i, app, s, hid, hs, happ, rfl, rfl, ?_⟩
    unfold Db.findApplication at happ ⊢
    rw [happs]
    exact find?_map_replace _ i app _ happ (find?_id_some happ).1
  · exact absurd h (hno st msg app1)

/-- Witness of C3: employer1 marks seeker1's application hired. -/
theorem putApplicationStatus_appends_witness :
    (putApplicationStatus appliedDb employer1 30 (.valid 1) hiredBody).2 =
      .ok 200 "Status updated successfully" hiredApplication ∧
    ∃ i app s, IdParam.valid 1 = .valid i ∧ hiredBody.status = some s ∧
      appliedDb.findApplication i = some app ∧
      hiredApplication.statusHistory = app.statusHistory ++
        [{ status := s, changedAt := 30, changedBy := some employer1._id,
           notes := hiredBody.notes }] ∧
      hiredApplication.status = s ∧
      (putApplicationStatus appliedDb employer1 30 (.valid 1) hiredBody).1.findApplication i =
        some hiredApplication :=
  ⟨by decide,
    putApplicationStatus_appends appliedDb employer1 30 (.valid 1) hiredBody 200
      "Status updated successfully" hiredApplication (by decide)⟩

/-- C4 (as amended): `PUT /applications/:id/status` checks no order between
the current and the new status.  For an existing application of a job the
requesting employer owns, whatever the current status of the application is:
a status outside the six is answered 400 and the store is unchanged; a status
`t` among the six is accepted when the `notes` and the `interviewDate` of the
body can be cast (notes that are absent or text, an `interviewDate` that is
absent or converts to a date), and the application that is answered and stored
then has status `t`; with a status among the six and `notes` or an
`interviewDate` that cannot be cast, `application.save()` fails and the store
is unchanged. -/
theorem putApplicationStatus_any_order (db : Db) (user : ReqUser) (now : Nat) (i : ObjectId)
    (b : StatusBody) (app : Application) (job : Job) (t : String)
    (hb : b.status = some t) (hfind : db.findApplication i = some app)
    (hjob : db.findJob app.jobId = some job) (hown : job.employerId = user._id) :
    (t ∉ applicationStatuses →
      putApplicationStatus db user now (.valid i) b = (db, .errors 400 ["Invalid status"])) ∧
    (t ∈ applicationStatuses → b.notesUncastable = false →
      (∀ d, b.interviewDate = some d → d.epoch ≠ none) →
      ∃ app1, (putApplicationStatus db user now (.valid i) b).2 =
          .ok 200 "Status updated successfully" app1 ∧ app1.status = t ∧
        (putApplicationStatus db user now (.valid i) b).1.findApplication i = some app1) ∧
    (t ∈ applicationStatuses →
      (b.notesUncastable = true ∨ ∃ d, b.interviewDate = some d ∧ d.epoch = none) →
      putApplicationStatus db user now (.valid i) b = (db, .thrown "ValidationError")) := by
  refine ⟨?_, ?_, ?_⟩
  · intro ht
    unfold putApplicationStatus
    simp [hb, ht]
  · intro ht hn hd
    have hcast : b.castFails = false := by
      unfold StatusBody.castFails
      rw [hn, Bool.false_or]
      cases hi : b.interviewDate with
      | none => rfl
      | some d =>
        have := hd d hi
        cases he : d.epoch with
        | none => exact absurd he this
        | some e => simp [he]
    rcases putApplicationStatus_spec db user now (.valid i) b with
      ⟨i1, app1, job1, s, hid, hs, -, happ, -, -, hreply, happs, -⟩ | ⟨-, hno⟩
    · cases hid
      rw [hb] at hs
      cases hs
      rw [hfind] at happ
      cases happ
      refine ⟨_, hreply, rfl, ?_⟩
      unfold Db.findApplication at hfind ⊢
      rw [happs]
      exact find?_map_replace _ i app _ hfind (find?_id_some hfind).1
    · exfalso
      apply hno 200 "Status updated successfully" (setStatus app user now t b)
      unfold putApplicationStatus
      simp [hb, ht, hfind, hjob, hown, hcast]
  · intro ht hbad
    have hcast : b.castFails = true := by
      unfold StatusBody.castFails
      rcases hbad with hn | ⟨d, hd, he⟩
      · rw [hn, Bool.true_or]
      · simp [hd, he]
    unfold putApplicationStatus
    simp [hb, ht, hfind, hjob, hown, hcast]

/-- Witness of C4 (as amended): the hired application of the scenario is set
back to pending by the owning employer. -/
theorem putApplicationStatus_any_order_witness :
    hiredDb.findApplication 1 = some hiredApplication ∧
    ("pending" ∈ applicationStatuses ∧ pendingBody.notesUncastable = false ∧
      ∀ d, pendingBody.interviewDate = some d → d.epoch ≠ none) ∧
    ∃ app1, (putApplicationStatus hiredDb employer1 40 (.valid 1) pendingBody).2 =
        .ok 200 "Status updated successfully" app1 ∧ app1.status = "pending" ∧
      (putApplicationStatus hiredDb employer1 40 (.valid 1) pendingBody).1.findApplication 1 =
        some app1 :=
  ⟨by decide, ⟨by decide, rfl, fun d h => by cases h⟩,
    (putApplicationStatus_any_order hiredDb employer1 40 1 pendingBody hiredApplication
      { _id := 0, employerId := 100, title := "Engineer", description := "Build",
        qualifications := "BSc", responsibilities := "Code", location := "Pune",
        companyName := some "Acme", applicationCount := 1, createdAt := 10 }
      "pending" rfl (by decide) (by decide) rfl).2.1 (by decide) rfl
      (fun d h => by cases h)⟩

/-- An interview date that does not convert to a date: the owning employer's
update of the hired application to 'interview' fails in `save()` and the store
is as before. -/
theorem putApplicationStatus_unparsable_date_example :
    putApplicationStatus hiredDb employer1 40 (.valid 1)
        { status := some "interview",
          interviewDate := some { epoch := none, localeDate := "Invalid Date" } } =
      (hiredDb, .thrown "ValidationError") := by
  decide

/-- C4 as stated fails: the application of the scenario has status 'hired',
'pending' does not come after 'hired' in the specification's order, and yet the
owning employer's update to 'pending' is accepted and stored. -/
theorem putApplicationStatus_hired_to_pending_counterexample :
    (hiredDb.findApplication 1).map (fun a => a.status) = some "hired" ∧
    ¬ specComesAfter "hired" "pending" ∧
    (putApplicationStatus hiredDb employer1 40 (.valid 1) pendingBody).2 =
      .ok 200 "Status updated successfully" (setStatus hiredApplication employer1 40 "pending"
        pendingBody) ∧
    ((putApplicationStatus hiredDb employer1 40 (.valid 1) pendingBody).1.findApplication 1).map
      (fun a => a.status) = some "pending" := by
  decide

theorem historyWellFormed_setStatus (a : Application) (user : ReqUser) (now : Nat) (s : String)
    (b : StatusBody) (h : HistoryWellFormed a) : HistoryWellFormed (setStatus a user now s b) := by
  obtain ⟨hne, ⟨e, he, hp, hc⟩, hall, -⟩ := h
  refine ⟨by simp [setStatus], ⟨e, ?_, hp, hc⟩, ?_,
    ⟨{ status := s, changedAt := now, changedBy := some user._id, notes := b.notes }, ?_, rfl⟩⟩
  · cases hl : a.statusHistory with
    | nil => exact absurd hl hne
    | cons x xs =>
      rw [hl] at he
      simpa [setStatus, hl] using he
  · intro e1 he1
    simp only [setStatus, List.mem_append, List.mem_singleton] at he1
    rcases he1 with h1 | h1
    · exact hall e1 h1
    · subst h1; rfl
  · simp [setStatus]

theorem postJob_applications (db : Db) (user : ReqUser) (now : Nat) (b : JobBody) :
    (postJob db user now b).1.applications = db.applications := by
  unfold postJob
  dsimp only
  repeat' split
  all_goals rfl

theorem putJob_applications (db : Db) (user : ReqUser) (id : IdParam) (b : JobBody) :
    (putJob db user id b).1.applications = db.applications := by
  unfold putJob
  dsimp only
  repeat' split
  all_goals rfl

theorem deleteJob_applications (db : Db) (user : ReqUser) (id : IdParam) :
    (deleteJob db user id).1.applications = db.applications := by
  unfold deleteJob
  repeat' split
  all_goals rfl

theorem getJob_applications (db : Db) (id : IdParam) :
    (getJob db id).1.applications = db.applications := by
  unfold getJob
  repeat' split
  all_goals rfl

theorem deleteApplication_applications (db : Db) (user : ReqUser) (id : IdParam) :
    (deleteApplication db user id).1.applications = db.applications ∨
    ∃ i, id = .valid i ∧
      (deleteApplication db user id).1.applications =
        db.applications.eraseP (fun a => a._id == i) := by
  unfold deleteApplication
  split
  · exact Or.inl rfl
  · exact Or.inl rfl
  · rename_i i
    split
    · exact Or.inl rfl
    · split
      · exact Or.inl rfl
      · refine Or.inr ⟨i, rfl, ?_⟩
        split <;> rfl

/-- C5: in every state reachable from the empty store through the job and
application routes (apply and status updates among them), every application
has a non-empty statusHistory whose first entry is 'pending' and made by the
applying seeker, every entry records its actor, and the application's status is
the status of the last entry. -/
theorem reachable_history_wellFormed (db : Db) (h : Reachable db) :
    ∀ a ∈ db.applications, HistoryWellFormed a := by
  induction h with
  | empty => intro a ha; cases ha
  | postJob user now b _ _ ih => rw [postJob_applications]; exact ih
  | putJob user id b _ ih => rw [putJob_applications]; exact ih
  | deleteJob user id _ ih => rw [deleteJob_applications]; exact ih
  | getJob id _ ih => rw [getJob_applications]; exact ih
  | @postApplication db0 user now b _ ih =>
    rcases postApplication_cases db0 user now b with h1 |
      ⟨_, _, -, -, -, app, -, -, -, happs, -, hwf, -⟩
    · rw [h1]; exact ih
    · rw [happs]
      intro a ha
      rcases List.mem_append.mp ha with h2 | h2
      · exact ih a h2
      · rw [List.mem_singleton] at h2
        subst h2
        exact hwf
  | @deleteApplication db0 user id _ ih =>
    rcases deleteApplication_applications db0 user id with h1 | ⟨i, -, h1⟩
    · rw [h1]; exact ih
    · rw [h1]
      intro a ha
      exact ih a (List.mem_of_mem_eraseP ha)
  | @putApplicationStatus db0 user now id b _ ih =>
    rcases putApplicationStatus_spec db0 user now id b with
      ⟨i, app, _, s, -, -, -, happ, -, -, -, happs, -⟩ | ⟨h1, -⟩
    · rw [happs]
      intro a ha
      obtain ⟨x, hx, rfl⟩ := List.mem_map.mp ha
      split
      · exact historyWellFormed_setStatus app user now s b (ih app (find?_id_some happ).2)
      · exact ih x hx
    · rw [h1]; exact ih

/-- Witness of C5: the store in which seeker1 applied and was then hired. -/
theorem reachable_history_wellFormed_witness :
    Reachable hiredDb ∧ ∀ a ∈ hiredDb.applications, HistoryWellFormed a :=
  ⟨ReachableWith.putApplicationStatus employer1 30 (.valid 1) hiredBody
      (ReachableWith.postApplication seeker1 20 { jobId := .valid 0 }
        (ReachableWith.postJob employer1 10 jobBody1 trivial ReachableWith.empty)),
    reachable_history_wellFormed hiredDb
      (ReachableWith.putApplicationStatus employer1 30 (.valid 1) hiredBody
        (ReachableWith.postApplication seeker1 20 { jobId := .valid 0 }
          (ReachableWith.postJob employer1 10 jobBody1 trivial ReachableWith.empty)))⟩

/-- C6: the code at the failing input.  The two rows of the sheet carry the
same certificate ID up to letter case; nothing is stored yet.  The row loop
reports no failed row and passes both certificates, with the same
certificateId 'B7', to the insert, which then fails on the unique index: the
answer is 500 after the first certificate has been stored, and no UploadLog is
written. -/
theorem upload_repeated_id_passed_to_insert :
    missingColumns repeatedSheet = [] ∧
    (uploadLoop emptyDb testRuntime admin1._id 0 repeatedSheet).2 = [] ∧
    (uploadLoop emptyDb testRuntime admin1._id 0 repeatedSheet).1.map (fun c => c.certificateId) =
      ["B7", "B7"] ∧
    ¬ ((uploadLoop emptyDb testRuntime admin1._id 0 repeatedSheet).1.map
        (fun c => c.certificateId)).Nodup ∧
    (postUploadCertificates emptyDb admin1 testRuntime 50
        (some (sheetFile repeatedSheet))).2 = .error 500 "Failed to process Excel file" ∧
    (postUploadCertificates emptyDb admin1 testRuntime 50
        (some (sheetFile repeatedSheet))).1.uploadLogs = [] ∧
    (postUploadCertificates emptyDb admin1 testRuntime 50
        (some (sheetFile repeatedSheet))).1.certificates.map (fun c => c.certificateId) =
      ["B7"] := by
  decide

theorem uploadLoop_length (db : Db) (rt : Runtime) (u : ObjectId)
    (rows : List Row) (i : Nat) :
    (uploadLoop db rt u i rows).1.length + (uploadLoop db rt u i rows).2.length =
      rows.length := by
  induction rows generalizing i with
  | nil => rfl
  | cons row rest ih =>
    unfold uploadLoop
    have := ih (i + 1)
    cases classifyRow db rt u i row with
    | ok c => simp only [List.length_cons]; omega
    | error e => simp only [List.length_cons]; omega

theorem insertOrdered_uploadLogs (now : Nat) (docs : List NewCertificate) (db : Db) :
    (insertOrdered now db docs).1.uploadLogs = db.uploadLogs := by
  induction docs generalizing db with
  | nil => rfl
  | cons c rest ih =>
    unfold insertOrdered
    split
    · rfl
    · rw [ih]

theorem insertMany_uploadLogs (rt : Runtime) (now : Nat) (docs : List NewCertificate)
    (db : Db) : (insertMany rt now db docs).1.uploadLogs = db.uploadLogs := by
  unfold insertMany
  split
  · exact insertOrdered_uploadLogs now _ db
  · rfl

theorem postUploadCertificates_eq_processSheet (db : Db) (user : ReqUser)
    (rt : Runtime) (now : Nat) (f : UploadedFile) (rows : List Row)
    (hsize : f.size ≤ 10 * 1024 * 1024) (hfilter : fileFilter f = true)
    (hsheet : f.sheet = some rows) (hne : rows ≠ []) (hcols : missingColumns rows = []) :
    postUploadCertificates db user rt now (some f) =
      processSheet db user rt now f.originalname rows := by
  unfold postUploadCertificates
  have h1 : ¬ f.size > 10 * 1024 * 1024 := by omega
  have h2 : ¬ rows.length = 0 := by
    intro h; exact hne (List.length_eq_zero.mp h)
  simp only [h1, hfilter, hsheet, h2, hcols, if_false, Bool.not_true, Bool.false_eq_true,
    List.length_nil, gt_iff_lt, lt_self_iff_false]

/-- C10: for a sheet that passes the empty-file and required-column checks,
`POST /upload/certificates` either fails in the insert (answer 500, no
UploadLog written) or writes exactly one UploadLog and answers with a summary
such that totalRows is the number of parsed rows, totalRows = successRows +
failedRows, the log's errors list has failedRows entries, its certificateIds
list has successRows entries, and the summary repeats the three counts; the
second case is the one taken whenever the insert goes through. -/
theorem upload_log_totals (db : Db) (user : ReqUser) (rt : Runtime) (now : Nat)
    (f : UploadedFile) (rows : List Row)
    (hsize : f.size ≤ 10 * 1024 * 1024) (hfilter : fileFilter f = true)
    (hsheet : f.sheet = some rows) (hne : rows ≠ []) (hcols : missingColumns rows = []) :
    (uploadInserts db user rt now rows = false →
      (postUploadCertificates db user rt now (some f)).2 =
        .error 500 "Failed to process Excel file" ∧
      (postUploadCertificates db user rt now (some f)).1.uploadLogs = db.uploadLogs) ∧
    (uploadInserts db user rt now rows = true →
      ∃ log res,
        (postUploadCertificates db user rt now (some f)).1.uploadLogs =
          db.uploadLogs ++ [log] ∧
        (postUploadCertificates db user rt now (some f)).2 =
          .ok 200 "Upload completed" res ∧
        log.totalRows = rows.length ∧
        log.totalRows = log.successRows + log.failedRows ∧
        log.errors.length = log.failedRows ∧
        log.certificateIds.length = log.successRows ∧
        res.totalRows = log.totalRows ∧ res.successRows = log.successRows ∧
        res.failedRows = log.failedRows ∧ res.uploadLogId = log._id) := by
  rw [postUploadCertificates_eq_processSheet db user rt now f rows hsize hfilter hsheet hne
    hcols]
  have hlen := uploadLoop_length db rt user._id rows 0
  unfold uploadInserts processSheet
  dsimp only
  by_cases hv : (uploadLoop db rt user._id 0 rows).1.length > 0
  · have hv0 : ¬ (uploadLoop db rt user._id 0 rows).1.length = 0 := by omega
    simp only [hv, hv0, if_true, decide_False, Bool.false_or]
    constructor
    · intro hins
      simp only [hins, Bool.not_false, if_true, true_and]
      exact insertMany_uploadLogs _ _ _ _
    · intro hins
      simp only [hins, Bool.not_true, Bool.false_eq_true, if_false]
      refine ⟨_, _, congrArg (fun l => l ++ [_]) (insertMany_uploadLogs _ _ _ _), rfl, rfl, ?_, rfl,
        ?_, rfl, rfl, rfl, rfl⟩
      · simp only; omega
      · simp only [List.length_map]
  · have hv0 : (uploadLoop db rt user._id 0 rows).1.length = 0 := by omega
    simp only [hv, hv0, if_false, decide_True, Bool.true_or, Bool.not_true, Bool.false_eq_true]
    constructor
    · intro h; cases h
    · intro _
      refine ⟨_, _, rfl, rfl, rfl, ?_, rfl, ?_, rfl, rfl, rfl, rfl⟩
      · simp only [gt_iff_lt, lt_self_iff_false, if_false]; omega
      · simp only [List.length_map, hv0, gt_iff_lt, lt_self_iff_false, if_false]

/-- Witness of C10: the three-row sheet uploaded to the store that already
holds certificate 'A1'. -/
theorem upload_log_totals_witness :
    uploadInserts certDb admin1 testRuntime 50 mixedSheet = true ∧
    ∃ log res,
      (postUploadCertificates certDb admin1 testRuntime 50 (some (sheetFile mixedSheet))).1.uploadLogs =
        certDb.uploadLogs ++ [log] ∧
      (postUploadCertificates certDb admin1 testRuntime 50 (some (sheetFile mixedSheet))).2 =
        .ok 200 "Upload completed" res ∧
      log.totalRows = mixedSheet.length ∧
      log.totalRows = log.successRows + log.failedRows ∧
      log.errors.length = log.failedRows ∧
      log.certificateIds.length = log.successRows ∧
      res.totalRows = log.totalRows ∧ res.successRows = log.successRows ∧
      res.failedRows = log.failedRows ∧ res.uploadLogId = log._id :=
  ⟨by decide,
    (upload_log_totals certDb admin1 testRuntime 50 (sheetFile mixedSheet) mixedSheet (by decide)
      (by decide) rfl (by decide) (by decide)).2 (by decide)⟩

theorem find?_key_map_replace {α : Type} (key : α → ObjectId) (l : List α) (i : ObjectId)
    (a a1 : α) (h : l.find? (fun x => key x == i) = some a) (h1 : key a1 = i) :
    (l.map (fun x => if key x = key a1 then a1 else x)).find? (fun x => key x == i) =
      some a1 := by
  induction l with
  | nil => simp at h
  | cons x xs ih =>
    by_cases hx : key x = i
    · simp [List.find?, hx, h1]
    · have hx1 : (key x == i) = false := by simpa using hx
      rw [List.find?_cons, hx1] at h
      simp only [List.map_cons, h1, hx, if_false, List.find?_cons, hx1]
      simpa [h1] using ih h

theorem eq_of_nodup_map {α β : Type} (f : α → β) (l : List α) (h : (l.map f).Nodup)
    (a b : α) (ha : a ∈ l) (hb : b ∈ l) (hab : f a = f b) : a = b :=
  List.inj_on_of_nodup_map h ha hb hab

theorem findCertificate_some {db : Db} {i : ObjectId} {c : Certificate}
    (h : db.findCertificate i = some c) : c._id = i ∧ c ∈ db.certificates := by
  unfold Db.findCertificate at h
  have h1 := List.find?_some h
  exact ⟨by simpa using h1, List.mem_of_find?_eq_some h⟩

/-- The key by which the public search looks a certificate up, for a request
that spells the stored ID of a certificate. -/
theorem searchKey_of_stored (rt : Runtime) (hrt : rt.Lawful) (x : String)
    (hx : certificateIdSetters rt x = x) :
    certificateIdSetters rt (rt.toUpperCase x) = x := by
  rw [certificateIdSetters_toUpperCase rt hrt]
  exact hx

/-- C8 (as amended): on a well-formed certificates collection,
`DELETE /certificates/:id` of an existing certificate answers success and
changes the store only in that the certificate itself is replaced by a copy
whose isActive is false and whose updatedAt is the time of the request when
the certificate was active (no record is added or removed, no other field and
no other certificate changes); afterwards the search by its certificateId and
the PDF download by its id both answer 404 'Certificate not found'.  For an id
that no certificate has, the delete answers 404 'Certificate not found' and
leaves the store as it was. -/
theorem deleteCertificate_soft (rt : Runtime) (hrt : rt.Lawful) (db : Db)
    (h : CertificatesWellFormed rt db) (now : Nat) (i : ObjectId) :
    (∀ c, db.findCertificate i = some c →
      (deleteCertificate db now (.valid i)).2 =
        .ok 200 "Certificate deleted successfully" () ∧
      (deleteCertificate db now (.valid i)).1 =
        { db with certificates :=
            db.certificates.map (fun x => if x = c then
              { c with
                isActive := false
                updatedAt := if c.isActive then now else c.updatedAt } else x) } ∧
      searchCertificate rt (deleteCertificate db now (.valid i)).1 c.certificateId =
        .error 404 "Certificate not found" ∧
      getCertificatePdf (deleteCertificate db now (.valid i)).1 (.valid i) =
        .error 404 "Certificate not found") ∧
    (db.findCertificate i = none →
      deleteCertificate db now (.valid i) = (db, .error 404 "Certificate not found")) := by
  obtain ⟨hid, hcid, hup⟩ := h
  constructor
  · intro c hc
    obtain ⟨hci, hcm⟩ := findCertificate_some hc
    generalize hc1 : ({ c with
        isActive := false
        updatedAt := if c.isActive then now else c.updatedAt } : Certificate) = c1
    have hc1id : c1._id = c._id := by rw [← hc1]
    have hc1cid : c1.certificateId = c.certificateId := by rw [← hc1]
    have hc1act : c1.isActive = false := by rw [← hc1]
    have hmap : db.certificates.map (fun x => if x._id = c._id then c1 else x) =
        db.certificates.map (fun x => if x = c then c1 else x) := by
      apply List.map_congr_left
      intro x hx
      by_cases hxc : x = c
      · subst hxc; simp
      · have : x._id ≠ c._id := fun he =>
          hxc (eq_of_nodup_map (fun c => c._id) _ hid x c hx hcm he)
        simp [hxc, this]
    have hdel : deleteCertificate db now (.valid i) =
        ({ db with certificates := db.certificates.map (fun x => if x = c then c1 else x) },
          .ok 200 "Certificate deleted successfully" ()) := by
      unfold deleteCertificate
      simp only [hc, Db.saveCertificate, hc1, hmap]
    refine ⟨by rw [hdel], by rw [hdel], ?_, ?_⟩
    · rw [hdel]
      unfold searchCertificate
      rw [searchKey_of_stored rt hrt _ (hup c hcm)]
      have hnone : (db.certificates.map (fun x => if x = c then c1 else x)).find?
          (fun x => x.certificateId == c.certificateId && x.isActive == true) = none := by
        rw [List.find?_eq_none]
        intro y hy
        obtain ⟨x, hx, rfl⟩ := List.mem_map.mp hy
        by_cases hxc : x = c
        · simp [hxc, hc1act]
        · have : x.certificateId ≠ c.certificateId := fun he =>
            hxc (eq_of_nodup_map (fun c => c.certificateId) _ hcid x c hx hcm he)
          simp [hxc, this]
      simp only [hnone]
    · unfold getCertificatePdf Db.findCertificate
      have hfind : (deleteCertificate db now (.valid i)).1.certificates.find?
          (fun x => x._id == i) = some c1 := by
        unfold deleteCertificate
        simp only [hc, Db.saveCertificate, hc1]
        have hrep := find?_key_map_replace (fun x : Certificate => x._id) db.certificates i c
          c1 hc (hc1id.trans hci)
        simp only [hc1id] at hrep
        exact hrep
      simp only [hfind, hc1act, Bool.not_false, if_true]
  · intro hnone
    unfold deleteCertificate
    simp only [hnone]

/-- Witness of C8 (as amended): the soft delete, at time 90, of certificate
'A1' (id 0) of the scenario. -/
theorem deleteCertificate_soft_witness :
    CertificatesWellFormed testRuntime certDb ∧ certDb.findCertificate 0 = some certA1 ∧
    (deleteCertificate certDb 90 (.valid 0)).2 =
      .ok 200 "Certificate deleted successfully" () ∧
    searchCertificate testRuntime (deleteCertificate certDb 90 (.valid 0)).1
        certA1.certificateId = .error 404 "Certificate not found" ∧
    getCertificatePdf (deleteCertificate certDb 90 (.valid 0)).1 (.valid 0) =
      .error 404 "Certificate not found" :=
  ⟨by decide, by decide,
    ((deleteCertificate_soft testRuntime testRuntime_lawful certDb (by decide) 90 0).1
      certA1 (by decide)).1,
    ((deleteCertificate_soft testRuntime testRuntime_lawful certDb (by decide) 90 0).1
      certA1 (by decide)).2.2⟩

/-- C8 as stated fails: certificate 'A1' was stored at time 40; its soft delete
at time 90 sets isActive to false and also changes another field of it,
updatedAt, from 40 to 90. -/
theorem deleteCertificate_updatedAt_counterexample :
    certDb.findCertificate 0 = some certA1 ∧ certA1.updatedAt = 40 ∧
    (deleteCertificate certDb 90 (.valid 0)).1.findCertificate 0 =
      some { certA1 with isActive := false, updatedAt := 90 } ∧
    ({ certA1 with isActive := false, updatedAt := 90 } : Certificate).updatedAt ≠
      certA1.updatedAt := by
  decide

/-- C9 (as amended): on a well-formed certificates collection, the public
search finds an active certificate by any spelling of its ID whose upper-casing,
trimmed, is the stored ID (so also by any spelling whose upper-casing is the
stored ID), and answers 404 'Certificate not found' when no active certificate
has the upper-cased and trimmed request as its ID. -/
theorem searchCertificate_by_id (rt : Runtime) (hrt : rt.Lawful) (db : Db)
    (h : CertificatesWellFormed rt db) :
    (∀ c ∈ db.certificates, c.isActive = true →
      ∀ s, trim (rt.toUpperCase s) = c.certificateId →
        searchCertificate rt db s = .ok 200 "" c) ∧
    (∀ c ∈ db.certificates, c.isActive = true → ∀ s, rt.toUpperCase s = c.certificateId →
      searchCertificate rt db s = .ok 200 "" c) ∧
    (∀ s, (∀ c ∈ db.certificates,
        ¬ (c.isActive = true ∧ c.certificateId = trim (rt.toUpperCase s))) →
      searchCertificate rt db s = .error 404 "Certificate not found") := by
  obtain ⟨-, hcid, hup⟩ := h
  have hpos : ∀ c ∈ db.certificates, c.isActive = true →
      ∀ s, trim (rt.toUpperCase s) = c.certificateId →
        searchCertificate rt db s = .ok 200 "" c := by
    intro c hc hact s hs
    unfold searchCertificate
    rw [certificateIdSetters_toUpperCase rt hrt, hs]
    cases hf : db.certificates.find?
        (fun x => x.certificateId == c.certificateId && x.isActive == true) with
    | none =>
      rw [List.find?_eq_none] at hf
      have := hf c hc
      simp [hact] at this
    | some x =>
      have hx := List.find?_some hf
      have hxm := List.mem_of_find?_eq_some hf
      simp only [Bool.and_eq_true, beq_iff_eq] at hx
      have : x = c :=
        eq_of_nodup_map (fun c => c.certificateId) _ hcid x c hxm hc hx.1
      rw [this]
  refine ⟨hpos, ?_, ?_⟩
  · intro c hc hact s hs
    apply hpos c hc hact s
    have := hup c hc
    unfold certificateIdSetters at this
    have h3 := congrArg trim this
    rw [trim_trim, this] at h3
    rw [hs]
    exact h3.symm
  · intro s hs
    unfold searchCertificate
    rw [certificateIdSetters_toUpperCase rt hrt]
    have hf : db.certificates.find?
        (fun c => c.certificateId == trim (rt.toUpperCase s) && c.isActive == true) = none := by
      rw [List.find?_eq_none]
      intro c hc hp
      simp only [Bool.and_eq_true, beq_iff_eq] at hp
      exact hs c hc ⟨hp.2, hp.1⟩
    simp only [hf]

/-- Witness of C9 (as amended): certificate 'A1' of the scenario is found as
' a1 ', and nothing is found for 'zz'. -/
theorem searchCertificate_by_id_witness :
    CertificatesWellFormed testRuntime certDb ∧
    searchCertificate testRuntime certDb " a1 " = .ok 200 "" certA1 ∧
    searchCertificate testRuntime certDb "zz" = .error 404 "Certificate not found" :=
  ⟨by decide,
    (searchCertificate_by_id testRuntime testRuntime_lawful certDb (by decide)).1 certA1
      (by decide) rfl " a1 " (by decide),
    (searchCertificate_by_id testRuntime testRuntime_lawful certDb (by decide)).2.2 "zz"
      (by decide)⟩

/-- C9 as stated fails: no active certificate has the ID upper('a1 ') = 'A1 ',
yet the search for 'a1 ' does not answer 404: the query trims the filter value
and the certificate 'A1' is returned. -/
theorem searchCertificate_padded_counterexample :
    testRuntime.toUpperCase "a1 " = "A1 " ∧
    (∀ c ∈ certDb.certificates,
      ¬ (c.isActive = true ∧ c.certificateId = testRuntime.toUpperCase "a1 ")) ∧
    searchCertificate testRuntime certDb "a1 " = .ok 200 "" certA1 := by
  decide

/-! ### The application counter when no request body sets it -/

theorem findJob_some {db : Db} {i : ObjectId} {j : Job} (h : db.findJob i = some j) :
    j._id = i ∧ j ∈ db.jobs := by
  unfold Db.findJob at h
  have h1 := List.find?_some h
  exact ⟨by simpa using h1, List.mem_of_find?_eq_some h⟩

theorem findJob_none {db : Db} {i : ObjectId} (h : db.findJob i = none) :
    ∀ j ∈ db.jobs, j._id ≠ i := by
  unfold Db.findJob at h
  rw [List.find?_eq_none] at h
  intro j hj
  simpa using h j hj

theorem inv_saveJob (db : Db) (j j1 : Job) (hj : j ∈ db.jobs) (hid : j1._id = j._id)
    (hc : j1.applicationCount = j.applicationCount) (h : CountMirrors db ∧ IdsFresh db) :
    CountMirrors (db.saveJob j1) ∧ IdsFresh (db.saveJob j1) := by
  obtain ⟨hcm, hjid, happ, hnd⟩ := h
  refine ⟨?_, ?_, happ, hnd⟩
  · intro y hy
    obtain ⟨x, hx, rfl⟩ := List.mem_map.mp hy
    show _ = ((db.applications.filter _).length : Int)
    split
    · rw [hc, hid]; exact hcm j hj
    · exact hcm x hx
  · intro y hy
    obtain ⟨x, hx, rfl⟩ := List.mem_map.mp hy
    show _ < db.nextId
    split
    · rw [hid]; exact hjid j hj
    · exact hjid x hx

theorem postJob_cases (db : Db) (user : ReqUser) (now : Nat) (b : JobBody) :
    (postJob db user now b).1 = db ∨
    ((b._id = .absent ∧ (newJob db user now b)._id = db.nextId ∨
        ∃ i, b._id = .valid i ∧ (newJob db user now b)._id = i ∧ db.findJob i = none) ∧
      (postJob db user now b).1 =
        { db with jobs := db.jobs ++ [newJob db user now b],
                  nextId := max db.nextId (newJob db user now b)._id + 1 }) := by
  unfold postJob
  dsimp only
  split
  · exact Or.inl rfl
  · split
    · exact Or.inl rfl
    · rename_i hvalid
      split
      · exact Or.inl rfl
      · rename_i hfree
        refine Or.inr ⟨?_, rfl⟩
        cases hid : b._id with
        | absent => exact Or.inl ⟨rfl, by simp [newJob, hid]⟩
        | invalid => simp [hid] at hvalid
        | valid i =>
          refine Or.inr ⟨i, rfl, by simp [newJob, hid], ?_⟩
          cases hf : db.findJob i with
          | none => rfl
          | some j => simp [hid, hf] at hfree

theorem map_replace_jobIds (l : List Job) (k : ObjectId) (j : Job) (hj : j._id = k) :
    (l.map (fun x => if x._id = k then j else x)).map (fun x => x._id) =
      l.map (fun x => x._id) := by
  rw [List.map_map]
  apply List.map_congr_left
  intro x _
  show (if x._id = k then j else x)._id = x._id
  split
  · rename_i h; rw [hj]; exact h.symm
  · rfl

theorem postJob_jobIds (db : Db) (user : ReqUser) (now : Nat) (b : JobBody) (k : ObjectId)
    (h : k ∈ db.jobs.map (fun j => j._id)) :
    k ∈ (postJob db user now b).1.jobs.map (fun j => j._id) := by
  rcases postJob_cases db user now b with h1 | ⟨-, h1⟩
  · rw [h1]; exact h
  · rw [h1]
    show k ∈ (db.jobs ++ [newJob db user now b]).map (fun j => j._id)
    rw [List.map_append]
    exact List.mem_append_left _ h

theorem putJob_jobIds (db : Db) (user : ReqUser) (id : IdParam) (b : JobBody) :
    (putJob db user id b).1.jobs.map (fun j => j._id) = db.jobs.map (fun j => j._id) := by
  unfold putJob
  dsimp only
  repeat' split
  all_goals first
    | rfl
    | exact map_replace_jobIds _ _ _ rfl

theorem deleteJob_jobIds (db : Db) (user : ReqUser) (id : IdParam) :
    (deleteJob db user id).1.jobs.map (fun j => j._id) = db.jobs.map (fun j => j._id) := by
  unfold deleteJob
  repeat' split
  all_goals first
    | rfl
    | exact map_replace_jobIds _ _ _ rfl

theorem getJob_jobIds (db : Db) (id : IdParam) :
    (getJob db id).1.jobs.map (fun j => j._id) = db.jobs.map (fun j => j._id) := by
  unfold getJob
  repeat' split
  all_goals first
    | rfl
    | exact map_replace_jobIds _ _ _ rfl

theorem inv_postJob (db : Db) (user : ReqUser) (now : Nat) (b : JobBody)
    (hb : b.applicationCount = none)
    (hcov : ∀ a ∈ db.applications, a.jobId ∈ db.jobs.map (fun j => j._id))
    (h : CountMirrors db ∧ IdsFresh db) :
    CountMirrors (postJob db user now b).1 ∧ IdsFresh (postJob db user now b).1 := by
  rcases postJob_cases db user now b with h1 | ⟨hid, h1⟩
  · rw [h1]; exact h
  · rw [h1]
    obtain ⟨hcm, hjid, happ, hnd⟩ := h
    have hfree : ∀ j ∈ db.jobs, j._id ≠ (newJob db user now b)._id := by
      intro j hj
      rcases hid with ⟨-, hn⟩ | ⟨i, -, hn, hf⟩
      · rw [hn]; exact Nat.ne_of_lt (hjid j hj)
      · rw [hn]; exact findJob_none hf j hj
    refine ⟨?_, ?_, ?_, hnd⟩
    · intro y hy
      rcases List.mem_append.mp hy with h2 | h2
      · exact hcm y h2
      · rw [List.mem_singleton] at h2
        subst h2
        have hnone : db.applications.filter
            (fun a => a.jobId == (newJob db user now b)._id) = [] := by
          rw [List.filter_eq_nil_iff]
          intro a ha
          simp only [beq_iff_eq]
          intro he
          obtain ⟨j, hj, hji⟩ := List.mem_map.mp (hcov a ha)
          exact hfree j hj (hji.trans he)
        show (newJob db user now b).applicationCount =
          ((db.applications.filter
            (fun a => a.jobId == (newJob db user now b)._id)).length : Int)
        rw [hnone]
        simp [newJob, hb]
    · intro y hy
      show y._id < max db.nextId (newJob db user now b)._id + 1
      rcases List.mem_append.mp hy with h2 | h2
      · exact Nat.lt_succ_of_le (Nat.le_trans (Nat.le_of_lt (hjid y h2)) (Nat.le_max_left _ _))
      · rw [List.mem_singleton] at h2
        subst h2
        exact Nat.lt_succ_of_le (Nat.le_max_right _ _)
    · intro a ha
      have hle : db.nextId ≤ max db.nextId (newJob db user now b)._id + 1 :=
        Nat.le_succ_of_le (Nat.le_max_left _ _)
      exact ⟨Nat.lt_of_lt_of_le (happ a ha).1 hle, Nat.lt_of_lt_of_le (happ a ha).2 hle⟩

theorem inv_putJob (db : Db) (user : ReqUser) (id : IdParam) (b : JobBody)
    (h : CountMirrors db ∧ IdsFresh db) :
    CountMirrors (putJob db user id b).1 ∧ IdsFresh (putJob db user id b).1 := by
  unfold putJob
  dsimp only
  split
  · exact h
  · exact h
  · split
    · exact h
    · rename_i job hjob
      split
      · exact h
      · split
        · exact h
        · exact inv_saveJob db job _ (findJob_some hjob).2 rfl rfl h

theorem inv_deleteJob (db : Db) (user : ReqUser) (id : IdParam)
    (h : CountMirrors db ∧ IdsFresh db) :
    CountMirrors (deleteJob db user id).1 ∧ IdsFresh (deleteJob db user id).1 := by
  unfold deleteJob
  split
  · exact h
  · exact h
  · split
    · exact h
    · rename_i job hjob
      split
      · exact h
      · exact inv_saveJob db job _ (findJob_some hjob).2 rfl rfl h

theorem inv_getJob (db : Db) (id : IdParam) (h : CountMirrors db ∧ IdsFresh db) :
    CountMirrors (getJob db id).1 ∧ IdsFresh (getJob db id).1 := by
  unfold getJob
  split
  · exact h
  · exact h
  · split
    · exact h
    · rename_i job hjob
      exact inv_saveJob db job _ (findJob_some hjob).2 rfl rfl h

theorem inv_postApplication (db : Db) (user : ReqUser) (now : Nat) (b : ApplyBody)
    (h : CountMirrors db ∧ IdsFresh db) :
    CountMirrors (postApplication db user now b).1 ∧
      IdsFresh (postApplication db user now b).1 := by
  rcases postApplication_cases db user now b with h1 |
    ⟨jobId, job, -, hjob, -, app, hj, -, hid, happs, hjobs, -, hnext⟩
  · rw [h1]; exact h
  · obtain ⟨hcm, hjid, happ, hnd⟩ := h
    obtain ⟨hjobid, hjobmem⟩ := findJob_some hjob
    unfold CountMirrors IdsFresh
    rw [happs, hjobs, hnext]
    refine ⟨?_, ?_, ?_, ?_⟩
    · intro y hy
      obtain ⟨x, hx, rfl⟩ := List.mem_map.mp hy
      split
      · have := hcm job hjobmem
        simp only [List.filter_append, List.length_append, Nat.cast_add]
        rw [← this]
        simp [List.filter_cons, hj, hjobid]
      · rename_i hne
        have hne1 : ¬ jobId = x._id := fun he => hne (by rw [hjobid, he])
        simp only [List.filter_append, List.length_append, Nat.cast_add]
        rw [← hcm x hx]
        simp [List.filter_cons, hj, hne1]
    · intro y hy
      obtain ⟨x, hx, rfl⟩ := List.mem_map.mp hy
      split
      · exact Nat.lt_add_right 2 (hjid job hjobmem)
      · exact Nat.lt_add_right 2 (hjid x hx)
    · intro a ha
      rcases List.mem_append.mp ha with h2 | h2
      · exact ⟨Nat.lt_add_right 2 (happ a h2).1, Nat.lt_add_right 2 (happ a h2).2⟩
      · rw [List.mem_singleton] at h2
        subst h2
        rw [hid, hj, ← hjobid]
        exact ⟨Nat.lt_add_of_pos_right (by decide), Nat.lt_add_right 2 (hjid job hjobmem)⟩
    · rw [List.map_append, List.nodup_append]
      refine ⟨hnd, List.nodup_singleton _, ?_⟩
      intro k hk hk1
      simp only [List.map_cons, List.map_nil, List.mem_singleton] at hk1
      obtain ⟨a, ha, rfl⟩ := List.mem_map.mp hk
      have := (happ a ha).1
      rw [hk1, hid] at this
      exact absurd this (Nat.lt_irrefl _)

theorem filter_jobId_map (l : List Application) (f : Application → Application) (k : ObjectId)
    (hf : ∀ x ∈ l, (f x).jobId = x.jobId) :
    ((l.map f).filter (fun a => a.jobId == k)).length =
      (l.filter (fun a => a.jobId == k)).length := by
  induction l with
  | nil => rfl
  | cons x xs ih =>
    have hx := hf x (List.mem_cons_self _ _)
    have ih1 := ih (fun y hy => hf y (List.mem_cons_of_mem _ hy))
    simp only [List.map_cons, List.filter_cons, hx]
    split <;> simp [ih1]

theorem inv_putApplicationStatus (db : Db) (user : ReqUser) (now : Nat) (id : IdParam)
    (b : StatusBody) (h : CountMirrors db ∧ IdsFresh db) :
    CountMirrors (putApplicationStatus db user now id b).1 ∧
      IdsFresh (putApplicationStatus db user now id b).1 := by
  rcases putApplicationStatus_spec db user now id b with
    ⟨i, app, job, s, -, -, -, happ, -, -, -, happs, hjobs, hnext⟩ | ⟨h1, -⟩
  · obtain ⟨hcm, hjid, hap, hnd⟩ := h
    obtain ⟨-, happmem⟩ := find?_id_some happ
    have hkeep : ∀ x ∈ db.applications,
        (if x._id = (setStatus app user now s b)._id then setStatus app user now s b
          else x).jobId = x.jobId ∧
        (if x._id = (setStatus app user now s b)._id then setStatus app user now s b
          else x)._id = x._id := by
      intro x hx
      split
      · rename_i he
        have : x = app := eq_of_nodup_map (fun a => a._id) _ hnd x app hx happmem he
        subst this
        exact ⟨rfl, rfl⟩
      · exact ⟨rfl, rfl⟩
    unfold CountMirrors IdsFresh
    rw [happs, hjobs, hnext]
    refine ⟨?_, ?_, ?_, ?_⟩
    · intro y hy
      rw [filter_jobId_map _ _ _ (fun x hx => (hkeep x hx).1)]
      exact hcm y hy
    · intro y hy
      exact Nat.lt_succ_of_lt (hjid y hy)
    · intro a ha
      obtain ⟨x, hx, rfl⟩ := List.mem_map.mp ha
      rw [(hkeep x hx).1, (hkeep x hx).2]
      exact ⟨Nat.lt_succ_of_lt (hap x hx).1, Nat.lt_succ_of_lt (hap x hx).2⟩
    · rw [List.map_map]
      have : db.applications.map
          ((fun a => a._id) ∘ fun x =>
            if x._id = (setStatus app user now s b)._id then setStatus app user now s b
            else x) = db.applications.map (fun a => a._id) :=
        List.map_congr_left (fun x hx => (hkeep x hx).2)
      rw [this]
      exact hnd
  · rw [h1]; exact h

theorem deleteApplication_spec (db : Db) (user : ReqUser) (id : IdParam) :
    (deleteApplication db user id).1 = db ∨
    ∃ i app, app ∈ db.applications ∧ app._id = i ∧
      (deleteApplication db user id).1.applications =
        db.applications.eraseP (fun a => a._id == i) ∧
      (deleteApplication db user id).1.nextId = db.nextId ∧
      ((∃ job, db.findJob app.jobId = some job ∧
          (deleteApplication db user id).1.jobs =
            db.jobs.map (fun x => if x._id = job._id then
              { job with applicationCount := max 0 (job.applicationCount - 1) } else x)) ∨
        (db.findJob app.jobId = none ∧ (deleteApplication db user id).1.jobs = db.jobs)) := by
  unfold deleteApplication
  split
  · exact Or.inl rfl
  · exact Or.inl rfl
  · rename_i i
    split
    · exact Or.inl rfl
    · rename_i app happ
      split
      · exact Or.inl rfl
      · have hmem := List.mem_of_find?_eq_some happ
        have hp := List.find?_some happ
        simp only [Bool.and_eq_true, beq_iff_eq] at hp
        refine Or.inr ⟨i, app, hmem, hp.1, ?_, ?_, ?_⟩
        · split <;> rfl
        · split <;> rfl
        · cases hjob : db.findJob app.jobId with
          | none => exact Or.inr ⟨rfl, rfl⟩
          | some job => exact Or.inl ⟨job, rfl, rfl⟩

theorem filter_jobId_eraseP (l : List Application) (app : Application) (k : ObjectId)
    (hnd : (l.map (fun a => a._id)).Nodup) (hmem : app ∈ l) :
    ((l.eraseP (fun a => a._id == app._id)).filter (fun a => a.jobId == k)).length +
        (if app.jobId = k then 1 else 0) =
      (l.filter (fun a => a.jobId == k)).length := by
  have hp : (fun a : Application => a._id == app._id) app = true := by simp
  obtain ⟨a, l1, l2, -, hpa, hl, her⟩ :=
    List.exists_of_eraseP (p := fun a : Application => a._id == app._id) hmem hp
  have ha : a ∈ l := by rw [hl]; simp
  have hpa1 : a._id = app._id := by simpa using hpa
  have : a = app := eq_of_nodup_map (fun a => a._id) _ hnd a app ha hmem hpa1
  subst this
  rw [her, hl]
  simp only [List.filter_append, List.length_append, List.filter_cons, beq_iff_eq]
  split
  · simp; omega
  · simp

theorem inv_deleteApplication (db : Db) (user : ReqUser) (id : IdParam)
    (h : CountMirrors db ∧ IdsFresh db) :
    CountMirrors (deleteApplication db user id).1 ∧
      IdsFresh (deleteApplication db user id).1 := by
  rcases deleteApplication_spec db user id with h1 | ⟨i, app, hmem, hi, happs, hnext, hjobs⟩
  · rw [h1]; exact h
  · obtain ⟨hcm, hjid, hap, hnd⟩ := h
    subst hi
    have hcount := fun k => filter_jobId_eraseP db.applications app k hnd hmem
    unfold CountMirrors IdsFresh
    rw [happs, hnext]
    refine ⟨?_, ?_, ?_, ?_⟩
    · rcases hjobs with ⟨job, hjob, hj⟩ | ⟨hjob, hj⟩
      · obtain ⟨hjobid, hjobmem⟩ := findJob_some hjob
        rw [hj]
        intro y hy
        obtain ⟨x, hx, rfl⟩ := List.mem_map.mp hy
        split
        · have h1 := hcm job hjobmem
          have h2 := hcount job._id
          rw [if_pos hjobid.symm] at h2
          show max 0 (job.applicationCount - 1) = _
          rw [h1, ← h2]
          simp
        · rename_i hne
          have h2 := hcount x._id
          have hne1 : ¬ app.jobId = x._id := fun he => hne (by rw [hjobid, he])
          rw [if_neg hne1] at h2
          rw [hcm x hx, ← h2]
          simp
      · rw [hj]
        intro y hy
        have h2 := hcount y._id
        have hne1 : ¬ app.jobId = y._id := fun he => findJob_none hjob y hy he.symm
        rw [if_neg hne1] at h2
        rw [hcm y hy, ← h2]
        simp
    · rcases hjobs with ⟨job, hjob, hj⟩ | ⟨-, hj⟩
      · rw [hj]
        intro y hy
        obtain ⟨x, hx, rfl⟩ := List.mem_map.mp hy
        split
        · exact hjid job (findJob_some hjob).2
        · exact hjid x hx
      · rw [hj]; exact hjid
    · intro a ha
      exact hap a (List.mem_of_mem_eraseP ha)
    · exact List.Nodup.sublist (List.Sublist.map _ (List.eraseP_sublist _)) hnd

/-- Jobs are never removed, so in every reachable state each application is
an application for a stored job. -/
theorem reachable_jobs_of_applications {P : JobBody → Prop} (db : Db)
    (h : ReachableWith P db) :
    ∀ a ∈ db.applications, a.jobId ∈ db.jobs.map (fun j => j._id) := by
  induction h with
  | empty => intro a ha; cases ha
  | postJob user now b _ _ ih =>
    intro a ha
    rw [postJob_applications] at ha
    exact postJob_jobIds _ user now b _ (ih a ha)
  | putJob user id b _ ih =>
    intro a ha
    rw [putJob_applications] at ha
    rw [putJob_jobIds]
    exact ih a ha
  | deleteJob user id _ ih =>
    intro a ha
    rw [deleteJob_applications] at ha
    rw [deleteJob_jobIds]
    exact ih a ha
  | getJob id _ ih =>
    intro a ha
    rw [getJob_applications] at ha
    rw [getJob_jobIds]
    exact ih a ha
  | @postApplication db user now b _ ih =>
    rcases postApplication_cases db user now b with h1 |
      ⟨jobId, job, -, hjob, -, app, hj, -, -, happs, hjobs, -, -⟩
    · rw [h1]; exact ih
    · intro a ha
      rw [hjobs, map_replace_jobIds db.jobs job._id
        { job with applicationCount := job.applicationCount + 1 } rfl]
      rw [happs] at ha
      rcases List.mem_append.mp ha with h2 | h2
      · exact ih a h2
      · rw [List.mem_singleton] at h2
        subst h2
        rw [hj]
        exact List.mem_map.mpr ⟨job, (findJob_some hjob).2, (findJob_some hjob).1⟩
  | @deleteApplication db user id _ ih =>
    rcases deleteApplication_spec db user id with h1 | ⟨i, app, -, -, happs, -, hjobs⟩
    · rw [h1]; exact ih
    · intro a ha
      rw [happs] at ha
      have ha1 := ih a (List.mem_of_mem_eraseP ha)
      rcases hjobs with ⟨job, -, hj⟩ | ⟨-, hj⟩
      · rw [hj, map_replace_jobIds db.jobs job._id
          { job with applicationCount := max 0 (job.applicationCount - 1) } rfl]
        exact ha1
      · rw [hj]; exact ha1
  | @putApplicationStatus db user now id b _ ih =>
    rcases putApplicationStatus_spec db user now id b with
      ⟨i, app, job, s, -, -, -, happ, -, -, -, happs, hjobs, -⟩ | ⟨h1, -⟩
    · intro a ha
      rw [hjobs]
      rw [happs] at ha
      obtain ⟨x, hx, rfl⟩ := List.mem_map.mp ha
      split
      · exact ih app (find?_id_some happ).2
      · exact ih x hx
    · rw [h1]; exact ih

/-- The application counter is right as long as no `POST /jobs` body carries
an `applicationCount`: in every state reachable from the empty store through
job creation with such bodies, job update, soft delete, view, apply, withdraw
and status update, each job's applicationCount is the number of applications
of that job. -/
theorem reachable_countMirrors_without_body_count (db : Db)
    (h : ReachableWith (fun b => b.applicationCount = none) db) :
    CountMirrors db ∧ IdsFresh db := by
  induction h with
  | empty =>
    refine ⟨?_, ?_, ?_, ?_⟩
    · intro j hj; cases hj
    · intro j hj; cases hj
    · intro a ha; cases ha
    · exact List.nodup_nil
  | postJob user now b hb hr ih =>
    exact inv_postJob _ user now b hb (reachable_jobs_of_applications _ hr) ih
  | putJob user id b _ ih => exact inv_putJob _ user id b ih
  | deleteJob user id _ ih => exact inv_deleteJob _ user id ih
  | getJob id _ ih => exact inv_getJob _ id ih
  | postApplication user now b _ ih => exact inv_postApplication _ user now b ih
  | deleteApplication user id _ ih => exact inv_deleteApplication _ user id ih
  | putApplicationStatus user now id b _ ih => exact inv_putApplicationStatus _ user now id b ih

/-! ### The normalisation of certificate IDs -/

/-- Every certificate the row loop builds carries the row's ID upper-cased and
trimmed, and the lookup found no stored certificate under the key it searched
by. -/
theorem classifyRow_certificateId (db : Db) (rt : Runtime) (u : ObjectId)
    (i : Nat) (row : Row) (c : NewCertificate)
    (h : classifyRow db rt u i row = .ok c) :
    c.certificateId = trim (rt.toUpperCase (row.get "Certificate ID").toString) ∧
    db.findOneCertificate rt (lookupId rt row) = none := by
  unfold classifyRow at h
  dsimp only at h
  split at h
  · cases h
  · split at h
    · cases h
    · rename_i hfind
      cases h
      refine ⟨rfl, ?_⟩
      cases hf : db.findOneCertificate rt (lookupId rt row) with
      | none => rfl
      | some x => rw [hf] at hfind; exact absurd rfl hfind

/-- The `certificateId`s of the store after an ordered insert that went
through: those it held, followed by those of the documents. -/
theorem insertOrdered_ids (now : Nat) (docs : List NewCertificate) (db : Db)
    (h : (insertOrdered now db docs).2 = true) :
    (insertOrdered now db docs).1.certificates.map (fun c => c.certificateId) =
      db.certificates.map (fun c => c.certificateId) ++ docs.map (fun c => c.certificateId) := by
  induction docs generalizing db with
  | nil => simp [insertOrdered]
  | cons d rest ih =>
    unfold insertOrdered at h ⊢
    split
    · rename_i hfind
      simp only [hfind, if_true] at h
      cases h
    · rename_i hfind
      simp only [hfind, if_false] at h
      rw [ih _ h]
      simp

/-- C7: under the laws of the case mappings, every certificate that the row
loop builds from a row has certificateId equal to the row's 'Certificate ID'
upper-cased and trimmed; normalising twice is the same as normalising once;
the key by which the duplicate lookup of the row searches (the filter value,
as the query casts it) is that same normalised ID, under which nothing was
stored; and it is the value that the insert stores for the certificate. -/
theorem upload_id_normalized (rt : Runtime) (hrt : rt.Lawful) (db : Db) (u : ObjectId)
    (i : Nat) (row : Row) (c : NewCertificate) (h : classifyRow db rt u i row = .ok c) :
    c.certificateId = trim (rt.toUpperCase (row.get "Certificate ID").toString) ∧
    (∀ s, trim (rt.toUpperCase (trim (rt.toUpperCase s))) = trim (rt.toUpperCase s)) ∧
    certificateIdSetters rt (lookupId rt row) = c.certificateId ∧
    db.findCertificateById c.certificateId = none ∧
    (castCertificate rt c).certificateId = c.certificateId ∧
    (∀ (now : Nat) (db1 : Db), (insertMany rt now db1 [c]).2 = true →
      (insertMany rt now db1 [c]).1.certificates.map (fun x => x.certificateId) =
        db1.certificates.map (fun x => x.certificateId) ++ [c.certificateId]) := by
  obtain ⟨hid, hnone⟩ := classifyRow_certificateId db rt u i row c h
  have hkey : certificateIdSetters rt (lookupId rt row) = c.certificateId := by
    rw [hid]
    exact certificateIdSetters_toUpperCase rt hrt _
  have hcast : (castCertificate rt c).certificateId = c.certificateId := by
    show certificateIdSetters rt c.certificateId = c.certificateId
    rw [hid]
    exact trim_toUpperCase_idempotent rt hrt _
  refine ⟨hid, trim_toUpperCase_idempotent rt hrt, hkey, ?_, hcast, ?_⟩
  · unfold Db.findOneCertificate at hnone
    rw [hkey] at hnone
    exact hnone
  · intro now db1 hins
    unfold insertMany at hins ⊢
    split
    · rename_i hv
      simp only [hv, if_true] at hins
      rw [insertOrdered_ids now _ db1 hins]
      simp only [List.map_cons, List.map_nil, hcast]
    · rename_i hv
      simp only [hv, if_false] at hins
      cases hins

/-- Witness of C7: the row whose ID cell is ' a1' yields, on the empty store, a
certificate with certificateId 'A1'. -/
theorem upload_id_normalized_witness :
    classifyRow emptyDb testRuntime admin1._id 0 (certRow " a1" "Zed") =
      .ok { certificateId := "A1", studentName := "Zed", domain := "Web",
            startDate := some 1000, endDate := some 2000, uploadedBy := 300,
            isActive := true } ∧
    certificateIdSetters testRuntime (lookupId testRuntime (certRow " a1" "Zed")) = "A1" :=
  ⟨by decide,
    (upload_id_normalized testRuntime testRuntime_lawful emptyDb admin1._id 0
      (certRow " a1" "Zed")
      { certificateId := "A1", studentName := "Zed", domain := "Web",
        startDate := some 1000, endDate := some 2000, uploadedBy := 300, isActive := true }
      (by decide)).2.2.1⟩

/-! ### The certificates collection is well-formed in every reachable state -/

/-- The well-formedness of the certificates collection together with the
freshness of `nextId` for it. -/
theorem insertOrdered_wellFormed (rt : Runtime) (now : Nat) (docs : List NewCertificate)
    (db : Db)
    (hdocs : ∀ c ∈ docs, certificateIdSetters rt c.certificateId = c.certificateId)
    (h : CertificatesWellFormed rt db ∧ ∀ c ∈ db.certificates, c._id < db.nextId) :
    CertificatesWellFormed rt (insertOrdered now db docs).1 ∧
      (∀ c ∈ (insertOrdered now db docs).1.certificates,
        c._id < (insertOrdered now db docs).1.nextId) ∧
      db.nextId ≤ (insertOrdered now db docs).1.nextId := by
  induction docs generalizing db with
  | nil => exact ⟨h.1, h.2, Nat.le_refl _⟩
  | cons d rest ih =>
    unfold insertOrdered
    split
    · exact ⟨h.1, h.2, Nat.le_refl _⟩
    · rename_i hfind
      obtain ⟨⟨hid, hcid, hup⟩, hfresh⟩ := h
      have hnone : ∀ c ∈ db.certificates, c.certificateId ≠ d.certificateId := by
        have : db.findCertificateById d.certificateId = none := by
          cases hf : db.findCertificateById d.certificateId with
          | none => rfl
          | some x => rw [hf] at hfind; exact absurd rfl hfind
        unfold Db.findCertificateById at this
        rw [List.find?_eq_none] at this
        intro c hc
        simpa using this c hc
      have hnext := ih
        { db with
          certificates := db.certificates ++
            [{ _id := db.nextId, certificateId := d.certificateId, studentName := d.studentName,
               domain := d.domain, startDate := d.startDate, endDate := d.endDate,
               isActive := d.isActive, uploadedBy := some d.uploadedBy,
               createdAt := now, updatedAt := now }]
          nextId := db.nextId + 1 }
        (fun c hc => hdocs c (List.mem_cons_of_mem _ hc))
        (by
          refine ⟨⟨?_, ?_, ?_⟩, ?_⟩
          · show (List.map (fun c => c._id) (db.certificates ++ [_])).Nodup
            rw [List.map_append, List.nodup_append]
            refine ⟨hid, List.nodup_singleton _, ?_⟩
            intro k hk hk1
            simp only [List.map_cons, List.map_nil, List.mem_singleton] at hk1
            obtain ⟨c, hc, rfl⟩ := List.mem_map.mp hk
            have := hfresh c hc
            rw [hk1] at this
            exact absurd this (Nat.lt_irrefl _)
          · show (List.map (fun c => c.certificateId) (db.certificates ++ [_])).Nodup
            rw [List.map_append, List.nodup_append]
            refine ⟨hcid, List.nodup_singleton _, ?_⟩
            intro k hk hk1
            simp only [List.map_cons, List.map_nil, List.mem_singleton] at hk1
            obtain ⟨c, hc, rfl⟩ := List.mem_map.mp hk
            exact hnone c hc hk1
          · intro c hc
            rcases List.mem_append.mp hc with h1 | h1
            · exact hup c h1
            · rw [List.mem_singleton] at h1
              subst h1
              exact hdocs d (List.mem_cons_self _ _)
          · intro c hc
            show c._id < db.nextId + 1
            rcases List.mem_append.mp hc with h1 | h1
            · exact Nat.lt_succ_of_lt (hfresh c h1)
            · rw [List.mem_singleton] at h1
              subst h1
              exact Nat.lt_succ_self _)
      exact ⟨hnext.1, hnext.2.1, Nat.le_trans (Nat.le_succ _) hnext.2.2⟩

theorem wellFormed_of_frame (rt : Runtime) (db db1 : Db) (hc : db1.certificates = db.certificates)
    (hn : db.nextId ≤ db1.nextId)
    (h : CertificatesWellFormed rt db ∧ ∀ c ∈ db.certificates, c._id < db.nextId) :
    CertificatesWellFormed rt db1 ∧ ∀ c ∈ db1.certificates, c._id < db1.nextId := by
  unfold CertificatesWellFormed at h ⊢
  rw [hc]
  exact ⟨h.1, fun c hc1 => Nat.lt_of_lt_of_le (h.2 c hc1) hn⟩

theorem postJob_frame (db : Db) (user : ReqUser) (now : Nat) (b : JobBody) :
    (postJob db user now b).1.certificates = db.certificates ∧
      db.nextId ≤ (postJob db user now b).1.nextId := by
  unfold postJob
  dsimp only
  repeat' split
  all_goals first
    | exact ⟨rfl, Nat.le_refl _⟩
    | exact ⟨rfl, Nat.le_succ_of_le (Nat.le_max_left _ _)⟩

theorem putJob_frame (db : Db) (user : ReqUser) (id : IdParam) (b : JobBody) :
    (putJob db user id b).1.certificates = db.certificates ∧
      db.nextId ≤ (putJob db user id b).1.nextId := by
  unfold putJob
  dsimp only
  repeat' split
  all_goals exact ⟨rfl, by simp [Db.saveJob]⟩

theorem deleteJob_frame (db : Db) (user : ReqUser) (id : IdParam) :
    (deleteJob db user id).1.certificates = db.certificates ∧
      db.nextId ≤ (deleteJob db user id).1.nextId := by
  unfold deleteJob
  repeat' split
  all_goals exact ⟨rfl, by simp [Db.saveJob]⟩

theorem getJob_frame (db : Db) (id : IdParam) :
    (getJob db id).1.certificates = db.certificates ∧
      db.nextId ≤ (getJob db id).1.nextId := by
  unfold getJob
  repeat' split
  all_goals exact ⟨rfl, by simp [Db.saveJob]⟩

theorem postApplication_frame (db : Db) (user : ReqUser) (now : Nat) (b : ApplyBody) :
    (postApplication db user now b).1.certificates = db.certificates ∧
      db.nextId ≤ (postApplication db user now b).1.nextId := by
  unfold postApplication
  repeat' split
  all_goals exact ⟨rfl, by simp [Db.saveJob, Db.addNotification, Db.emit, Nat.add_assoc]⟩

theorem deleteApplication_frame (db : Db) (user : ReqUser) (id : IdParam) :
    (deleteApplication db user id).1.certificates = db.certificates ∧
      db.nextId ≤ (deleteApplication db user id).1.nextId := by
  unfold deleteApplication
  repeat' split
  all_goals exact ⟨rfl, by simp [Db.saveJob]⟩

theorem putApplicationStatus_frame (db : Db) (user : ReqUser) (now : Nat) (id : IdParam)
    (b : StatusBody) :
    (putApplicationStatus db user now id b).1.certificates = db.certificates ∧
      db.nextId ≤ (putApplicationStatus db user now id b).1.nextId := by
  unfold putApplicationStatus
  repeat' split
  all_goals exact ⟨rfl, by simp [Db.saveApplication, Db.addNotification, Db.emit]⟩

theorem deleteCertificate_wellFormed (rt : Runtime) (db : Db) (now : Nat) (id : IdParam)
    (h : CertificatesWellFormed rt db ∧ ∀ c ∈ db.certificates, c._id < db.nextId) :
    CertificatesWellFormed rt (deleteCertificate db now id).1 ∧
      ∀ c ∈ (deleteCertificate db now id).1.certificates,
        c._id < (deleteCertificate db now id).1.nextId := by
  unfold deleteCertificate
  split
  · exact h
  · exact h
  · rename_i i
    split
    · exact h
    · rename_i cert hcert
      obtain ⟨⟨hid, hcid, hup⟩, hfresh⟩ := h
      obtain ⟨-, hmem⟩ := findCertificate_some hcert
      generalize hc1 : ({ cert with
          isActive := false
          updatedAt := if cert.isActive then now else cert.updatedAt } : Certificate) = c1
      have hc1id : c1._id = cert._id := by rw [← hc1]
      have hc1cid : c1.certificateId = cert.certificateId := by rw [← hc1]
      have hkeep : ∀ x ∈ db.certificates,
          (if x._id = c1._id then c1 else x)._id = x._id ∧
          (if x._id = c1._id then c1 else x).certificateId = x.certificateId := by
        intro x hx
        split
        · rename_i he
          have : x = cert :=
            eq_of_nodup_map (fun c => c._id) _ hid x cert hx hmem (he.trans hc1id)
          subst this
          exact ⟨hc1id, hc1cid⟩
        · exact ⟨rfl, rfl⟩
      have h1 : (db.certificates.map (fun x => if x._id = c1._id then c1 else x)).map
          (fun c => c._id) = db.certificates.map (fun c => c._id) := by
        rw [List.map_map]
        exact List.map_congr_left (fun x hx => (hkeep x hx).1)
      have h2 : (db.certificates.map (fun x => if x._id = c1._id then c1 else x)).map
          (fun c => c.certificateId) = db.certificates.map (fun c => c.certificateId) := by
        rw [List.map_map]
        exact List.map_congr_left (fun x hx => (hkeep x hx).2)
      refine ⟨⟨?_, ?_, ?_⟩, ?_⟩
      · show (List.map (fun c : Certificate => c._id) (db.certificates.map _)).Nodup
        rw [h1]; exact hid
      · show (List.map (fun c : Certificate => c.certificateId) (db.certificates.map _)).Nodup
        rw [h2]; exact hcid
      · intro y hy
        obtain ⟨x, hx, rfl⟩ := List.mem_map.mp hy
        rw [(hkeep x hx).2]
        exact hup x hx
      · intro y hy
        obtain ⟨x, hx, rfl⟩ := List.mem_map.mp hy
        rw [(hkeep x hx).1]
        exact hfresh x hx

theorem insertMany_wellFormed (rt : Runtime) (hrt : rt.Lawful) (now : Nat)
    (docs : List NewCertificate) (db : Db)
    (h : CertificatesWellFormed rt db ∧ ∀ c ∈ db.certificates, c._id < db.nextId) :
    CertificatesWellFormed rt (insertMany rt now db docs).1 ∧
      ∀ c ∈ (insertMany rt now db docs).1.certificates,
        c._id < (insertMany rt now db docs).1.nextId := by
  have hn : ∀ c ∈ docs.map (castCertificate rt),
      certificateIdSetters rt c.certificateId = c.certificateId := by
    intro c hc
    obtain ⟨d, -, rfl⟩ := List.mem_map.mp hc
    exact certificateIdSetters_idempotent rt hrt d.certificateId
  unfold insertMany
  split
  · exact ⟨(insertOrdered_wellFormed rt now _ db hn h).1,
      (insertOrdered_wellFormed rt now _ db hn h).2.1⟩
  · exact h

theorem processSheet_wellFormed (db : Db) (user : ReqUser)
    (rt : Runtime) (hrt : rt.Lawful) (now : Nat) (fileName : String) (rows : List Row)
    (h : CertificatesWellFormed rt db ∧ ∀ c ∈ db.certificates, c._id < db.nextId) :
    CertificatesWellFormed rt (processSheet db user rt now fileName rows).1 ∧
      ∀ c ∈ (processSheet db user rt now fileName rows).1.certificates,
        c._id < (processSheet db user rt now fileName rows).1.nextId := by
  have hins := insertMany_wellFormed rt hrt now (uploadLoop db rt user._id 0 rows).1 db h
  unfold processSheet
  dsimp only
  by_cases hv : (uploadLoop db rt user._id 0 rows).1.length > 0
  · simp only [hv, if_true]
    split
    · exact hins
    · exact wellFormed_of_frame rt
        (insertMany rt now db (uploadLoop db rt user._id 0 rows).1).1 _ rfl (Nat.le_succ _) hins
  · simp only [hv, if_false, Bool.not_true, Bool.false_eq_true]
    exact wellFormed_of_frame rt db _ rfl (Nat.le_succ _) h

theorem postUploadCertificates_wellFormed (db : Db) (user : ReqUser)
    (rt : Runtime) (hrt : rt.Lawful) (now : Nat) (file : Option UploadedFile)
    (h : CertificatesWellFormed rt db ∧ ∀ c ∈ db.certificates, c._id < db.nextId) :
    CertificatesWellFormed rt (postUploadCertificates db user rt now file).1 ∧
      ∀ c ∈ (postUploadCertificates db user rt now file).1.certificates,
        c._id < (postUploadCertificates db user rt now file).1.nextId := by
  unfold postUploadCertificates
  repeat' split
  all_goals first
    | exact h
    | exact processSheet_wellFormed db user rt hrt now _ _ h

/-- In every state reachable through the certificate, job and application
routes the certificates collection is well-formed. -/
theorem storeReachable_wellFormed (rt : Runtime) (hrt : rt.Lawful) (db : Db)
    (h : StoreReachable rt db) :
    CertificatesWellFormed rt db ∧ ∀ c ∈ db.certificates, c._id < db.nextId := by
  induction h with
  | empty =>
    exact ⟨⟨List.nodup_nil, List.nodup_nil, fun c hc => by cases hc⟩, fun c hc => by cases hc⟩
  | upload user now file _ ih =>
    exact postUploadCertificates_wellFormed _ user rt hrt now file ih
  | deleteCertificate now id _ ih => exact deleteCertificate_wellFormed rt _ now id ih
  | postJob user now b _ ih =>
    exact wellFormed_of_frame rt _ _ (postJob_frame _ user now b).1
      (postJob_frame _ user now b).2 ih
  | putJob user id b _ ih =>
    exact wellFormed_of_frame rt _ _ (putJob_frame _ user id b).1 (putJob_frame _ user id b).2 ih
  | deleteJob user id _ ih =>
    exact wellFormed_of_frame rt _ _ (deleteJob_frame _ user id).1
      (deleteJob_frame _ user id).2 ih
  | getJob id _ ih =>
    exact wellFormed_of_frame rt _ _ (getJob_frame _ id).1 (getJob_frame _ id).2 ih
  | postApplication user now b _ ih =>
    exact wellFormed_of_frame rt _ _ (postApplication_frame _ user now b).1
      (postApplication_frame _ user now b).2 ih
  | deleteApplication user id _ ih =>
    exact wellFormed_of_frame rt _ _ (deleteApplication_frame _ user id).1
      (deleteApplication_frame _ user id).2 ih
  | putApplicationStatus user now id b _ ih =>
    exact wellFormed_of_frame rt _ _ (putApplicationStatus_frame _ user now id b).1
      (putApplicationStatus_frame _ user now id b).2 ih

/-! ## Second group of properties: theorems -/

/-- C12: the code at the failing input.  For a request without a file the
validator records 'No file uploaded', but the handler never reads the
validation result: it answers 500 'Failed to process Excel file' (no client
error, no validation message), leaving the store as it was. -/
theorem upload_without_file_answers_500 :
    uploadFileErrors none = ["No file uploaded"] ∧
    ∀ (db : Db) (user : ReqUser) (rt : Runtime) (now : Nat),
      postUploadCertificates db user rt now none =
        (db, .error 500 "Failed to process Excel file") :=
  ⟨rfl, fun _ _ _ _ => rfl⟩

/-- C13: `PUT /applications/:id/status` rejects, in this order and each time
leaving the whole store (the application, its history and interviewDate, the
notifications) as it was: a status outside the six allowed values with 400;
then an id that no application has with 404; then an employer who does not own
the application's job with 403 'Not authorized to update this application'. -/
theorem putApplicationStatus_rejections (db : Db) (user : ReqUser) (now : Nat) (id : IdParam)
    (b : StatusBody) :
    ((∀ s, b.status = some s → s ∉ applicationStatuses) →
      putApplicationStatus db user now id b = (db, .errors 400 ["Invalid status"])) ∧
    (∀ s i, b.status = some s → s ∈ applicationStatuses → id = .valid i →
      db.findApplication i = none →
      putApplicationStatus db user now id b = (db, .error 404 "Application not found")) ∧
    (∀ s i app job, b.status = some s → s ∈ applicationStatuses → id = .valid i →
      db.findApplication i = some app → db.findJob app.jobId = some job →
      job.employerId ≠ user._id →
      putApplicationStatus db user now id b =
        (db, .error 403 "Not authorized to update this application")) := by
  refine ⟨?_, ?_, ?_⟩
  · intro h
    unfold putApplicationStatus
    cases hb : b.status with
    | none => rfl
    | some s => simp [h s hb]
  · intro s i hb hs hid hfind
    unfold putApplicationStatus
    simp [hb, hs, hid, hfind]
  · intro s i app job hb hs hid hfind hjob hown
    unfold putApplicationStatus
    simp [hb, hs, hid, hfind, hjob, hown]

/-- Witness of C13: employer2, who does not own job 0, tries to mark seeker1's
application reviewed. -/
theorem putApplicationStatus_rejections_witness :
    putApplicationStatus appliedDb employer2 30 (.valid 1) { status := some "reviewed" } =
      (appliedDb, .error 403 "Not authorized to update this application") :=
  (putApplicationStatus_rejections appliedDb employer2 30 (.valid 1)
    { status := some "reviewed" }).2.2 "reviewed" 1
    { _id := 1, jobId := 0, seekerId := 200,
      statusHistory := [{ status := "pending", changedAt := 20, changedBy := some 200 }],
      createdAt := 20 }
    { _id := 0, employerId := 100, title := "Engineer", description := "Build",
      qualifications := "BSc", responsibilities := "Code", location := "Pune",
      companyName := some "Acme", applicationCount := 1, createdAt := 10 }
    rfl (by decide) rfl (by decide) (by decide) (by decide)

/-- C19: for a job whose employerId is not the requesting employer's id,
`PUT /jobs/:id` answers 403 'Not authorized to edit this job' and
`DELETE /jobs/:id` answers 403 'Not authorized to delete this job', and for an
id that no job has both answer 404 'Job not found'; in all four cases the
store, and so every field of every job, is left as it was. -/
theorem job_edit_delete_owner_only (db : Db) (user : ReqUser) (i : ObjectId) (b : JobBody) :
    (∀ job, db.findJob i = some job → job.employerId ≠ user._id →
      putJob db user (.valid i) b = (db, .error 403 "Not authorized to edit this job") ∧
      deleteJob db user (.valid i) = (db, .error 403 "Not authorized to delete this job")) ∧
    (db.findJob i = none →
      putJob db user (.valid i) b = (db, .error 404 "Job not found") ∧
      deleteJob db user (.valid i) = (db, .error 404 "Job not found")) := by
  constructor
  · intro job hjob hown
    unfold putJob deleteJob
    simp [hjob, hown]
  · intro hjob
    unfold putJob deleteJob
    simp [hjob]

/-- Witness of C19: employer2 tries to edit and to delete employer1's job. -/
theorem job_edit_delete_owner_only_witness :
    putJob appliedDb employer2 (.valid 0) { title := some "Mine" } =
      (appliedDb, .error 403 "Not authorized to edit this job") ∧
    deleteJob appliedDb employer2 (.valid 0) =
      (appliedDb, .error 403 "Not authorized to delete this job") :=
  (job_edit_delete_owner_only appliedDb employer2 0 { title := some "Mine" }).1
    { _id := 0, employerId := 100, title := "Engineer", description := "Build",
      qualifications := "BSc", responsibilities := "Code", location := "Pune",
      companyName := some "Acme", applicationCount := 1, createdAt := 10 }
    (by decide) (by decide)

theorem putApplicationStatus_ok_cast (db : Db) (user : ReqUser) (now : Nat) (id : IdParam)
    (b : StatusBody) (st : Nat) (msg : String) (app1 : Application)
    (h : (putApplicationStatus db user now id b).2 = .ok st msg app1) :
    b.castFails = false := by
  unfold putApplicationStatus at h
  split at h
  · cases h
  · split at h
    · cases h
    · split at h
      · cases h
      · cases h
      · split at h
        · cases h
        · split at h
          · cases h
          · split at h
            · cases h
            · split at h
              · cases h
              · rename_i hc
                simpa using hc

theorem putApplicationStatus_effects (db : Db) (user : ReqUser) (now : Nat) (id : IdParam)
    (b : StatusBody) (st : Nat) (msg : String) (app1 : Application)
    (h : (putApplicationStatus db user now id b).2 = .ok st msg app1) :
    ∃ i app job s, id = .valid i ∧ b.status = some s ∧ db.findApplication i = some app ∧
      db.findJob app.jobId = some job ∧
      (putApplicationStatus db user now id b).1.notifications = db.notifications ++
        [{ _id := db.nextId, userId := app.seekerId
           type := if s = "interview" then "interview_request" else "application_status"
           title := "Application Status Update"
           message := statusMessage s b.interviewDate
           data := { jobId := some job._id, applicationId := some app._id }
           createdAt := now }] ∧
      (putApplicationStatus db user now id b).1.emitted = db.emitted ++
        [{ room := app.seekerId, id := db.nextId
           type := if s = "interview" then "interview_request" else "application_status"
           title := "Application Status Update"
           message := statusMessage s b.interviewDate
           data := { jobId := some job._id, applicationId := some app._id }
           createdAt := now }] := by
  rcases putApplicationStatus_spec db user now id b with
    ⟨i, app, job, s, hid, hs, hmem, happ, hjob, hown, -⟩ | ⟨-, hno⟩
  · have hc := putApplicationStatus_ok_cast db user now id b st msg app1 h
    refine ⟨i, app, job, s, hid, hs, happ, hjob, ?_, ?_⟩
    · subst hid
      unfold putApplicationStatus
      simp only [hs, hmem, happ, hjob, hown, hc, not_true_eq_false, ne_eq, if_false,
        Bool.false_eq_true]
      rfl
    · subst hid
      unfold putApplicationStatus
      simp only [hs, hmem, happ, hjob, hown, hc, not_true_eq_false, ne_eq, if_false,
        Bool.false_eq_true]
      rfl
  · exact absurd h (hno st msg app1)

/-- C14: whenever `PUT /applications/:id/status` accepts an update, the
notifications collection grows by exactly one notification, whose userId is
the application's seekerId, whose type is 'interview_request' for the new
status 'interview' and 'application_status' for every other status and whose
data names the application and its job; and exactly one event, carrying that
notification's id, type, title, message and data, is emitted, to the room of
the application's seeker. -/
theorem putApplicationStatus_notifies (db : Db) (user : ReqUser) (now : Nat) (id : IdParam)
    (b : StatusBody) (st : Nat) (msg : String) (app1 : Application)
    (h : (putApplicationStatus db user now id b).2 = .ok st msg app1) :
    ∃ i app s n ev, id = .valid i ∧ b.status = some s ∧ db.findApplication i = some app ∧
      (putApplicationStatus db user now id b).1.notifications = db.notifications ++ [n] ∧
      n.userId = app.seekerId ∧
      n.type = (if s = "interview" then "interview_request" else "application_status") ∧
      n.data.applicationId = some app._id ∧ n.data.jobId = some app.jobId ∧
      (putApplicationStatus db user now id b).1.emitted = db.emitted ++ [ev] ∧
      ev.room = app.seekerId ∧ ev.id = n._id ∧ ev.type = n.type ∧ ev.title = n.title ∧
      ev.message = n.message ∧ ev.data = n.data := by
  obtain ⟨i, app, job, s, hid, hs, happ, hjob, hn, he⟩ :=
    putApplicationStatus_effects db user now id b st msg app1 h
  have hj : job._id = app.jobId := (findJob_some hjob).1
  refine ⟨i, app, s, _, _, hid, hs, happ, hn, rfl, rfl, rfl, ?_, he, rfl, rfl, rfl, rfl, rfl, rfl⟩
  simp only [hj]

/-- Witness of C14: employer1 invites seeker1 to an interview. -/
theorem putApplicationStatus_notifies_witness :
    ∃ i app s n ev, IdParam.valid 1 = .valid i ∧ interviewBody.status = some s ∧
      appliedDb.findApplication i = some app ∧
      (putApplicationStatus appliedDb employer1 30 (.valid 1) interviewBody).1.notifications =
        appliedDb.notifications ++ [n] ∧
      n.userId = app.seekerId ∧
      n.type = (if s = "interview" then "interview_request" else "application_status") ∧
      n.data.applicationId = some app._id ∧ n.data.jobId = some app.jobId ∧
      (putApplicationStatus appliedDb employer1 30 (.valid 1) interviewBody).1.emitted =
        appliedDb.emitted ++ [ev] ∧
      ev.room = app.seekerId ∧ ev.id = n._id ∧ ev.type = n.type ∧ ev.title = n.title ∧
      ev.message = n.message ∧ ev.data = n.data :=
  putApplicationStatus_notifies appliedDb employer1 30 (.valid 1) interviewBody 200
    "Status updated successfully"
    (setStatus
      { _id := 1, jobId := 0, seekerId := 200,
        statusHistory := [{ status := "pending", changedAt := 20, changedBy := some 200 }],
        createdAt := 20 }
      employer1 30 "interview" interviewBody)
    (by decide)

theorem putJob_keeps_owner (db : Db) (hids : JobIdsUnique db) (user : ReqUser) (id : IdParam)
    (b : JobBody) :
    (putJob db user id b).1.jobs.map (fun j => (j._id, j.employerId)) =
      db.jobs.map (fun j => (j._id, j.employerId)) := by
  unfold JobIdsUnique at hids
  unfold putJob
  dsimp only
  split
  · rfl
  · rfl
  · split
    · rfl
    · rename_i job hjob
      split
      · rfl
      · split
        · rfl
        · obtain ⟨-, hmem⟩ := findJob_some hjob
          show List.map (fun j : Job => (j._id, j.employerId)) (db.jobs.map _) = _
          rw [List.map_map]
          apply List.map_congr_left
          intro x hx
          show ((if x._id = (applyAllowedUpdates job b)._id then applyAllowedUpdates job b
            else x)._id, (if x._id = (applyAllowedUpdates job b)._id then
              applyAllowedUpdates job b else x).employerId) = _
          split
          · rename_i he
            have : x = job := eq_of_nodup_map (fun j => j._id) _ hids x job hx hmem he
            subst this
            rfl
          · rfl

/-- C18 (as amended): for every employer and every body that passes the
validators of the route and of the schema and brings no `_id` of its own, or
one that no stored job has, `POST /jobs` stores one new job whose employerId
is the requesting employer's id, whatever `employerId` the body carries; a
body that passes the validators and brings the `_id` of a stored job is
refused by the store, which is left unchanged; and on a store whose job ids
are a key no `PUT /jobs/:id` changes the employerId (or the id) of any job. -/
theorem postJob_owner (db : Db) (hids : JobIdsUnique db) (user : ReqUser) (now : Nat)
    (b : JobBody) :
    (postJobErrors b = [] → jobSchemaValid (newJob db user now b) = true →
      (b._id = .absent ∨ ∃ i, b._id = .valid i ∧ db.findJob i = none) →
      ∃ job, (postJob db user now b).2 = .ok 201 "Job created successfully" job ∧
        job.employerId = user._id ∧ (postJob db user now b).1.jobs = db.jobs ++ [job]) ∧
    (postJobErrors b = [] → jobSchemaValid (newJob db user now b) = true →
      ∀ i j, b._id = .valid i → db.findJob i = some j →
        postJob db user now b = (db, .thrown "MongoServerError")) ∧
    (∀ (u2 : ReqUser) (id : IdParam) (b2 : JobBody),
      (putJob db u2 id b2).1.jobs.map (fun j => (j._id, j.employerId)) =
        db.jobs.map (fun j => (j._id, j.employerId))) := by
  refine ⟨?_, ?_, ?_⟩
  · intro herr hvalid hid
    refine ⟨newJob db user now b, ?_, rfl, ?_⟩
    · unfold postJob
      rcases hid with hid | ⟨i, hid, hfree⟩
      · simp [herr, hvalid, hid]
      · simp [herr, hvalid, hid, hfree]
    · unfold postJob
      rcases hid with hid | ⟨i, hid, hfree⟩
      · simp [herr, hvalid, hid]
      · simp [herr, hvalid, hid, hfree]
  · intro herr hvalid i j hid hfind
    unfold postJob
    simp [herr, hvalid, hid, hfind]
  · intro u2 id b2
    exact putJob_keeps_owner db hids u2 id b2

/-- Witness of C18 (as amended): employer1 posts a body that names user 999 as
owner. -/
theorem postJob_owner_witness :
    JobIdsUnique emptyDb ∧ jobBodyWithOwner._id = .absent ∧
    ∃ job, (postJob emptyDb employer1 10 jobBodyWithOwner).2 =
        .ok 201 "Job created successfully" job ∧
      job.employerId = employer1._id ∧
      (postJob emptyDb employer1 10 jobBodyWithOwner).1.jobs = emptyDb.jobs ++ [job] :=
  ⟨by decide, rfl,
    (postJob_owner emptyDb (by decide) employer1 10 jobBodyWithOwner).1 (by decide) (by decide)
      (Or.inl rfl)⟩

/-- C18 as stated fails: the body passes the validators of the route and of
the schema and brings the `_id` of the job that employer1 owns; the insert is
refused, no job is stored for employer2, and the store is as before. -/
theorem postJob_taken_id_counterexample :
    postJobErrors jobBodyWithTakenId = [] ∧
    jobSchemaValid (newJob appliedDb employer2 50 jobBodyWithTakenId) = true ∧
    postJob appliedDb employer2 50 jobBodyWithTakenId =
      (appliedDb, .thrown "MongoServerError") ∧
    (∀ j ∈ (postJob appliedDb employer2 50 jobBodyWithTakenId).1.jobs,
      j.employerId ≠ employer2._id) := by
  decide

theorem find?_owned_some {l : List Application} {i u : ObjectId} {a : Application}
    (h : l.find? (fun a => a._id == i && a.seekerId == u) = some a) :
    a._id = i ∧ a.seekerId = u ∧ a ∈ l := by
  have h1 := List.find?_some h
  simp only [Bool.and_eq_true, beq_iff_eq] at h1
  exact ⟨h1.1, h1.2, List.mem_of_find?_eq_some h⟩

theorem find?_owned_of_mem (l : List Application) (hnd : (l.map (fun a => a._id)).Nodup)
    (app : Application) (hmem : app ∈ l) (u : ObjectId) (hu : app.seekerId = u) :
    l.find? (fun a => a._id == app._id && a.seekerId == u) = some app := by
  cases hf : l.find? (fun a => a._id == app._id && a.seekerId == u) with
  | none =>
    rw [List.find?_eq_none] at hf
    have := hf app hmem
    simp [hu] at this
  | some x =>
    obtain ⟨hx, -, hxm⟩ := find?_owned_some hf
    rw [eq_of_nodup_map (fun a => a._id) _ hnd x app hxm hmem hx]

/-- C20: on a store whose application and job ids are keys,
`DELETE /applications/:id` answers 404 'Application not found' unless the
requesting seeker has an application with that id; for the seeker's own
application it answers 400 'Cannot withdraw application after it has been
reviewed' unless the status is 'pending'; in both cases the store is left as
it was.  For the seeker's own pending application it succeeds: exactly that
application is removed, every job with the application's jobId gets
applicationCount max(0, previous - 1), which is not negative, and no other job
changes.  So it succeeds only for the owning seeker and a pending status. -/
theorem deleteApplication_withdraw (db : Db) (happs : ApplicationIdsUnique db)
    (hjobs : JobIdsUnique db) (user : ReqUser) (i : ObjectId) :
    ((∀ a ∈ db.applications, ¬ (a._id = i ∧ a.seekerId = user._id)) →
      deleteApplication db user (.valid i) = (db, .error 404 "Application not found")) ∧
    (∀ app ∈ db.applications, app._id = i → app.seekerId = user._id →
      (app.status ≠ "pending" →
        deleteApplication db user (.valid i) =
          (db, .error 400 "Cannot withdraw application after it has been reviewed")) ∧
      (app.status = "pending" →
        (deleteApplication db user (.valid i)).2 =
          .ok 200 "Application withdrawn successfully" () ∧
        (∃ l1 l2, db.applications = l1 ++ app :: l2 ∧
          (deleteApplication db user (.valid i)).1.applications = l1 ++ l2) ∧
        (deleteApplication db user (.valid i)).1.jobs =
          db.jobs.map (fun j => if j._id = app.jobId then
            { j with applicationCount := max 0 (j.applicationCount - 1) } else j) ∧
        ∀ j ∈ (deleteApplication db user (.valid i)).1.jobs, j._id = app.jobId →
          0 ≤ j.applicationCount)) ∧
    (∀ st msg, (deleteApplication db user (.valid i)).2 = .ok st msg () →
      ∃ app ∈ db.applications, app._id = i ∧ app.seekerId = user._id ∧
        app.status = "pending") := by
  unfold ApplicationIdsUnique at happs
  unfold JobIdsUnique at hjobs
  refine ⟨?_, ?_, ?_⟩
  · intro hnone
    have hf : db.applications.find? (fun a => a._id == i && a.seekerId == user._id) = none := by
      rw [List.find?_eq_none]
      intro a ha hp
      simp only [Bool.and_eq_true, beq_iff_eq] at hp
      exact hnone a ha hp
    unfold deleteApplication
    simp only [hf]
  · intro app hmem hi hu
    subst hi
    have hf := find?_owned_of_mem db.applications happs app hmem user._id hu
    constructor
    · intro hst
      unfold deleteApplication
      simp only [hf, hst, ne_eq, not_false_eq_true, if_true]
    · intro hst
      have hjobsEq : (deleteApplication db user (.valid app._id)).1.jobs =
          db.jobs.map (fun j => if j._id = app.jobId then
            { j with applicationCount := max 0 (j.applicationCount - 1) } else j) := by
        unfold deleteApplication
        simp only [hf, hst, ne_eq, not_true_eq_false, if_false]
        cases hjob : db.findJob app.jobId with
        | none =>
          show db.jobs = _
          have hne := findJob_none hjob
          symm
          calc db.jobs.map (fun j => if j._id = app.jobId then
                  { j with applicationCount := max 0 (j.applicationCount - 1) } else j)
              = db.jobs.map id :=
                List.map_congr_left (fun x hx => by simp [hne x hx])
            _ = db.jobs := List.map_id _
        | some job =>
          obtain ⟨hjid, hjmem⟩ := findJob_some hjob
          show db.jobs.map _ = _
          apply List.map_congr_left
          intro x hx
          by_cases he : x._id = app.jobId
          · have : x = job :=
              eq_of_nodup_map (fun j => j._id) _ hjobs x job hx hjmem (he.trans hjid.symm)
            subst this
            simp [he]
          · have : ¬ x._id = job._id := fun h1 => he (h1.trans hjid)
            simp [he, this]
      refine ⟨?_, ?_, hjobsEq, ?_⟩
      · unfold deleteApplication
        simp only [hf, hst, ne_eq, not_true_eq_false, if_false]
      · have hp : (fun a : Application => a._id == app._id) app = true := by simp
        obtain ⟨a, l1, l2, -, hpa, hl, her⟩ :=
          List.exists_of_eraseP (p := fun a : Application => a._id == app._id) hmem hp
        have ha : a ∈ db.applications := by rw [hl]; simp
        have hpa1 : a._id = app._id := by simpa using hpa
        have : a = app := eq_of_nodup_map (fun a => a._id) _ happs a app ha hmem hpa1
        subst this
        refine ⟨l1, l2, hl, ?_⟩
        rw [← her]
        unfold deleteApplication
        simp only [hf, hst, ne_eq, not_true_eq_false, if_false]
        split <;> rfl
      · rw [hjobsEq]
        intro j hj hjid
        obtain ⟨x, hx, rfl⟩ := List.mem_map.mp hj
        split
        · exact le_max_left _ _
        · rename_i hne
          rw [if_neg hne] at hjid
          exact absurd hjid hne
  · intro st msg hok
    cases hf : db.applications.find? (fun a => a._id == i && a.seekerId == user._id) with
    | none =>
      unfold deleteApplication at hok
      simp only [hf] at hok
      cases hok
    | some app =>
      obtain ⟨h1, h2, h3⟩ := find?_owned_some hf
      refine ⟨app, h3, h1, h2, ?_⟩
      by_contra hst
      unfold deleteApplication at hok
      simp only [hf, hst, ne_eq, not_false_eq_true, if_true] at hok
      cases hok

/-- Witness of C20: seeker1 withdraws the pending application of the scenario. -/
theorem deleteApplication_withdraw_witness :
    ApplicationIdsUnique appliedDb ∧ JobIdsUnique appliedDb ∧
    (deleteApplication appliedDb seeker1 (.valid 1)).2 =
      .ok 200 "Application withdrawn successfully" () ∧
    (deleteApplication reviewedDb seeker1 (.valid 1)) =
      (reviewedDb, .error 400 "Cannot withdraw application after it has been reviewed") ∧
    (deleteApplication appliedDb seeker2 (.valid 1)) =
      (appliedDb, .error 404 "Application not found") :=
  ⟨by decide, by decide,
    (((deleteApplication_withdraw appliedDb (by decide) (by decide) seeker1 1).2.1
      { _id := 1, jobId := 0, seekerId := 200,
        statusHistory := [{ status := "pending", changedAt := 20, changedBy := some 200 }],
        createdAt := 20 }
      (by decide) rfl rfl).2 rfl).1,
    by decide,
    (deleteApplication_withdraw appliedDb (by decide) (by decide) seeker2 1).1 (by decide)⟩

/-! ### The rows of a sheet -/

theorem truthy_false_iff (c : Cell) : c.truthy = false ↔ cellMissing c := by
  cases c <;> simp [Cell.truthy, cellMissing]

theorem text_cell_iff (c : Cell) :
    (c.truthy = true ∧ c.isString = true) ↔ cellIsText c := by
  cases c <;> simp [Cell.truthy, Cell.isString, cellIsText]

/-- The required-field checks of the row loop find nothing exactly when the
three text cells are non-empty texts and no date cell is missing. -/
theorem rowErrors_nil_iff (row : Row) :
    rowErrors row = [] ↔
      cellIsText (row.get "Certificate ID") ∧ cellIsText (row.get "Student Name") ∧
      cellIsText (row.get "Domain") ∧ ¬ cellMissing (row.get "Start Date") ∧
      ¬ cellMissing (row.get "End Date") := by
  rw [← text_cell_iff, ← text_cell_iff, ← text_cell_iff, ← truthy_false_iff,
    ← truthy_false_iff]
  unfold rowErrors
  cases (row.get "Certificate ID").truthy <;> cases (row.get "Certificate ID").isString <;>
    cases (row.get "Student Name").truthy <;> cases (row.get "Student Name").isString <;>
    cases (row.get "Domain").truthy <;> cases (row.get "Domain").isString <;>
    cases (row.get "Start Date").truthy <;> cases (row.get "End Date").truthy <;> simp

/-- The duplicate lookup of a row finds a certificate exactly when one is stored
under the row's normalised ID. -/
theorem lookup_isSome_iff (rt : Runtime) (hrt : rt.Lawful) (db : Db) (row : Row) :
    (db.findOneCertificate rt (lookupId rt row)).isSome = true ↔
      ∃ c ∈ db.certificates, c.certificateId = specNormalizedId rt row := by
  unfold Db.findOneCertificate lookupId specNormalizedId Db.findCertificateById
  rw [certificateIdSetters_toUpperCase rt hrt]
  constructor
  · intro h
    cases hf : db.certificates.find?
        (fun c => c.certificateId == trim (rt.toUpperCase (row.get "Certificate ID").toString))
      with
    | none => rw [hf] at h; cases h
    | some c =>
      exact ⟨c, List.mem_of_find?_eq_some hf, by simpa using List.find?_some hf⟩
  · rintro ⟨c, hc, hid⟩
    exact find?_isSome_of_mem _ _ c hc (by simp [hid])

/-- What one round of the row loop does with a row, in the terms of the
specification. -/
theorem classifyRow_spec (rt : Runtime) (hrt : rt.Lawful) (db : Db) (u : ObjectId)
    (i : Nat) (row : Row) :
    (rowDefective rt db row →
      ∃ reason, classifyRow db rt u i row =
        .error { row := i + 2, reason := reason, data := row }) ∧
    (¬ rowDefective rt db row →
      ∃ c, classifyRow db rt u i row = .ok c ∧ c.certificateId = specNormalizedId rt row) := by
  have hnil := rowErrors_nil_iff row
  have hlook := lookup_isSome_iff rt hrt db row
  constructor
  · intro hdef
    unfold classifyRow
    dsimp only
    by_cases hlen : (rowErrors row).length > 0
    · exact ⟨"; ".intercalate (rowErrors row), by simp only [hlen, if_true]⟩
    · have hempty : rowErrors row = [] := List.length_eq_zero.mp (by omega)
      have hok := hnil.1 hempty
      have hstored : (db.findOneCertificate rt (lookupId rt row)).isSome = true := by
        apply hlook.2
        unfold rowDefective at hdef
        rcases hdef with h | h | h | h | h | h
        · exact absurd hok.1 h
        · exact absurd hok.2.1 h
        · exact absurd hok.2.2.1 h
        · exact absurd h hok.2.2.2.1
        · exact absurd h hok.2.2.2.2
        · exact h
      exact ⟨"Certificate ID " ++ (row.get "Certificate ID").toString ++ " already exists",
        by simp only [hlen, hstored, if_false, if_true]⟩
  · intro hdef
    unfold rowDefective at hdef
    simp only [not_or, not_not] at hdef
    obtain ⟨h1, h2, h3, h4, h5, h6⟩ := hdef
    have hempty : rowErrors row = [] := hnil.2 ⟨h1, h2, h3, h4, h5⟩
    have hstored : ¬ (db.findOneCertificate rt (lookupId rt row)).isSome = true :=
      fun h => h6 (hlook.1 h)
    unfold classifyRow
    dsimp only
    simp only [hempty, List.length_nil, gt_iff_lt, lt_self_iff_false, if_false, hstored]
    exact ⟨_, rfl, rfl⟩

/-- The row loop in the terms of the specification: the error entries are
those of the defective rows, numbered by their position in the sheet, and the
certificates are those of the other rows, each with the normalised ID of its
row, both in sheet order. -/
theorem uploadLoop_spec (rt : Runtime) (hrt : rt.Lawful) (db : Db) (u : ObjectId)
    (rows : List Row) (i : Nat) :
    (uploadLoop db rt u i rows).2.map (fun e => (e.row, e.data)) =
      ((rows.enumFrom i).filter (fun p => decide (rowDefective rt db p.2))).map
        (fun p => (p.1 + 2, p.2)) ∧
    (uploadLoop db rt u i rows).1.map (fun c => c.certificateId) =
      (rows.filter (fun row => !decide (rowDefective rt db row))).map (specNormalizedId rt) := by
  induction rows generalizing i with
  | nil => exact ⟨rfl, rfl⟩
  | cons row rest ih =>
    obtain ⟨ih1, ih2⟩ := ih (i + 1)
    unfold uploadLoop
    by_cases hdef : rowDefective rt db row
    · obtain ⟨reason, hr⟩ := (classifyRow_spec rt hrt db u i row).1 hdef
      simp only [hr, List.enumFrom_cons, List.filter_cons, hdef, decide_True, if_true,
        List.map_cons, Bool.not_true, Bool.false_eq_true, if_false]
      exact ⟨by rw [ih1], ih2⟩
    · obtain ⟨c, hr, hc⟩ := (classifyRow_spec rt hrt db u i row).2 hdef
      simp only [hr, List.enumFrom_cons, List.filter_cons, hdef, decide_False,
        Bool.false_eq_true, if_false, List.map_cons, Bool.not_false, if_true]
      exact ⟨ih1, by rw [ih2, hc]⟩

theorem uploadLoop_rows_sorted (db : Db) (rt : Runtime) (hrt : rt.Lawful) (u : ObjectId)
    (rows : List Row) (i : Nat) :
    (∀ e ∈ (uploadLoop db rt u i rows).2, i + 2 ≤ e.row) ∧
    ((uploadLoop db rt u i rows).2.map (fun e => e.row)).Pairwise (fun a b => a < b) := by
  induction rows generalizing i with
  | nil => exact ⟨fun e he => (by cases he), List.Pairwise.nil⟩
  | cons row rest ih =>
    obtain ⟨ih1, ih2⟩ := ih (i + 1)
    unfold uploadLoop
    by_cases hdef : rowDefective rt db row
    · obtain ⟨reason, hr⟩ := (classifyRow_spec rt hrt db u i row).1 hdef
      simp only [hr]
      refine ⟨fun e he => ?_, ?_⟩
      · rcases List.mem_cons.mp he with h1 | h1
        · rw [h1]
        · have := ih1 e h1
          omega
      · simp only [List.map_cons, List.pairwise_cons]
        refine ⟨fun r hr1 => ?_, ih2⟩
        obtain ⟨e, he, rfl⟩ := List.mem_map.mp hr1
        have := ih1 e he
        omega
    · obtain ⟨c, hr, -⟩ := (classifyRow_spec rt hrt db u i row).2 hdef
      simp only [hr]
      refine ⟨fun e he => ?_, ih2⟩
      have := ih1 e he
      omega

theorem processSheet_errors (db : Db) (user : ReqUser) (rt : Runtime) (hrt : rt.Lawful)
    (now : Nat) (fileName : String) (rows : List Row)
    (h : uploadInserts db user rt now rows = true) :
    ∃ log res,
      (processSheet db user rt now fileName rows).1.uploadLogs = db.uploadLogs ++ [log] ∧
      (processSheet db user rt now fileName rows).2 = .ok 200 "Upload completed" res ∧
      log.errors = (uploadLoop db rt user._id 0 rows).2 ∧
      res.errors = (uploadLoop db rt user._id 0 rows).2.take 50 ∧
      (processSheet db user rt now fileName rows).1.certificates.map
          (fun c => c.certificateId) =
        db.certificates.map (fun c => c.certificateId) ++
          (uploadLoop db rt user._id 0 rows).1.map (fun c => c.certificateId) := by
  have hcast : ((uploadLoop db rt user._id 0 rows).1.map (castCertificate rt)).map
      (fun c => c.certificateId) =
      (uploadLoop db rt user._id 0 rows).1.map (fun c => c.certificateId) := by
    rw [List.map_map]
    have hspec := (uploadLoop_spec rt hrt db user._id rows 0).2
    apply List.map_congr_left
    intro c hc
    show certificateIdSetters rt c.certificateId = c.certificateId
    have hmem : c.certificateId ∈
        (uploadLoop db rt user._id 0 rows).1.map (fun c => c.certificateId) :=
      List.mem_map_of_mem _ hc
    rw [hspec] at hmem
    obtain ⟨row, -, hrow⟩ := List.mem_map.mp hmem
    rw [← hrow]
    exact trim_toUpperCase_idempotent rt hrt _
  unfold uploadInserts at h
  unfold processSheet
  dsimp only at h ⊢
  by_cases hv : (uploadLoop db rt user._id 0 rows).1.length > 0
  · have hv0 : ¬ (uploadLoop db rt user._id 0 rows).1.length = 0 := by omega
    simp only [hv0, decide_False, Bool.false_or] at h
    simp only [hv, if_true, h, Bool.not_true, Bool.false_eq_true, if_false]
    refine ⟨_, _, congrArg (fun l => l ++ [_]) (insertMany_uploadLogs _ _ _ _), rfl, rfl, rfl,
      ?_⟩
    show (insertMany rt now db (uploadLoop db rt user._id 0 rows).1).1.certificates.map _ = _
    unfold insertMany at h ⊢
    split
    · rename_i hvalid
      simp only [hvalid, if_true] at h
      rw [insertOrdered_ids now _ db h, hcast]
    · rename_i hvalid
      simp only [hvalid, if_false] at h
      cases h
  · simp only [hv, if_false, Bool.not_true, Bool.false_eq_true]
    have hnil : (uploadLoop db rt user._id 0 rows).1 = [] :=
      List.length_eq_zero.mp (by omega)
    exact ⟨_, _, rfl, rfl, rfl, rfl, by simp [hnil]⟩

/-- C11: under the laws of the case mappings the row loop classifies every
parsed row exactly once, in sheet order.  A row is reported exactly when it is
defective: Certificate ID, Student Name or Domain is missing or not a text,
Start Date or End Date is missing, or a certificate is stored under the row's
normalised ID.  The error entries are those of the defective rows, the one of
the row at 0-based index i carrying row i + 2 and the row as data; the
certificates are those of the other rows, with the normalised IDs of their
rows; the two lists together have as many entries as the sheet has rows.  When
the upload completes, the store gains the certificates of exactly the rows that
are not defective, the UploadLog keeps all n error entries and the response
carries the first min(50, n) of them. -/
theorem upload_row_errors (db : Db) (user : ReqUser) (rt : Runtime) (hrt : rt.Lawful)
    (now : Nat) (f : UploadedFile) (rows : List Row)
    (hsize : f.size ≤ 10 * 1024 * 1024) (hfilter : fileFilter f = true)
    (hsheet : f.sheet = some rows) (hne : rows ≠ []) (hcols : missingColumns rows = []) :
    (uploadLoop db rt user._id 0 rows).2.map (fun e => (e.row, e.data)) =
      (rows.enum.filter (fun p => decide (rowDefective rt db p.2))).map
        (fun p => (p.1 + 2, p.2)) ∧
    (uploadLoop db rt user._id 0 rows).1.map (fun c => c.certificateId) =
      (rows.filter (fun row => !decide (rowDefective rt db row))).map (specNormalizedId rt) ∧
    (uploadLoop db rt user._id 0 rows).1.length + (uploadLoop db rt user._id 0 rows).2.length =
      rows.length ∧
    ((uploadLoop db rt user._id 0 rows).2.map (fun e => e.row)).Pairwise
      (fun a b => a < b) ∧
    (uploadInserts db user rt now rows = true →
      ∃ log res,
        (postUploadCertificates db user rt now (some f)).1.uploadLogs =
          db.uploadLogs ++ [log] ∧
        (postUploadCertificates db user rt now (some f)).2 =
          .ok 200 "Upload completed" res ∧
        log.errors = (uploadLoop db rt user._id 0 rows).2 ∧
        res.errors = (uploadLoop db rt user._id 0 rows).2.take 50 ∧
        res.errors.length = min 50 (uploadLoop db rt user._id 0 rows).2.length ∧
        (postUploadCertificates db user rt now (some f)).1.certificates.map
            (fun c => c.certificateId) =
          db.certificates.map (fun c => c.certificateId) ++
            (rows.filter (fun row => !decide (rowDefective rt db row))).map
              (specNormalizedId rt)) := by
  refine ⟨(uploadLoop_spec rt hrt db user._id rows 0).1,
    (uploadLoop_spec rt hrt db user._id rows 0).2,
    uploadLoop_length db rt user._id rows 0,
    (uploadLoop_rows_sorted db rt hrt user._id rows 0).2, ?_⟩
  intro hins
  rw [postUploadCertificates_eq_processSheet db user rt now f rows hsize hfilter hsheet hne
    hcols]
  obtain ⟨log, res, h1, h2, h3, h4, h5⟩ :=
    processSheet_errors db user rt hrt now f.originalname rows hins
  exact ⟨log, res, h1, h2, h3, h4, by rw [h4, List.length_take],
    by rw [h5, (uploadLoop_spec rt hrt db user._id rows 0).2]⟩

/-- Witness of C11: the five-row sheet of the scenario, uploaded to the store
that holds certificate 'A1': the row without student name, the row whose ID is
a number, the row with an empty end date and the row whose ID ' a1 ' is stored
already are reported as rows 3, 4, 5 and 6; the first row yields certificate
'C3'. -/
theorem upload_row_errors_witness :
    (uploadLoop certDb testRuntime admin1._id 0 defectSheet).2.map (fun e => e.row) =
      [3, 4, 5, 6] ∧
    (uploadLoop certDb testRuntime admin1._id 0 defectSheet).2.map (fun e => (e.row, e.data)) =
      (defectSheet.enum.filter (fun p => decide (rowDefective testRuntime certDb p.2))).map
        (fun p => (p.1 + 2, p.2)) ∧
    (uploadLoop certDb testRuntime admin1._id 0 defectSheet).1.map (fun c => c.certificateId) =
      ["C3"] :=
  ⟨by decide,
    (upload_row_errors certDb admin1 testRuntime testRuntime_lawful 50 (sheetFile defectSheet)
      defectSheet (by decide) (by decide) rfl (by decide) (by decide)).1,
    by decide⟩

theorem saveUser_ids (db : Db) (u : User) :
    (db.saveUser u).users.map (fun x => x._id) = db.users.map (fun x => x._id) := by
  unfold Db.saveUser
  show List.map (fun x : User => x._id) (db.users.map _) = _
  rw [List.map_map]
  apply List.map_congr_left
  intro x _
  show (if x._id = u._id then u else x)._id = x._id
  split
  · rename_i h; exact h.symm
  · rfl

theorem addProfile_users (db : Db) (id : ObjectId) :
    (db.addProfile id).1.users = db.users := by
  unfold Db.addProfile
  split <;> rfl

theorem register_users (rt : Runtime) (db : Db) (b : RegisterBody) :
    (register rt db b).1.users = db.users ∨
    ∃ user : User, (register rt db b).1.users = db.users ++ [user] ∧ user._id = db.nextId ∧
      user.email = emailSetters rt (rt.toLowerCase (b.email.getD "")) ∧
      db.findOneUserByEmail rt (rt.toLowerCase (b.email.getD "")) = none ∧
      db.findUserByEmail user.email = none ∧ registerErrors rt b = [] ∧
      user.role = b.role.getD "seeker" := by
  unfold register
  dsimp only
  split
  · exact Or.inl rfl
  · rename_i herr
    split
    · exact Or.inl rfl
    · rename_i hfind
      split
      · exact Or.inl rfl
      · split
        · exact Or.inl rfl
        · rename_i hfind2
          have h1 : db.findOneUserByEmail rt (rt.toLowerCase (b.email.getD "")) = none := by
            cases hf : db.findOneUserByEmail rt (rt.toLowerCase (b.email.getD "")) with
            | none => rfl
            | some x => rw [hf] at hfind; exact absurd rfl hfind
          have h2 : db.findUserByEmail
              (emailSetters rt (rt.toLowerCase (b.email.getD ""))) = none := h1
          have h3 : registerErrors rt b = [] := by
            by_contra hne; exact herr hne
          split
          · exact Or.inr ⟨_, by rw [addProfile_users], rfl, rfl, h1, h2, h3, rfl⟩
          · exact Or.inr ⟨_, by rw [addProfile_users], rfl, rfl, h1, h2, h3, rfl⟩

theorem adminSeed_users (db : Db) :
    (adminSeed db).1.users = db.users ∨
    ∃ user : User, (adminSeed db).1.users = db.users ++ [user] ∧ user._id = db.nextId ∧
      user.email = "admin@amdox.com" ∧ user.role = "admin" ∧
      db.findUserByEmail "admin@amdox.com" = none ∧
      db.users.find? (fun u => u.role == "admin") = none := by
  unfold adminSeed
  dsimp only
  split
  · exact Or.inl rfl
  · rename_i hadm
    split
    · exact Or.inl rfl
    · rename_i hfind
      have h1 : db.findUserByEmail "admin@amdox.com" = none := by
        cases hf : db.findUserByEmail "admin@amdox.com" with
        | none => rfl
        | some x => rw [hf] at hfind; exact absurd rfl hfind
      have h2 : db.users.find? (fun u => u.role == "admin") = none := by
        cases hf : db.users.find? (fun u => u.role == "admin") with
        | none => rfl
        | some x => rw [hf] at hadm; exact absurd rfl hadm
      split
      · exact Or.inr ⟨_, by rw [addProfile_users], rfl, rfl, rfl, h1, h2⟩
      · exact Or.inr ⟨_, by rw [addProfile_users], rfl, rfl, rfl, h1, h2⟩

theorem authStep_user_ids (rt : Runtime) (db : Db) (req : AuthRequest) :
    db.users.map (fun u => u._id) <+: (authStep rt db req).users.map (fun u => u._id) := by
  cases req with
  | register b =>
    show _ <+: (register rt db b).1.users.map _
    rcases register_users rt db b with h | ⟨u, h, -⟩
    · rw [h]
    · rw [h, List.map_append]; exact List.prefix_append _ _
  | login now b =>
    show _ <+: (login rt db now b).1.users.map _
    unfold login
    dsimp only
    repeat' split
    all_goals first
      | exact List.prefix_refl _
      | (rw [saveUser_ids])
  | logout => exact List.prefix_refl _
  | me _ => exact List.prefix_refl _
  | forgotPassword now email resetToken =>
    show _ <+: (forgotPassword rt db now email resetToken).1.users.map _
    unfold forgotPassword
    repeat' split
    all_goals first
      | exact List.prefix_refl _
      | (rw [saveUser_ids])
  | resetPassword now token password =>
    show _ <+: (resetPassword rt db now token password).1.users.map _
    unfold resetPassword
    repeat' split
    all_goals first
      | exact List.prefix_refl _
      | (rw [saveUser_ids])
  | changePassword user c n =>
    show _ <+: (changePassword db user c n).1.users.map _
    unfold changePassword
    dsimp only
    repeat' split
    all_goals first
      | exact List.prefix_refl _
      | (rw [saveUser_ids])
  | saveJob user jobId =>
    show _ <+: (saveJobForLater db user jobId).1.users.map _
    unfold saveJobForLater
    repeat' split
    all_goals first
      | exact List.prefix_refl _
      | (rw [saveUser_ids])
  | removeSavedJob user jobId =>
    show _ <+: (removeSavedJob db user jobId).1.users.map _
    unfold removeSavedJob
    dsimp only
    repeat' split
    all_goals first
      | exact List.prefix_refl _
      | (rw [saveUser_ids])
  | savedJobs _ => exact List.prefix_refl _
  | adminSeed =>
    show _ <+: (adminSeed db).1.users.map _
    rcases adminSeed_users db with h | ⟨u, h, -⟩
    · rw [h]
    · rw [h, List.map_append]; exact List.prefix_append _ _

theorem findUserByEmail_of_mem (db : Db) (h : UserEmailsUnique db) (u : User)
    (hu : u ∈ db.users) : db.findUserByEmail u.email = some u := by
  unfold UserEmailsUnique at h
  unfold Db.findUserByEmail
  cases hf : db.users.find? (fun x => x.email == u.email) with
  | none =>
    rw [List.find?_eq_none] at hf
    have := hf u hu
    simp at this
  | some x =>
    have hx := List.find?_some hf
    have hxm := List.mem_of_find?_eq_some hf
    rw [eq_of_nodup_map (fun u => u.email) _ h x u hxm hu (by simpa using hx)]

/-- C17 (as amended): no request to the auth routes removes a user: the ids of
the users before are a prefix of the ids after.  And on a store whose emails
are unique, for every user with isActive false, a login with that user's email
(in any letter case) that passes the validators, so with any non-empty
password, answers 401 'Account is deactivated' and leaves the store as it was:
no token is issued and lastLogin is not updated. -/
theorem auth_keeps_users_rejects_deactivated (rt : Runtime) (db : Db) :
    (∀ req : AuthRequest,
      db.users.map (fun u => u._id) <+: (authStep rt db req).users.map (fun u => u._id)) ∧
    (UserEmailsUnique db → ∀ (now : Nat) (b : LoginBody) (u : User), u ∈ db.users →
      u.isActive = false → rt.isEmail (b.email.getD "") = true →
      emailSetters rt (rt.toLowerCase (b.email.getD "")) = u.email → b.password.getD "" ≠ "" →
      login rt db now b = (db, .error 401 "Account is deactivated")) := by
  refine ⟨authStep_user_ids rt db, ?_⟩
  intro huniq now b u hu hact hemail hlow hpw
  have hfind := findUserByEmail_of_mem db huniq u hu
  unfold login loginErrors Db.findOneUserByEmail
  simp [hemail, hpw, hlow, hfind, hact]

/-- Witness of C17 (as amended): Sam's deactivated account, a wrong password. -/
theorem auth_keeps_users_rejects_deactivated_witness :
    UserEmailsUnique deactivatedDb ∧
    login testRuntime deactivatedDb 50 { email := some "Sam@mail.com", password := some "zzz" } =
      (deactivatedDb, .error 401 "Account is deactivated") :=
  ⟨by decide,
    (auth_keeps_users_rejects_deactivated testRuntime deactivatedDb).2 (by decide) 50
      { email := some "Sam@mail.com", password := some "zzz" }
      { _id := 0, name := "Sam", email := "sam@mail.com", passwordHash := "secret1",
        isActive := false }
      (by decide) rfl (by decide) (by decide) (by decide)⟩

/-- C17 as stated fails: Sam's account is deactivated, yet a login with Sam's
email and an empty password is answered 400 'Password is required' by the
validators, not 401 'Account is deactivated'. -/
theorem login_deactivated_empty_password_counterexample :
    (deactivatedDb.findUserByEmail "sam@mail.com").map (fun u => u.isActive) = some false ∧
    login testRuntime deactivatedDb 50 { email := some "sam@mail.com", password := some "" } =
      (deactivatedDb, .errors 400 ["Password is required"]) ∧
    (login testRuntime deactivatedDb 50 { email := some "sam@mail.com", password := some "" }).2 ≠
      .error 401 "Account is deactivated" := by
  decide

theorem find?_userId_map_replace (l : List Profile) (i : ObjectId) (a a1 : Profile)
    (h : l.find? (fun p => p.userId == i) = some a) (h1 : a1.userId = a.userId) :
    (l.map (fun x => if x.userId = a.userId then a1 else x)).find? (fun p => p.userId == i) =
      some a1 := by
  have hai : a.userId = i := by simpa using List.find?_some h
  induction l with
  | nil => simp at h
  | cons x xs ih =>
    by_cases hx : x.userId = i
    · simp [List.find?, hx, h1, hai]
    · have hx1 : (x.userId == i) = false := by simpa using hx
      rw [List.find?_cons, hx1] at h
      simp only [List.map_cons, hai, hx, if_false, List.find?_cons, hx1]
      simpa [hai] using ih h

theorem applyProfileBody_userId (role : String) (p : Profile) (b : ProfileBody) :
    (applyProfileBody role p b).userId = p.userId := by
  unfold applyProfileBody
  dsimp only
  split <;> split <;> rfl

/-- C16 (as amended): `PUT /profile` either changes nothing and answers with an
error, or answers with the stored profile p, which differs from the profile
before (a fresh one with the requester's userId when there was none) as
follows.  The fields bio, skills and experience are written only for role
'seeker', companyName, companyLogo, companyDescription and website only for
role 'employer', location and phone for every role; a written field takes the
body's value when the body defines it, each skill trimmed, and is unchanged
otherwise.  The fields userId, resumeURL, resumePublicId and
companyLogoPublicId are never changed. -/
theorem putProfile_fields (db : Db) (user : ReqUser) (b : ProfileBody) :
    ((putProfile db user b).1 = db ∧ ∀ st msg p, (putProfile db user b).2 ≠ .ok st msg p) ∨
    ∃ old p, old = (db.findProfile user._id).getD { userId := user._id } ∧
      (putProfile db user b).2 = .ok 200 "Profile updated successfully" p ∧
      (putProfile db user b).1.findProfile user._id = some p ∧
      p.userId = old.userId ∧ p.resumeURL = old.resumeURL ∧
      p.resumePublicId = old.resumePublicId ∧
      p.companyLogoPublicId = old.companyLogoPublicId ∧
      p.bio = (if user.role = "seeker" then (b.bio.orElse fun _ => old.bio) else old.bio) ∧
      p.skills = (if user.role = "seeker" then
        ((b.skills.map (fun v => v.map trim)).getD old.skills) else old.skills) ∧
      p.experience = (if user.role = "seeker" then b.experience.getD old.experience
        else old.experience) ∧
      p.companyName = (if user.role = "employer" then
        (b.companyName.orElse fun _ => old.companyName) else old.companyName) ∧
      p.companyLogo = (if user.role = "employer" then
        (b.companyLogo.orElse fun _ => old.companyLogo) else old.companyLogo) ∧
      p.companyDescription = (if user.role = "employer" then
        (b.companyDescription.orElse fun _ => old.companyDescription)
        else old.companyDescription) ∧
      p.website = (if user.role = "employer" then (b.website.orElse fun _ => old.website)
        else old.website) ∧
      p.location = (b.location.orElse fun _ => old.location) ∧
      p.phone = (b.phone.orElse fun _ => old.phone) := by
  have hfields : ∀ old : Profile,
      (applyProfileBody user.role old b).userId = old.userId ∧
      (applyProfileBody user.role old b).resumeURL = old.resumeURL ∧
      (applyProfileBody user.role old b).resumePublicId = old.resumePublicId ∧
      (applyProfileBody user.role old b).companyLogoPublicId = old.companyLogoPublicId ∧
      (applyProfileBody user.role old b).bio =
        (if user.role = "seeker" then (b.bio.orElse fun _ => old.bio) else old.bio) ∧
      (applyProfileBody user.role old b).skills = (if user.role = "seeker" then
        ((b.skills.map (fun v => v.map trim)).getD old.skills) else old.skills) ∧
      (applyProfileBody user.role old b).experience =
        (if user.role = "seeker" then b.experience.getD old.experience else old.experience) ∧
      (applyProfileBody user.role old b).companyName = (if user.role = "employer" then
        (b.companyName.orElse fun _ => old.companyName) else old.companyName) ∧
      (applyProfileBody user.role old b).companyLogo = (if user.role = "employer" then
        (b.companyLogo.orElse fun _ => old.companyLogo) else old.companyLogo) ∧
      (applyProfileBody user.role old b).companyDescription = (if user.role = "employer" then
        (b.companyDescription.orElse fun _ => old.companyDescription)
        else old.companyDescription) ∧
      (applyProfileBody user.role old b).website = (if user.role = "employer" then
        (b.website.orElse fun _ => old.website) else old.website) ∧
      (applyProfileBody user.role old b).location = (b.location.orElse fun _ => old.location) ∧
      (applyProfileBody user.role old b).phone = (b.phone.orElse fun _ => old.phone) := by
    intro old
    exact ⟨
      (by unfold applyProfileBody; dsimp only; split <;> split <;> rfl),
      (by unfold applyProfileBody; dsimp only; split <;> split <;> rfl),
      (by unfold applyProfileBody; dsimp only; split <;> split <;> rfl),
      (by unfold applyProfileBody; dsimp only; split <;> split <;> rfl),
      (by
        unfold applyProfileBody
        dsimp only
        by_cases hs : user.role = "seeker" <;> by_cases he : user.role = "employer" <;>
          simp only [hs, he, if_true, if_false] <;> cases b.bio <;> rfl),
      (by
        unfold applyProfileBody
        dsimp only
        by_cases hs : user.role = "seeker" <;> by_cases he : user.role = "employer" <;>
          simp only [hs, he, if_true, if_false] <;> cases b.skills <;> rfl),
      (by
        unfold applyProfileBody
        dsimp only
        by_cases hs : user.role = "seeker" <;> by_cases he : user.role = "employer" <;>
          simp only [hs, he, if_true, if_false] <;> cases b.experience <;> rfl),
      (by
        unfold applyProfileBody
        dsimp only
        by_cases hs : user.role = "seeker" <;> by_cases he : user.role = "employer" <;>
          simp only [hs, he, if_true, if_false] <;> cases b.companyName <;> rfl),
      (by
        unfold applyProfileBody
        dsimp only
        by_cases hs : user.role = "seeker" <;> by_cases he : user.role = "employer" <;>
          simp only [hs, he, if_true, if_false] <;> cases b.companyLogo <;> rfl),
      (by
        unfold applyProfileBody
        dsimp only
        by_cases hs : user.role = "seeker" <;> by_cases he : user.role = "employer" <;>
          simp only [hs, he, if_true, if_false] <;> cases b.companyDescription <;> rfl),
      (by
        unfold applyProfileBody
        dsimp only
        by_cases hs : user.role = "seeker" <;> by_cases he : user.role = "employer" <;>
          simp only [hs, he, if_true, if_false] <;> cases b.website <;> rfl),
      (by
        unfold applyProfileBody
        dsimp only
        by_cases hs : user.role = "seeker" <;> by_cases he : user.role = "employer" <;>
          simp only [hs, he, if_true, if_false] <;> cases b.location <;> rfl),
      (by
        unfold applyProfileBody
        dsimp only
        by_cases hs : user.role = "seeker" <;> by_cases he : user.role = "employer" <;>
          simp only [hs, he, if_true, if_false] <;> cases b.phone <;> rfl)⟩
  unfold putProfile
  dsimp only
  split
  · exact Or.inl ⟨rfl, by intro st msg p h; cases h⟩
  · cases hfind : db.findProfile user._id with
    | some existing =>
      dsimp only
      split
      · exact Or.inl ⟨rfl, by intro st msg p h; cases h⟩
      · refine Or.inr ⟨existing, _, rfl, rfl, ?_, hfields existing⟩
        unfold Db.findProfile at hfind ⊢
        exact find?_userId_map_replace db.profiles user._id existing _ hfind
          (applyProfileBody_userId _ _ _)
    | none =>
      dsimp only
      split
      · exact Or.inl ⟨rfl, by intro st msg p h; cases h⟩
      · refine Or.inr ⟨{ userId := user._id }, _, rfl, rfl, ?_, hfields { userId := user._id }⟩
        unfold Db.findProfile at hfind ⊢
        show (db.profiles ++ [_]).find? _ = _
        rw [List.find?_append, hfind]
        simp [applyProfileBody_userId]

/-- C16 as stated fails: Sam, a seeker, sends skills whose first entry is
' js '; the update succeeds, and the stored skill is 'js', not the body's
value. -/
theorem putProfile_skill_trimmed_counterexample :
    profileBody1.skills = some [" js ", "lean"] ∧
    ((putProfile accountsDb samUser profileBody1).1.findProfile 0).map (fun p => p.skills) =
      some ["js", "lean"] ∧
    ((putProfile accountsDb samUser profileBody1).1.findProfile 0).map (fun p => some p.skills) ≠
      some profileBody1.skills := by
  decide

/-! ### One profile per user -/

theorem profileCount_eq_count (db : Db) (id : ObjectId) :
    profileCount db id = (db.profiles.map (fun p => p.userId)).count id := by
  unfold profileCount
  induction db.profiles with
  | nil => rfl
  | cons x xs ih =>
    by_cases hx : x.userId = id
    · simp [List.filter_cons, hx, ih]
    · have hx1 : (x.userId == id) = false := by simpa using hx
      simp [List.filter_cons, hx1, ih, List.count_cons, hx]

theorem findProfile_none_iff (db : Db) (id : ObjectId) :
    db.findProfile id = none ↔ ∀ p ∈ db.profiles, p.userId ≠ id := by
  unfold Db.findProfile
  rw [List.find?_eq_none]
  constructor
  · intro h p hp; simpa using h p hp
  · intro h p hp; simpa using h p hp

theorem addProfile_fresh (db : Db) (id : ObjectId) (h : ∀ p ∈ db.profiles, p.userId ≠ id) :
    db.addProfile id = ({ db with profiles := db.profiles ++ [{ userId := id }] }, true) := by
  unfold Db.addProfile
  rw [(findProfile_none_iff db id).mpr h]
  rfl

/-- The bookkeeping behind the one-to-one pairing of users and profiles. -/
theorem register_effect (rt : Runtime) (db : Db) (b : RegisterBody)
    (h : ∀ p ∈ db.profiles, p.userId < db.nextId) :
    (register rt db b).1 = db ∨
    ∃ user : User, user._id = db.nextId ∧
      (register rt db b).1 =
        { db with
          users := db.users ++ [user]
          nextId := db.nextId + 1
          profiles := db.profiles ++ [{ userId := db.nextId }] } := by
  have hfresh : ∀ (u : User),
      ∀ p ∈ ({ db with users := db.users ++ [u], nextId := db.nextId + 1 } : Db).profiles,
        p.userId ≠ db.nextId := by
    intro u p hp
    exact Nat.ne_of_lt (h p hp)
  unfold register
  dsimp only
  split
  · exact Or.inl rfl
  · split
    · exact Or.inl rfl
    · split
      · exact Or.inl rfl
      · split
        · exact Or.inl rfl
        · rw [addProfile_fresh _ _ (hfresh _)]
          exact Or.inr ⟨_, rfl, rfl⟩

theorem adminSeed_effect (db : Db) (h : ∀ p ∈ db.profiles, p.userId < db.nextId) :
    (adminSeed db).1 = db ∨
    ∃ user : User, user._id = db.nextId ∧
      (adminSeed db).1 =
        { db with
          users := db.users ++ [user]
          nextId := db.nextId + 1
          profiles := db.profiles ++ [{ userId := db.nextId }] } := by
  have hfresh : ∀ (u : User),
      ∀ p ∈ ({ db with users := db.users ++ [u], nextId := db.nextId + 1 } : Db).profiles,
        p.userId ≠ db.nextId := by
    intro u p hp
    exact Nat.ne_of_lt (h p hp)
  unfold adminSeed
  dsimp only
  split
  · exact Or.inl rfl
  · split
    · exact Or.inl rfl
    · rw [addProfile_fresh _ _ (hfresh _)]
      exact Or.inr ⟨_, rfl, rfl⟩

theorem putProfile_effect (db : Db) (user : ReqUser) (b : ProfileBody) :
    (putProfile db user b).1 = db ∨
    (∃ existing p, db.findProfile user._id = some existing ∧ p.userId = existing.userId ∧
      (putProfile db user b).1 =
        { db with profiles := db.profiles.map (fun x =>
            if x.userId = existing.userId then p else x) }) ∨
    (db.findProfile user._id = none ∧ ∃ p : Profile, p.userId = user._id ∧
      (putProfile db user b).1 = { db with profiles := db.profiles ++ [p] }) := by
  unfold putProfile
  dsimp only
  split
  · exact Or.inl rfl
  · cases hfind : db.findProfile user._id with
    | some existing =>
      dsimp only
      split
      · exact Or.inl rfl
      · exact Or.inr (Or.inl ⟨existing, _, rfl, applyProfileBody_userId _ _ _, rfl⟩)
    | none =>
      dsimp only
      split
      · exact Or.inl rfl
      · exact Or.inr (Or.inr ⟨rfl, _, applyProfileBody_userId _ _ _, rfl⟩)

theorem accountReachable_inv (rt : Runtime) (db : Db) (h : AccountReachable rt db) :
    (db.profiles.map (fun p => p.userId)).Nodup ∧
    (∀ u ∈ db.users, ∃ p ∈ db.profiles, p.userId = u._id) ∧
    (∀ u ∈ db.users, u._id < db.nextId) ∧
    (∀ p ∈ db.profiles, p.userId < db.nextId) := by
  have hext : ∀ (d : Db) (user : User), user._id = d.nextId →
      ((d.profiles.map (fun p => p.userId)).Nodup ∧
        (∀ u ∈ d.users, ∃ p ∈ d.profiles, p.userId = u._id) ∧
        (∀ u ∈ d.users, u._id < d.nextId) ∧
        (∀ p ∈ d.profiles, p.userId < d.nextId)) →
      (((d.profiles ++ [({ userId := d.nextId } : Profile)]).map (fun p => p.userId)).Nodup ∧
        (∀ u ∈ d.users ++ [user], ∃ p ∈ d.profiles ++ [({ userId := d.nextId } : Profile)],
          p.userId = u._id) ∧
        (∀ u ∈ d.users ++ [user], u._id < d.nextId + 1) ∧
        (∀ p ∈ d.profiles ++ [({ userId := d.nextId } : Profile)], p.userId < d.nextId + 1)) := by
    intro d user hid ⟨h1, h2, h3, h4⟩
    refine ⟨?_, ?_, ?_, ?_⟩
    · rw [List.map_append, List.nodup_append]
      refine ⟨h1, List.nodup_singleton _, ?_⟩
      intro k hk hk1
      simp only [List.map_cons, List.map_nil, List.mem_singleton] at hk1
      obtain ⟨p, hp, rfl⟩ := List.mem_map.mp hk
      have := h4 p hp
      rw [hk1] at this
      exact absurd this (Nat.lt_irrefl _)
    · intro u hu
      rcases List.mem_append.mp hu with hu1 | hu1
      · obtain ⟨p, hp, hpu⟩ := h2 u hu1
        exact ⟨p, List.mem_append_left _ hp, hpu⟩
      · rw [List.mem_singleton] at hu1
        subst hu1
        exact ⟨_, List.mem_append_right _ (List.mem_singleton.mpr rfl), hid.symm⟩
    · intro u hu
      rcases List.mem_append.mp hu with hu1 | hu1
      · exact Nat.lt_succ_of_lt (h3 u hu1)
      · rw [List.mem_singleton] at hu1
        subst hu1
        rw [hid]
        exact Nat.lt_succ_self _
    · intro p hp
      rcases List.mem_append.mp hp with hp1 | hp1
      · exact Nat.lt_succ_of_lt (h4 p hp1)
      · rw [List.mem_singleton] at hp1
        subst hp1
        exact Nat.lt_succ_self _
  induction h with
  | empty =>
    exact ⟨List.nodup_nil, fun u hu => (by cases hu), fun u hu => (by cases hu),
      fun p hp => (by cases hp)⟩
  | @register d b _ ih =>
    rcases register_effect rt d b ih.2.2.2 with h1 | ⟨user, hid, h1⟩
    · rw [h1]; exact ih
    · rw [h1]; exact hext d user hid ih
  | @adminSeed d _ ih =>
    rcases adminSeed_effect d ih.2.2.2 with h1 | ⟨user, hid, h1⟩
    · rw [h1]; exact ih
    · rw [h1]; exact hext d user hid ih
  | @putProfile d user b hauth _ ih =>
    obtain ⟨h1, h2, h3, h4⟩ := ih
    rcases putProfile_effect d user b with he | ⟨existing, p, hfind, hpid, he⟩ |
      ⟨hfind, p, hpid, he⟩
    · rw [he]; exact ⟨h1, h2, h3, h4⟩
    · rw [he]
      have hkeep : ∀ x : Profile,
          (if x.userId = existing.userId then p else x).userId = x.userId := by
        intro x
        split
        · rename_i hx; rw [hpid, hx]
        · rfl
      have hmap : (d.profiles.map (fun x => if x.userId = existing.userId then p else x)).map
          (fun p => p.userId) = d.profiles.map (fun p => p.userId) := by
        rw [List.map_map]
        exact List.map_congr_left (fun x _ => hkeep x)
      refine ⟨?_, ?_, h3, ?_⟩
      · show (List.map (fun p : Profile => p.userId) (d.profiles.map _)).Nodup
        rw [hmap]; exact h1
      · intro u hu
        obtain ⟨q, hq, hqu⟩ := h2 u hu
        exact ⟨_, List.mem_map.mpr ⟨q, hq, rfl⟩, by rw [hkeep q, hqu]⟩
      · intro q hq
        obtain ⟨x, hx, rfl⟩ := List.mem_map.mp hq
        rw [hkeep x]
        exact h4 x hx
    · rw [he]
      obtain ⟨u, hu, huid⟩ := hauth
      have hnone := (findProfile_none_iff d user._id).mp hfind
      refine ⟨?_, ?_, h3, ?_⟩
      · show (List.map (fun p : Profile => p.userId) (d.profiles ++ [p])).Nodup
        rw [List.map_append, List.nodup_append]
        refine ⟨h1, List.nodup_singleton _, ?_⟩
        intro k hk hk1
        simp only [List.map_cons, List.map_nil, List.mem_singleton] at hk1
        obtain ⟨q, hq, rfl⟩ := List.mem_map.mp hk
        exact hnone q hq (hk1.trans hpid)
      · intro v hv
        obtain ⟨q, hq, hqv⟩ := h2 v hv
        exact ⟨q, List.mem_append_left _ hq, hqv⟩
      · intro q hq
        rcases List.mem_append.mp hq with hq1 | hq1
        · exact h4 q hq1
        · rw [List.mem_singleton] at hq1
          subst hq1
          rw [hpid, ← huid]
          exact h3 u hu

/-- C15: in every state reachable through `POST /auth/register`,
`POST /auth/admin-seed` and `PUT /profile` (by an authenticated user), no user
id has more than one profile and every user has exactly one; and in any state
`PUT /profile` leaves the number of profiles as it is, except that for a
requester without a profile it may add one profile, with the requester's
userId. -/
theorem accounts_profile_one_to_one (rt : Runtime) (db : Db) (h : AccountReachable rt db) :
    (∀ id, profileCount db id ≤ 1) ∧
    (∀ u ∈ db.users, profileCount db u._id = 1) ∧
    (∀ (user : ReqUser) (b : ProfileBody),
      (putProfile db user b).1.profiles.length = db.profiles.length ∨
      (db.findProfile user._id = none ∧ ∃ p : Profile, p.userId = user._id ∧
        (putProfile db user b).1.profiles = db.profiles ++ [p])) := by
  obtain ⟨h1, h2, -, -⟩ := accountReachable_inv rt db h
  have hle : ∀ id, profileCount db id ≤ 1 := by
    intro id
    rw [profileCount_eq_count]
    exact List.nodup_iff_count_le_one.mp h1 id
  refine ⟨hle, ?_, ?_⟩
  · intro u hu
    obtain ⟨p, hp, hpu⟩ := h2 u hu
    have hpos : 0 < profileCount db u._id := by
      rw [profileCount_eq_count]
      exact List.count_pos_iff.mpr (List.mem_map.mpr ⟨p, hp, hpu⟩)
    have := hle u._id
    omega
  · intro user b
    rcases putProfile_effect db user b with he | ⟨existing, p, -, -, he⟩ | ⟨hfind, p, hpid, he⟩
    · rw [he]; exact Or.inl rfl
    · rw [he]; exact Or.inl (List.length_map _ _)
    · rw [he]; exact Or.inr ⟨hfind, p, hpid, rfl⟩

/-- Witness of C15: Sam and Acme registered, then Sam updated the profile. -/
theorem accounts_profile_one_to_one_witness :
    AccountReachable testRuntime (putProfile accountsDb samUser profileBody1).1 ∧
    ∀ u ∈ (putProfile accountsDb samUser profileBody1).1.users,
      profileCount (putProfile accountsDb samUser profileBody1).1 u._id = 1 :=
  ⟨AccountReachable.putProfile samUser profileBody1
      ⟨{ _id := 0, name := "Sam", email := "sam@mail.com", passwordHash := "secret1" },
        by decide, rfl⟩
      (AccountReachable.register registerAcme
        (AccountReachable.register registerSam AccountReachable.empty)),
    (accounts_profile_one_to_one testRuntime (putProfile accountsDb samUser profileBody1).1
      (AccountReachable.putProfile samUser profileBody1
        ⟨{ _id := 0, name := "Sam", email := "sam@mail.com", passwordHash := "secret1" },
          by decide, rfl⟩
        (AccountReachable.register registerAcme
          (AccountReachable.register registerSam AccountReachable.empty)))).2.1⟩


/-! ## Third group of properties -/

/-- C28: when NODE_ENV is not 'development', `POST /auth/forgot-password`
gives every two syntactically valid emails the same answer, whether or not a
user has them: status 200, the message 'If an account exists, a password reset
link has been sent', and no resetToken. -/
theorem forgotPassword_same_answer (rt : Runtime) (henv : rt.nodeEnv ≠ "development")
    (db : Db) (now1 now2 : Nat) (email1 email2 : Option String) (token1 token2 : String)
    (h1 : rt.isEmail (email1.getD "") = true) (h2 : rt.isEmail (email2.getD "") = true) :
    (forgotPassword rt db now1 email1 token1).2 =
        .ok 200 "If an account exists, a password reset link has been sent" none ∧
    (forgotPassword rt db now1 email1 token1).2 = (forgotPassword rt db now2 email2 token2).2 := by
  have key : ∀ (now : Nat) (email : Option String) (token : String),
      rt.isEmail (email.getD "") = true →
      (forgotPassword rt db now email token).2 =
        .ok 200 "If an account exists, a password reset link has been sent" none := by
    intro now email token h
    unfold forgotPassword
    simp only [h, Bool.not_true, Bool.false_eq_true, if_false]
    split
    · rfl
    · simp only [henv, if_false]
  exact ⟨key now1 email1 token1 h1, (key now1 email1 token1 h1).trans (key now2 email2 token2 h2).symm⟩

/-- Witness of C28: Sam's email, which is registered, and an email nobody
registered. -/
theorem forgotPassword_same_answer_witness :
    (accountsDb.findUserByEmail "sam@mail.com").isSome = true ∧
    accountsDb.findUserByEmail "nobody@mail.com" = none ∧
    (forgotPassword testRuntime accountsDb 100 (some "sam@mail.com") "tok").2 =
      (forgotPassword testRuntime accountsDb 100 (some "nobody@mail.com") "tok").2 :=
  ⟨by decide, by decide,
    (forgotPassword_same_answer testRuntime (by decide) accountsDb 100 100 (some "sam@mail.com")
      (some "nobody@mail.com") "tok" "tok" (by decide) (by decide)).2⟩

theorem registerErrors_role (rt : Runtime) (b : RegisterBody) (h : registerErrors rt b = []) :
    b.role = some "employer" ∨ b.role = some "seeker" := by
  unfold registerErrors at h
  simp only [List.append_eq_nil] at h
  obtain ⟨-, hrole⟩ := h
  cases hr : b.role with
  | none => rw [hr] at hrole; simp at hrole
  | some r =>
    rw [hr] at hrole
    by_cases hm : r ∈ ["employer", "seeker"]
    · simp only [List.mem_cons, List.mem_singleton, List.not_mem_nil, or_false] at hm
      rcases hm with hm | hm
      · exact Or.inl (by rw [hm])
      · exact Or.inr (by rw [hm])
    · simp [hm] at hrole

theorem registerErrors_invalid_role (rt : Runtime) (b : RegisterBody)
    (h1 : b.role ≠ some "employer") (h2 : b.role ≠ some "seeker") :
    "Invalid role" ∈ registerErrors rt b := by
  unfold registerErrors
  apply List.mem_append_right
  cases hr : b.role with
  | none => simp
  | some r =>
    have hm : r ∉ ["employer", "seeker"] := by
      simp only [List.mem_cons, List.mem_singleton, List.not_mem_nil, or_false]
      rintro (hm | hm)
      · exact h1 (by rw [hr, hm])
      · exact h2 (by rw [hr, hm])
    simp [hm]

theorem adminCount_eq_zero_iff (db : Db) :
    adminCount db = 0 ↔ db.users.find? (fun u => u.role == "admin") = none := by
  unfold adminCount
  rw [List.length_eq_zero, List.filter_eq_nil_iff, List.find?_eq_none]

theorem adminCount_append (db : Db) (users : List User) (u : User)
    (h : db.users = users ++ [u]) :
    adminCount db = (users.filter (fun u => u.role == "admin")).length +
      (if u.role = "admin" then 1 else 0) := by
  unfold adminCount
  rw [h, List.filter_append, List.length_append]
  by_cases hu : u.role = "admin"
  · simp [List.filter, hu]
  · have hb : (u.role == "admin") = false := by simpa using hu
    simp [List.filter, hu, hb]

theorem register_adminCount (rt : Runtime) (db : Db) (b : RegisterBody) :
    adminCount (register rt db b).1 = adminCount db := by
  rcases register_users rt db b with h | ⟨u, h, -, -, -, -, herr, hrole⟩
  · unfold adminCount; rw [h]
  · rw [adminCount_append _ _ _ h]
    have : u.role ≠ "admin" := by
      rcases registerErrors_role rt b herr with hr | hr <;> rw [hrole, hr] <;> decide
    simp only [this, if_false, Nat.add_zero]
    rfl

theorem adminSeed_adminCount (db : Db) :
    adminCount (adminSeed db).1 = adminCount db ∨
      (adminCount db = 0 ∧ adminCount (adminSeed db).1 = 1) := by
  rcases adminSeed_users db with h | ⟨u, h, -, -, hrole, -, hnone⟩
  · left; unfold adminCount; rw [h]
  · right
    have h0 := (adminCount_eq_zero_iff db).2 hnone
    refine ⟨h0, ?_⟩
    rw [adminCount_append _ _ _ h]
    unfold adminCount at h0
    rw [h0]
    simp [hrole]

/-- C29: in every state reachable through `POST /auth/register` and
`POST /auth/admin-seed` from a store without admin users, at most one user has
role 'admin'.  In such a state a registration whose role is not 'employer' or
'seeker' (so also 'admin') is answered 400 with the error 'Invalid role' and
leaves the store as it was; admin-seed answers 400 'Admin user already exists'
and leaves the store as it was when a user with role 'admin' exists, and adds
a user only when none does. -/
theorem at_most_one_admin (rt : Runtime) (db0 db : Db) (h0 : adminCount db0 = 0)
    (h : SignupReachable rt db0 db) :
    adminCount db ≤ 1 ∧
    (∀ b : RegisterBody, b.role ≠ some "employer" → b.role ≠ some "seeker" →
      register rt db b = (db, .errors 400 (registerErrors rt b)) ∧
      "Invalid role" ∈ registerErrors rt b) ∧
    ((∃ u ∈ db.users, u.role = "admin") →
      adminSeed db = (db, .error 400 "Admin user already exists")) ∧
    ((adminSeed db).1.users ≠ db.users →
      adminCount db = 0 ∧ adminCount (adminSeed db).1 = 1) := by
  refine ⟨?_, ?_, ?_, ?_⟩
  · induction h with
    | start => rw [h0]; exact Nat.zero_le 1
    | register b _ ih => rw [register_adminCount]; exact ih
    | adminSeed _ ih =>
      rcases adminSeed_adminCount _ with h1 | ⟨-, h1⟩
      · rw [h1]; exact ih
      · rw [h1]
  · intro b h1 h2
    have hmem := registerErrors_invalid_role rt b h1 h2
    refine ⟨?_, hmem⟩
    have hne : registerErrors rt b ≠ [] := List.ne_nil_of_mem hmem
    unfold register
    simp only [hne, ne_eq, not_false_eq_true, if_true]
  · rintro ⟨u, hu, hrole⟩
    have hsome : (db.users.find? (fun u => u.role == "admin")).isSome = true :=
      find?_isSome_of_mem _ _ u hu (by simp [hrole])
    unfold adminSeed
    simp only [hsome, if_true]
  · intro hne
    rcases adminSeed_users db with h1 | ⟨u, h1, -, -, hrole, -, hnone⟩
    · exact absurd h1 hne
    · have hz := (adminCount_eq_zero_iff db).2 hnone
      refine ⟨hz, ?_⟩
      rw [adminCount_append _ _ _ h1]
      unfold adminCount at hz
      rw [hz]
      simp [hrole]

/-- Witness of C29: after Sam and Acme registered and the admin was seeded,
one user is an admin; a second seeding and a registration as admin are both
answered 400 and change nothing. -/
theorem at_most_one_admin_witness :
    adminCount emptyDb = 0 ∧
    adminCount (adminSeed accountsDb).1 = 1 ∧
    adminSeed (adminSeed accountsDb).1 =
      ((adminSeed accountsDb).1, .error 400 "Admin user already exists") ∧
    register testRuntime (adminSeed accountsDb).1 registerAdmin =
      ((adminSeed accountsDb).1, .errors 400 ["Invalid role"]) :=
  ⟨by decide, by decide,
    (at_most_one_admin testRuntime emptyDb (adminSeed accountsDb).1 (by decide)
      (SignupReachable.adminSeed (SignupReachable.register registerAcme
        (SignupReachable.register registerSam SignupReachable.start)))).2.2.1
      ⟨{ _id := 2, name := "Admin", email := "admin@amdox.com", passwordHash := "admin123",
          role := "admin" }, by decide, rfl⟩,
    ((at_most_one_admin testRuntime emptyDb (adminSeed accountsDb).1 (by decide)
      (SignupReachable.adminSeed (SignupReachable.register registerAcme
        (SignupReachable.register registerSam SignupReachable.start)))).2.1
      registerAdmin (by decide) (by decide)).1⟩

/-! ### Emails -/

theorem findUserByEmail_isSome_iff (db : Db) (email : String) :
    (db.findUserByEmail email).isSome = true ↔ ∃ u ∈ db.users, u.email = email := by
  unfold Db.findUserByEmail
  constructor
  · intro h
    cases hf : db.users.find? (fun u => u.email == email) with
    | none => rw [hf] at h; cases h
    | some u =>
      exact ⟨u, List.mem_of_find?_eq_some hf, by simpa using List.find?_some hf⟩
  · rintro ⟨u, hu, he⟩
    exact find?_isSome_of_mem _ _ u hu (by simp [he])

/-- The email as the setters leave it after the handler lower-cased it: the
address lower-cased and trimmed. -/
theorem emailSetters_toLowerCase (rt : Runtime) (hrt : rt.Lawful) (s : String) :
    emailSetters rt (rt.toLowerCase s) = trim (rt.toLowerCase s) := by
  unfold emailSetters
  rw [hrt.2.2.2.2.1 s, hrt.2.2.2.1]

/-- The outcomes of a registration that passed the validators. -/
theorem register_outcome (rt : Runtime) (db : Db) (b : RegisterBody)
    (hv : registerErrors rt b = []) :
    ((∃ u ∈ db.users, u.email = emailSetters rt (rt.toLowerCase (b.email.getD ""))) ∧
      register rt db b = (db, .error 400 "Email already registered")) ∨
    ((¬ ∃ u ∈ db.users, u.email = emailSetters rt (rt.toLowerCase (b.email.getD ""))) ∧
      ((register rt db b).2 = .thrown "ValidationError" ∨
       (register rt db b).2 = .thrown "MongoServerError" ∨
       ∃ user : User, user.email = emailSetters rt (rt.toLowerCase (b.email.getD "")) ∧
        (register rt db b).1.users = db.users ++ [user] ∧
        (register rt db b).2 = .ok 201 "Registration successful"
          { id := user._id, name := user.name, email := user.email, role := user.role,
            token := { userId := user._id } })) := by
  by_cases hex : ∃ u ∈ db.users, u.email = emailSetters rt (rt.toLowerCase (b.email.getD ""))
  · left
    refine ⟨hex, ?_⟩
    have hsome := (findUserByEmail_isSome_iff db _).2 hex
    unfold register Db.findOneUserByEmail
    simp only [hv, ne_eq, not_true_eq_false, if_false, hsome, if_true]
  · right
    refine ⟨hex, ?_⟩
    have hnone : (db.findUserByEmail
        (emailSetters rt (rt.toLowerCase (b.email.getD "")))).isSome = false := by
      cases hs : (db.findUserByEmail
          (emailSetters rt (rt.toLowerCase (b.email.getD "")))).isSome with
      | false => rfl
      | true => exact absurd ((findUserByEmail_isSome_iff db _).1 hs) hex
    unfold register Db.findOneUserByEmail
    simp only [hv, ne_eq, not_true_eq_false, if_false, hnone, Bool.false_eq_true]
    split
    · exact Or.inl rfl
    · split
      · exact Or.inr (Or.inl rfl)
      · refine Or.inr (Or.inr
          ⟨{ _id := db.nextId, name := trimmed b.name,
              email := emailSetters rt (rt.toLowerCase (b.email.getD "")),
              passwordHash := b.password.getD "", role := b.role.getD "seeker" },
            rfl, ?_, rfl⟩)
        rw [addProfile_users]

theorem emails_unique_append (db : Db) (h : UserEmailsUnique db) (user : User)
    (hnone : db.findUserByEmail user.email = none) :
    ((db.users ++ [user]).map (fun u => u.email)).Nodup := by
  unfold UserEmailsUnique at h
  rw [List.map_append, List.nodup_append]
  refine ⟨h, List.nodup_singleton _, ?_⟩
  intro e he he2
  simp only [List.map_cons, List.map_nil, List.mem_singleton] at he2
  subst he2
  obtain ⟨u, hu, hue⟩ := List.mem_map.1 he
  unfold Db.findUserByEmail at hnone
  rw [List.find?_eq_none] at hnone
  have := hnone u hu
  simp [hue] at this

/-- In every state reached by registrations and admin seeding, emails are
unique and in lower case. -/
theorem signupReachable_emails (rt : Runtime) (hrt : rt.Lawful) (db : Db)
    (h : SignupReachable rt emptyDb db) :
    UserEmailsUnique db ∧ ∀ u ∈ db.users, rt.toLowerCase u.email = u.email := by
  induction h with
  | start => exact ⟨by decide, fun u hu => by cases hu⟩
  | @register db b _ ih =>
    rcases register_users rt db b with h | ⟨user, h, -, hemail, -, hnone, -, -⟩
    · unfold UserEmailsUnique
      rw [h]
      exact ih
    · unfold UserEmailsUnique
      rw [h]
      refine ⟨emails_unique_append db ih.1 user hnone, ?_⟩
      intro u hu
      rcases List.mem_append.1 hu with hu | hu
      · exact ih.2 u hu
      · rw [List.mem_singleton] at hu
        subst hu
        rw [hemail]
        exact toLowerCase_emailSetters rt hrt _
  | @adminSeed db _ ih =>
    rcases adminSeed_users db with h | ⟨user, h, -, hemail, -, hnone, -⟩
    · unfold UserEmailsUnique
      rw [h]
      exact ih
    · unfold UserEmailsUnique
      rw [h]
      refine ⟨emails_unique_append db ih.1 user (by rw [hemail]; exact hnone), ?_⟩
      intro u hu
      rcases List.mem_append.1 hu with hu | hu
      · exact ih.2 u hu
      · rw [List.mem_singleton] at hu
        subst hu
        rw [hemail, hrt.2.2.2.2.2 _ (by decide)]
        decide

/-- C21 (as amended): in every state reachable through `POST /auth/register`
and `POST /auth/admin-seed` no two users have the same email and every email
is in lower case.  A registration that fails a validator is answered 400 with
the validation errors and leaves the store as it was.  A registration that
passes the validators answers 400 'Email already registered' and leaves the
store as it was exactly when a user holds the email lower-cased and trimmed;
and when it answers 201 the one user it adds holds the email lower-cased and
trimmed. -/
theorem register_emails_unique (rt : Runtime) (hrt : rt.Lawful) (db : Db)
    (h : SignupReachable rt emptyDb db) :
    UserEmailsUnique db ∧ (∀ u ∈ db.users, rt.toLowerCase u.email = u.email) ∧
    ∀ b : RegisterBody,
      (registerErrors rt b ≠ [] →
        register rt db b = (db, .errors 400 (registerErrors rt b))) ∧
      (registerErrors rt b = [] →
        ((∃ u ∈ db.users, u.email = trim (rt.toLowerCase (b.email.getD ""))) →
          register rt db b = (db, .error 400 "Email already registered")) ∧
        ((register rt db b).2 = .error 400 "Email already registered" →
          ∃ u ∈ db.users, u.email = trim (rt.toLowerCase (b.email.getD ""))) ∧
        (∀ p, (register rt db b).2 = .ok 201 "Registration successful" p →
          p.email = trim (rt.toLowerCase (b.email.getD "")) ∧
          ∃ user : User, user.email = trim (rt.toLowerCase (b.email.getD "")) ∧
            user._id = p.id ∧ (register rt db b).1.users = db.users ++ [user])) := by
  refine ⟨(signupReachable_emails rt hrt db h).1, (signupReachable_emails rt hrt db h).2, ?_⟩
  intro b
  constructor
  · intro hne
    unfold register
    simp only [hne, ne_eq, not_false_eq_true, if_true]
  intro hv
  have hlow := emailSetters_toLowerCase rt hrt (b.email.getD "")
  rcases register_outcome rt db b hv with ⟨hex, hr⟩ | ⟨hex, hr⟩
  · rw [hlow] at hex
    refine ⟨fun _ => hr, fun _ => hex, ?_⟩
    intro p hp
    rw [hr] at hp
    cases hp
  · rw [hlow] at hex
    refine ⟨fun h1 => absurd h1 hex, ?_, ?_⟩
    · intro h1
      rcases hr with hr | hr | ⟨user, -, -, hr⟩ <;> rw [hr] at h1 <;> cases h1
    · intro p hp
      rcases hr with hr | hr | ⟨user, hemail, husers, hr⟩
      · rw [hr] at hp; cases hp
      · rw [hr] at hp; cases hp
      · rw [hr] at hp
        injection hp with _ _ hpay
        subst hpay
        rw [hlow] at hemail
        exact ⟨hemail, user, hemail, rfl, husers⟩

/-- Witness of C21 (as amended): with Sam and Acme registered, a registration
under 'SAM@Mail.com' is answered 400 'Email already registered'. -/
theorem register_emails_unique_witness :
    registerErrors testRuntime
      { name := some "Sam2", email := some "SAM@Mail.com", password := some "secret9",
        role := some "seeker" } = [] ∧
    register testRuntime accountsDb
      { name := some "Sam2", email := some "SAM@Mail.com", password := some "secret9",
        role := some "seeker" } = (accountsDb, .error 400 "Email already registered") :=
  ⟨by decide,
    (((register_emails_unique testRuntime testRuntime_lawful accountsDb
      (SignupReachable.register registerAcme
        (SignupReachable.register registerSam SignupReachable.start))).2.2
      { name := some "Sam2", email := some "SAM@Mail.com", password := some "secret9",
        role := some "seeker" }).2 (by decide)).1
      ⟨{ _id := 0, name := "Sam", email := "sam@mail.com", passwordHash := "secret1" },
        by decide, by decide⟩⟩

/-- C21 as stated fails: Sam's email is registered, yet a registration with
that email and an empty name is answered 400 with the validators' error 'Name
is required', not 400 'Email already registered'. -/
theorem register_existing_email_invalid_body_counterexample :
    (∃ u ∈ accountsDb.users, u.email = testRuntime.toLowerCase "sam@mail.com") ∧
    register testRuntime accountsDb registerNameless =
      (accountsDb, .errors 400 ["Name is required"]) ∧
    (register testRuntime accountsDb registerNameless).2 ≠
      .error 400 "Email already registered" :=
  ⟨⟨{ _id := 0, name := "Sam", email := "sam@mail.com", passwordHash := "secret1" },
      by decide, by decide⟩, by decide, by decide⟩

/-! ### Password reset -/

theorem findUserByResetToken_some {db : Db} {d : String} {now : Nat} {u : User}
    (h : db.findUserByResetToken d now = some u) :
    u ∈ db.users ∧ u.passwordResetToken = some d ∧
      ∃ e, u.passwordResetExpires = some e ∧ now < e := by
  unfold Db.findUserByResetToken at h
  have hp := List.find?_some h
  have hm := List.mem_of_find?_eq_some h
  simp only [Bool.and_eq_true, beq_iff_eq] at hp
  refine ⟨hm, hp.1, ?_⟩
  cases he : u.passwordResetExpires with
  | none => rw [he] at hp; simp at hp
  | some e =>
    rw [he] at hp
    exact ⟨e, rfl, by simpa using hp.2⟩

theorem findUserByResetToken_none_iff (db : Db) (d : String) (now : Nat) :
    db.findUserByResetToken d now = none ↔
      ¬ ∃ u ∈ db.users, u.passwordResetToken = some d ∧
        ∃ e, u.passwordResetExpires = some e ∧ now < e := by
  constructor
  · intro h
    rintro ⟨u, hu, htok, e, hexp, hlt⟩
    unfold Db.findUserByResetToken at h
    rw [List.find?_eq_none] at h
    have := h u hu
    simp [htok, hexp, hlt] at this
  · intro h
    cases hf : db.findUserByResetToken d now with
    | none => rfl
    | some u =>
      obtain ⟨hu, htok, hexp⟩ := findUserByResetToken_some hf
      exact absurd ⟨u, hu, htok, hexp⟩ h

/-- What `POST /auth/reset-password/:token` does with a password of at least
six characters. -/
theorem resetPassword_spec (rt : Runtime) (db : Db) (now : Nat) (token : String)
    (password : Option String) (hpw : 6 ≤ (password.getD "").length) :
    (db.findUserByResetToken (rt.sha256 token) now = none ∧
      resetPassword rt db now token password =
        (db, .error 400 "Token is invalid or has expired")) ∨
    ∃ u, db.findUserByResetToken (rt.sha256 token) now = some u ∧
      resetPassword rt db now token password =
        (db.saveUser
            { u with
              passwordHash := password.getD ""
              passwordResetToken := none
              passwordResetExpires := none },
          .ok 200 "Password reset successful" { userId := u._id }) := by
  have hlt : ¬ (password.getD "").length < 6 := Nat.not_lt.2 hpw
  unfold resetPassword
  simp only [hlt, if_false]
  cases hf : db.findUserByResetToken (rt.sha256 token) now with
  | none => exact Or.inl ⟨rfl, rfl⟩
  | some u => exact Or.inr ⟨u, rfl, rfl⟩

/-- C22 (as amended): `createPasswordResetToken` stores the digest of the
token it returns and an expiry 10 minutes after the creation time.  For a new
password of at least six characters, `POST /auth/reset-password/:token`
succeeds exactly when some user stores the digest of the presented token with
an expiry later than the current time; otherwise it answers 400 'Token is
invalid or has expired' and changes nothing.  A successful reset leaves the
user without token and expiry, and if no other user stored that digest,
presenting the token again is answered 400 'Token is invalid or has expired'. -/
theorem resetPassword_token (rt : Runtime) (db : Db) (now : Nat) (token : String)
    (password : Option String) (hpw : 6 ≤ (password.getD "").length) :
    (∀ (u : User) (t : String),
      (createPasswordResetToken rt u now t).passwordResetToken = some (rt.sha256 t) ∧
      (createPasswordResetToken rt u now t).passwordResetExpires =
        some (now + 10 * 60 * 1000)) ∧
    ((∃ u ∈ db.users, u.passwordResetToken = some (rt.sha256 token) ∧
        ∃ e, u.passwordResetExpires = some e ∧ now < e) ↔
      ∃ jwt, (resetPassword rt db now token password).2 =
        .ok 200 "Password reset successful" jwt) ∧
    ((¬ ∃ u ∈ db.users, u.passwordResetToken = some (rt.sha256 token) ∧
        ∃ e, u.passwordResetExpires = some e ∧ now < e) →
      resetPassword rt db now token password =
        (db, .error 400 "Token is invalid or has expired")) ∧
    (∀ jwt, (resetPassword rt db now token password).2 =
        .ok 200 "Password reset successful" jwt →
      (∀ x ∈ (resetPassword rt db now token password).1.users, x._id = jwt.userId →
        x.passwordResetToken = none ∧ x.passwordResetExpires = none) ∧
      ((∀ x ∈ db.users, x.passwordResetToken = some (rt.sha256 token) → x._id = jwt.userId) →
        ∀ (now2 : Nat) (password2 : Option String), 6 ≤ (password2.getD "").length →
          resetPassword rt (resetPassword rt db now token password).1 now2 token password2 =
            ((resetPassword rt db now token password).1,
              .error 400 "Token is invalid or has expired"))) := by
  refine ⟨fun u t => ⟨rfl, rfl⟩, ?_, ?_, ?_⟩
  · rcases resetPassword_spec rt db now token password hpw with ⟨hnone, hr⟩ | ⟨u, hsome, hr⟩
    · constructor
      · intro hex
        exact absurd hex ((findUserByResetToken_none_iff db _ now).1 hnone)
      · rintro ⟨jwt, hj⟩
        rw [hr] at hj
        cases hj
    · constructor
      · intro _
        exact ⟨_, by rw [hr]⟩
      · intro _
        obtain ⟨hu, htok, hexp⟩ := findUserByResetToken_some hsome
        exact ⟨u, hu, htok, hexp⟩
  · intro hno
    have hnone := (findUserByResetToken_none_iff db (rt.sha256 token) now).2 hno
    rcases resetPassword_spec rt db now token password hpw with ⟨-, hr⟩ | ⟨u, hsome, -⟩
    · exact hr
    · rw [hnone] at hsome; cases hsome
  · intro jwt hj
    rcases resetPassword_spec rt db now token password hpw with ⟨-, hr⟩ | ⟨u, hsome, hr⟩
    · rw [hr] at hj; cases hj
    · rw [hr] at hj ⊢
      injection hj with _ _ hjwt
      subst hjwt
      have hshape : ∀ x ∈ (db.saveUser
            { u with
              passwordHash := password.getD ""
              passwordResetToken := none
              passwordResetExpires := none }).users,
          (x.passwordResetToken = none ∧ x.passwordResetExpires = none ∧ x._id = u._id) ∨
          (x ∈ db.users ∧ x._id ≠ u._id) := by
        intro x hx
        unfold Db.saveUser at hx
        obtain ⟨y, hy, hxy⟩ := List.mem_map.1 hx
        by_cases he : y._id = u._id
        · left
          simp only [he, if_true] at hxy
          subst hxy
          exact ⟨rfl, rfl, rfl⟩
        · right
          simp only [he, if_false] at hxy
          subst hxy
          exact ⟨hy, he⟩
      refine ⟨?_, ?_⟩
      · intro x hx hid
        rcases hshape x hx with ⟨h1, h2, -⟩ | ⟨-, hne⟩
        · exact ⟨h1, h2⟩
        · exact absurd hid hne
      · intro honly now2 password2 hpw2
        rcases resetPassword_spec rt _ now2 token password2 hpw2 with ⟨-, hr2⟩ | ⟨v, hsome2, -⟩
        · exact hr2
        · obtain ⟨hv, htok, -⟩ := findUserByResetToken_some hsome2
          rcases hshape v hv with ⟨h1, -, -⟩ | ⟨hmem, hne⟩
          · rw [h1] at htok; cases htok
          · exact absurd (honly v hmem htok) hne

/-- Witness of C22 (as amended): Sam asks for a reset at time 100 and resets
the password with the token at time 200; presenting the token once more is
rejected. -/
theorem resetPassword_token_witness :
    (resetPassword testRuntime resetRequestedDb 200 "tok" (some "newsecret")).2 =
      .ok 200 "Password reset successful" { userId := 0 } ∧
    resetPassword testRuntime resetDoneDb 300 "tok" (some "another1") =
      (resetDoneDb, .error 400 "Token is invalid or has expired") :=
  ⟨by decide,
    ((resetPassword_token testRuntime resetRequestedDb 200 "tok" (some "newsecret")
      (by decide)).2.2.2 { userId := 0 } (by decide)).2 (by decide) 300 (some "another1")
      (by decide)⟩

/-- C22 as stated fails: Sam's token is stored and has not expired, yet
presenting it with the new password 'abc' is answered 400 with the validator's
error 'Password must be at least 6 characters', and Sam's password stays. -/
theorem resetPassword_short_password_counterexample :
    (∃ u ∈ resetRequestedDb.users,
      u.passwordResetToken = some (testRuntime.sha256 "tok") ∧
      ∃ e, u.passwordResetExpires = some e ∧ 200 < e) ∧
    resetPassword testRuntime resetRequestedDb 200 "tok" (some "abc") =
      (resetRequestedDb, .errors 400 ["Password must be at least 6 characters"]) :=
  ⟨⟨{ _id := 0, name := "Sam", email := "sam@mail.com", passwordHash := "secret1",
      passwordResetToken := some "sha256:tok", passwordResetExpires := some 600100 },
      by decide, by decide, 600100, by decide, by decide⟩, by decide⟩

/-! ### Editing a job -/

/-- The fields the update loop of `PUT /jobs/:id` never assigns. -/
theorem applyAllowedUpdates_frame (j : Job) (b : JobBody) :
    (applyAllowedUpdates j b)._id = j._id ∧
    (applyAllowedUpdates j b).employerId = j.employerId ∧
    (applyAllowedUpdates j b).applicationCount = j.applicationCount ∧
    (applyAllowedUpdates j b).viewCount = j.viewCount ∧
    (applyAllowedUpdates j b).isFeatured = j.isFeatured ∧
    (applyAllowedUpdates j b).companyName = j.companyName ∧
    (applyAllowedUpdates j b).companyLogo = j.companyLogo ∧
    (applyAllowedUpdates j b).createdAt = j.createdAt :=
  ⟨rfl, rfl, rfl, rfl, rfl, rfl, rfl, rfl⟩

/-- A field the body leaves undefined keeps its value. -/
theorem applyAllowedUpdates_undefined (j : Job) (b : JobBody) :
    (b.title = none → (applyAllowedUpdates j b).title = j.title) ∧
    (b.description = none → (applyAllowedUpdates j b).description = j.description) ∧
    (b.qualifications = none → (applyAllowedUpdates j b).qualifications = j.qualifications) ∧
    (b.responsibilities = none → (applyAllowedUpdates j b).responsibilities = j.responsibilities) ∧
    (b.location = none → (applyAllowedUpdates j b).location = j.location) ∧
    (b.salaryRange = none → (applyAllowedUpdates j b).salaryRange = j.salaryRange) ∧
    (b.jobType = none → (applyAllowedUpdates j b).jobType = j.jobType) ∧
    (b.experienceLevel = none → (applyAllowedUpdates j b).experienceLevel = j.experienceLevel) ∧
    (b.industry = none → (applyAllowedUpdates j b).industry = j.industry) ∧
    (b.skills = none → (applyAllowedUpdates j b).skills = j.skills) ∧
    (b.benefits = none → (applyAllowedUpdates j b).benefits = j.benefits) ∧
    (b.applicationDeadline = none → (applyAllowedUpdates j b).applicationDeadline = j.applicationDeadline) ∧
    (b.isActive = none → (applyAllowedUpdates j b).isActive = j.isActive) := by
  refine ⟨?_, ?_, ?_, ?_, ?_, ?_, ?_, ?_, ?_, ?_, ?_, ?_, ?_⟩ <;> intro h <;> unfold applyAllowedUpdates <;> simp [h]

/-- A field the body defines takes the body's value, as the schema casts it. -/
theorem applyAllowedUpdates_defined (j : Job) (b : JobBody) :
    (∀ v, b.title = some v → (applyAllowedUpdates j b).title = trim v) ∧
    (∀ v, b.description = some v → (applyAllowedUpdates j b).description = v) ∧
    (∀ v, b.qualifications = some v → (applyAllowedUpdates j b).qualifications = v) ∧
    (∀ v, b.responsibilities = some v → (applyAllowedUpdates j b).responsibilities = v) ∧
    (∀ v, b.location = some v → (applyAllowedUpdates j b).location = v) ∧
    (∀ v, b.salaryRange = some v → (applyAllowedUpdates j b).salaryRange = v) ∧
    (∀ v, b.jobType = some v → (applyAllowedUpdates j b).jobType = v) ∧
    (∀ v, b.experienceLevel = some v → (applyAllowedUpdates j b).experienceLevel = v) ∧
    (∀ v, b.industry = some v → (applyAllowedUpdates j b).industry = some (trim v)) ∧
    (∀ v, b.skills = some v → (applyAllowedUpdates j b).skills = v.map trim) ∧
    (∀ v, b.benefits = some v → (applyAllowedUpdates j b).benefits = v.map trim) ∧
    (∀ v, b.applicationDeadline = some v → (applyAllowedUpdates j b).applicationDeadline = some v) ∧
    (∀ v, b.isActive = some v → (applyAllowedUpdates j b).isActive = v) := by
  refine ⟨?_, ?_, ?_, ?_, ?_, ?_, ?_, ?_, ?_, ?_, ?_, ?_, ?_⟩ <;> intro v h <;> unfold applyAllowedUpdates <;> simp [h]

/-- What `PUT /jobs/:id` does for the owner of an existing job. -/
theorem putJob_owner_spec (db : Db) (user : ReqUser) (i : ObjectId) (b : JobBody) (job : Job)
    (hjob : db.findJob i = some job) (hown : job.employerId = user._id) :
    (jobSchemaValid (applyAllowedUpdates job b) = false ∧
      putJob db user (.valid i) b = (db, .thrown "ValidationError")) ∨
    (jobSchemaValid (applyAllowedUpdates job b) = true ∧
      putJob db user (.valid i) b =
        (db.saveJob (applyAllowedUpdates job b),
          .ok 200 "Job updated successfully" (applyAllowedUpdates job b))) := by
  unfold putJob
  simp only [hjob, hown, ne_eq, not_true_eq_false, if_false]
  cases hv : jobSchemaValid (applyAllowedUpdates job b) with
  | false => exact Or.inl ⟨rfl, rfl⟩
  | true => exact Or.inr ⟨rfl, rfl⟩

/-- C23 (as amended): `PUT /jobs/:id` by the owner of an existing job leaves
every other job in the store, and of the job itself never changes _id,
employerId, applicationCount, viewCount, isFeatured, companyName, companyLogo
or createdAt, whatever the body contains; none of the thirteen allowed fields
changes unless the body defines it.  When the request succeeds, each allowed
field that the body defines takes the body's value, where the schema trims
title, industry and every entry of skills and benefits; when it does not
succeed the store is unchanged. -/
theorem putJob_allowed_updates (db : Db) (user : ReqUser) (i : ObjectId) (b : JobBody)
    (job : Job) (hjob : db.findJob i = some job) (hown : job.employerId = user._id) :
    ∃ job1, (putJob db user (.valid i) b).1.findJob i = some job1 ∧
      (∀ x ∈ db.jobs, x._id ≠ i → x ∈ (putJob db user (.valid i) b).1.jobs) ∧
      (putJob db user (.valid i) b).1.jobs.length = db.jobs.length ∧
      (job1._id = job._id ∧
      job1.employerId = job.employerId ∧
      job1.applicationCount = job.applicationCount ∧
      job1.viewCount = job.viewCount ∧
      job1.isFeatured = job.isFeatured ∧
      job1.companyName = job.companyName ∧
      job1.companyLogo = job.companyLogo ∧
      job1.createdAt = job.createdAt) ∧
      ((b.title = none → job1.title = job.title) ∧
      (b.description = none → job1.description = job.description) ∧
      (b.qualifications = none → job1.qualifications = job.qualifications) ∧
      (b.responsibilities = none → job1.responsibilities = job.responsibilities) ∧
      (b.location = none → job1.location = job.location) ∧
      (b.salaryRange = none → job1.salaryRange = job.salaryRange) ∧
      (b.jobType = none → job1.jobType = job.jobType) ∧
      (b.experienceLevel = none → job1.experienceLevel = job.experienceLevel) ∧
      (b.industry = none → job1.industry = job.industry) ∧
      (b.skills = none → job1.skills = job.skills) ∧
      (b.benefits = none → job1.benefits = job.benefits) ∧
      (b.applicationDeadline = none → job1.applicationDeadline = job.applicationDeadline) ∧
      (b.isActive = none → job1.isActive = job.isActive)) ∧
      (∀ j, (putJob db user (.valid i) b).2 = .ok 200 "Job updated successfully" j →
        j = job1 ∧
        (∀ v, b.title = some v → job1.title = trim v) ∧
        (∀ v, b.description = some v → job1.description = v) ∧
        (∀ v, b.qualifications = some v → job1.qualifications = v) ∧
        (∀ v, b.responsibilities = some v → job1.responsibilities = v) ∧
        (∀ v, b.location = some v → job1.location = v) ∧
        (∀ v, b.salaryRange = some v → job1.salaryRange = v) ∧
        (∀ v, b.jobType = some v → job1.jobType = v) ∧
        (∀ v, b.experienceLevel = some v → job1.experienceLevel = v) ∧
        (∀ v, b.industry = some v → job1.industry = some (trim v)) ∧
        (∀ v, b.skills = some v → job1.skills = v.map trim) ∧
        (∀ v, b.benefits = some v → job1.benefits = v.map trim) ∧
        (∀ v, b.applicationDeadline = some v → job1.applicationDeadline = some v) ∧
        (∀ v, b.isActive = some v → job1.isActive = v)) ∧
      ((∀ j, (putJob db user (.valid i) b).2 ≠ .ok 200 "Job updated successfully" j) →
        (putJob db user (.valid i) b).1 = db) := by
  rcases putJob_owner_spec db user i b job hjob hown with ⟨-, hr⟩ | ⟨-, hr⟩
  · rw [hr]
    refine ⟨job, hjob, fun x hx _ => hx, rfl, ⟨rfl, rfl, rfl, rfl, rfl, rfl, rfl, rfl⟩,
      ⟨fun _ => rfl, fun _ => rfl, fun _ => rfl, fun _ => rfl, fun _ => rfl, fun _ => rfl, fun _ => rfl, fun _ => rfl, fun _ => rfl, fun _ => rfl, fun _ => rfl, fun _ => rfl, fun _ => rfl⟩, ?_, fun _ => rfl⟩
    intro j hj
    cases hj
  · rw [hr]
    have hid : (applyAllowedUpdates job b)._id = i := (findJob_some hjob).1
    refine ⟨applyAllowedUpdates job b, ?_, ?_, ?_, applyAllowedUpdates_frame job b,
      applyAllowedUpdates_undefined job b, ?_, ?_⟩
    · exact find?_key_map_replace (fun j : Job => j._id) db.jobs i job _ hjob hid
    · intro x hx hne
      show x ∈ db.jobs.map _
      refine List.mem_map.2 ⟨x, hx, ?_⟩
      have : ¬ x._id = (applyAllowedUpdates job b)._id := by rw [hid]; exact hne
      simp only [this, if_false]
    · show (db.jobs.map _).length = _
      rw [List.length_map]
    · intro j hj
      injection hj with _ _ hpay
      exact ⟨hpay.symm, applyAllowedUpdates_defined job b⟩
    · intro hno
      exact absurd rfl (hno (applyAllowedUpdates job b))

/-- Witness of C23 (as amended): employer1 sends for job 0 a padded title,
another location, an application count and the featured flag: count and flag
stay as they were. -/
theorem putJob_allowed_updates_witness :
    ∃ job1, (putJob appliedDb employer1 (.valid 0) jobUpdate1).1.findJob 0 = some job1 ∧
      job1.applicationCount = 1 ∧ job1.isFeatured = false ∧
      (∀ j, (putJob appliedDb employer1 (.valid 0) jobUpdate1).2 =
          .ok 200 "Job updated successfully" j → job1.title = "Dev" ∧ job1.location = "Goa") :=
  match putJob_allowed_updates appliedDb employer1 0 jobUpdate1
      { _id := 0, employerId := 100, title := "Engineer", description := "Build",
        qualifications := "BSc", responsibilities := "Code", location := "Pune",
        companyName := some "Acme", applicationCount := 1, createdAt := 10 }
      (by decide) (by decide) with
  | ⟨job1, hfind, _, _, hframe, _, hdefined, _⟩ =>
    ⟨job1, hfind, hframe.2.2.1, hframe.2.2.2.2.1,
      fun j hj => ⟨(hdefined j hj).2.1 " Dev " rfl, (hdefined j hj).2.2.2.2.2.1 "Goa" rfl⟩⟩

/-- C23 as stated fails: the owner sends the title ' Dev ' and the request
succeeds, yet the job does not take the body's value: the schema trims it and
the title stored and answered is 'Dev'. -/
theorem putJob_title_trimmed_counterexample :
    appliedDb.findJob 0 ≠ none ∧ jobUpdate1.title = some " Dev " ∧
    ∃ job1, (putJob appliedDb employer1 (.valid 0) jobUpdate1).2 =
        .ok 200 "Job updated successfully" job1 ∧
      (putJob appliedDb employer1 (.valid 0) jobUpdate1).1.findJob 0 = some job1 ∧
      job1.title = "Dev" ∧ job1.title ≠ " Dev " :=
  ⟨by decide, rfl,
    { _id := 0, employerId := 100, title := "Dev", description := "Build",
      qualifications := "BSc", responsibilities := "Code", location := "Goa",
      companyName := some "Acme", applicationCount := 1, createdAt := 10 },
    by decide, by decide, by decide, by decide⟩

/-! ### Reading one application -/

theorem findUser_some {db : Db} {i : ObjectId} {u : User} (h : db.findUser i = some u) :
    u._id = i ∧ u ∈ db.users := by
  unfold Db.findUser at h
  have h1 := List.find?_some h
  exact ⟨by simpa using h1, List.mem_of_find?_eq_some h⟩

/-- C24: for an application whose seeker and job are in the store,
`GET /applications/:id` answers 403 'Not authorized to view this application',
without any application data, to every user who is neither its seeker nor the
owner of its job nor an admin, and answers the application to each of those
three.  The seekerProfile of the answer is the seeker's profile when the
requester owns the job or is an admin, and is null otherwise: so it is null
for the seeker (who is neither). -/
theorem getApplication_access (db : Db) (user : ReqUser) (i : ObjectId) (app : Application)
    (seeker : User) (job : Job) (happ : db.findApplication i = some app)
    (hseeker : db.findUser app.seekerId = some seeker)
    (hjob : db.findJob app.jobId = some job) :
    ((app.seekerId ≠ user._id ∧ job.employerId ≠ user._id ∧ user.role ≠ "admin") →
      getApplication db user (.valid i) =
        .error 403 "Not authorized to view this application") ∧
    ((app.seekerId = user._id ∨ job.employerId = user._id ∨ user.role = "admin") →
      getApplication db user (.valid i) =
        .ok 200 "" (app, if job.employerId = user._id ∨ user.role = "admin" then
          db.findProfile app.seekerId else none)) ∧
    (app.seekerId = user._id → job.employerId ≠ user._id → user.role ≠ "admin" →
      getApplication db user (.valid i) = .ok 200 "" (app, none)) := by
  have hid : seeker._id = app.seekerId := (findUser_some hseeker).1
  have hmain : (app.seekerId = user._id ∨ job.employerId = user._id ∨ user.role = "admin") →
      getApplication db user (.valid i) =
        .ok 200 "" (app, if job.employerId = user._id ∨ user.role = "admin" then
          db.findProfile app.seekerId else none) := by
    intro h
    unfold getApplication
    simp only [happ, hseeker, hjob, hid]
    by_cases h1 : app.seekerId = user._id <;> by_cases h2 : job.employerId = user._id <;>
      by_cases h3 : user.role = "admin" <;> simp [h1, h2, h3] at h ⊢
  refine ⟨?_, hmain, ?_⟩
  · rintro ⟨h1, h2, h3⟩
    unfold getApplication
    simp [happ, hseeker, hjob, hid, h1, h2, h3]
  · intro h1 h2 h3
    rw [hmain (Or.inl h1)]
    simp [h2, h3]

/-- Witness of C24: Sam's application to Acme's job is refused to a second
employer, and answered without a profile to Sam. -/
theorem getApplication_access_witness :
    getApplication hiringDb employer2 (.valid 3) =
      .error 403 "Not authorized to view this application" ∧
    getApplication hiringDb samUser (.valid 3) = .ok 200 "" (samApplication, none) :=
  ⟨(getApplication_access hiringDb employer2 3 samApplication samAccount acmeJob
      (by decide) (by decide) (by decide)).1 (by decide),
    (getApplication_access hiringDb samUser 3 samApplication samAccount acmeJob
      (by decide) (by decide) (by decide)).2.2 (by decide) (by decide) (by decide)⟩

/-! ### Profile completion -/

theorem length_filter_cons {α : Type} (f : α → Bool) (a : α) (l : List α) :
    ((a :: l).filter f).length = (if f a = true then 1 else 0) + (l.filter f).length := by
  rw [List.filter_cons]
  split
  · rw [List.length_cons, Nat.add_comm]
  · rw [Nat.zero_add]

theorem filledText_eq (v : Option String) :
    (if (match v with
        | some s => s != ""
        | none => false) = true then 1 else 0) = filledText v := by
  unfold filledText
  cases v with
  | none => simp
  | some s => by_cases h : s = "" <;> simp [h]

theorem filledText_le (v : Option String) : filledText v ≤ 1 := by
  unfold filledText
  split <;> omega

theorem seekerFilled_le (p : Profile) : seekerFilled p ≤ 6 := by
  unfold seekerFilled
  have h1 := filledText_le p.bio
  have h2 := filledText_le p.resumeURL
  have h3 := filledText_le p.location
  have h4 := filledText_le p.phone
  split <;> split <;> omega

theorem employerFilled_le (p : Profile) : employerFilled p ≤ 6 := by
  unfold employerFilled
  have h1 := filledText_le p.companyName
  have h2 := filledText_le p.companyDescription
  have h3 := filledText_le p.companyLogo
  have h4 := filledText_le p.website
  have h5 := filledText_le p.location
  have h6 := filledText_le p.phone
  omega

theorem completed_seeker (p : Profile) :
    ((completionFields "seeker").filter (fieldFilled p)).length = seekerFilled p := by
  have hfields : completionFields "seeker" =
      ["bio", "skills", "experience", "resumeURL", "location", "phone"] := by decide
  rw [hfields]
  simp only [length_filter_cons, List.filter_nil, List.length_nil]
  have h1 : fieldFilled p "bio" = (match p.bio with
      | some s => s != ""
      | none => false) := by
    unfold fieldFilled; simp
  have h2 : fieldFilled p "skills" = !p.skills.isEmpty := by
    unfold fieldFilled; simp
  have h3 : fieldFilled p "experience" = !p.experience.isEmpty := by
    unfold fieldFilled; simp
  have h4 : fieldFilled p "resumeURL" = (match p.resumeURL with
      | some s => s != ""
      | none => false) := by
    unfold fieldFilled; simp
  have h5 : fieldFilled p "location" = (match p.location with
      | some s => s != ""
      | none => false) := by
    unfold fieldFilled; simp
  have h6 : fieldFilled p "phone" = (match p.phone with
      | some s => s != ""
      | none => false) := by
    unfold fieldFilled; simp
  rw [h1, h2, h3, h4, h5, h6, filledText_eq, filledText_eq, filledText_eq, filledText_eq]
  unfold seekerFilled
  have e1 : (if (!p.skills.isEmpty) = true then 1 else 0) = (if p.skills ≠ [] then 1 else 0) := by
    cases p.skills <;> simp
  have e2 : (if (!p.experience.isEmpty) = true then 1 else 0) =
      (if p.experience ≠ [] then 1 else 0) := by
    cases p.experience <;> simp
  rw [e1, e2]
  omega

theorem completed_employer (p : Profile) :
    ((completionFields "employer").filter (fieldFilled p)).length = employerFilled p := by
  have hfields : completionFields "employer" =
      ["companyName", "companyDescription", "companyLogo", "website", "location", "phone"] := by
    decide
  rw [hfields]
  simp only [length_filter_cons, List.filter_nil, List.length_nil]
  have h1 : fieldFilled p "companyName" = (match p.companyName with
      | some s => s != ""
      | none => false) := by
    unfold fieldFilled; simp
  have h2 : fieldFilled p "companyDescription" = (match p.companyDescription with
      | some s => s != ""
      | none => false) := by
    unfold fieldFilled; simp
  have h3 : fieldFilled p "companyLogo" = (match p.companyLogo with
      | some s => s != ""
      | none => false) := by
    unfold fieldFilled; simp
  have h4 : fieldFilled p "website" = (match p.website with
      | some s => s != ""
      | none => false) := by
    unfold fieldFilled; simp
  have h5 : fieldFilled p "location" = (match p.location with
      | some s => s != ""
      | none => false) := by
    unfold fieldFilled; simp
  have h6 : fieldFilled p "phone" = (match p.phone with
      | some s => s != ""
      | none => false) := by
    unfold fieldFilled; simp
  rw [h1, h2, h3, h4, h5, h6, filledText_eq, filledText_eq, filledText_eq, filledText_eq,
    filledText_eq, filledText_eq]
  unfold employerFilled
  omega

/-- The value of `calculateProfileCompletion` for a profile and a role with six
fields, k of them filled. -/
theorem calculateProfileCompletion_of_count (p : Profile) (role : String) (k : Nat)
    (hlen : (completionFields role).length = 6)
    (hk : ((completionFields role).filter (fieldFilled p)).length = k) :
    calculateProfileCompletion (some p) role = some ((200 * k + 6) / 12) := by
  unfold calculateProfileCompletion
  simp only [hlen, hk]
  rfl

/-- The rounding `Math.round(k / 6 * 100)` for the seven possible counts. -/
theorem completion_round (k : Nat) (hk : k ≤ 6) :
    (((200 * k + 6) / 12 : Nat) : ℤ) = round ((100 * (k : ℚ)) / 6) ∧
    (200 * k + 6) / 12 = specCompletion k ∧
    specCompletion k ∈ [0, 17, 33, 50, 67, 83, 100] ∧
    (specCompletion k = 100 ↔ k = 6) := by
  refine ⟨?_, ?_, ?_, ?_⟩
  · symm
    rw [round_eq, Int.floor_eq_iff]
    interval_cases k <;> norm_num
  · interval_cases k <;> rfl
  · interval_cases k <;> decide
  · interval_cases k <;> decide

/-- C25: `calculateProfileCompletion` returns 0 for a missing profile.  For
role 'seeker' (fields bio, skills, experience, resumeURL, location, phone) and
role 'employer' (fields companyName, companyDescription, companyLogo, website,
location, phone) and any profile it returns round(100·k/6), k being the number
of the role's six fields that are filled (a text present and not empty, an
array not empty): one of 0, 17, 33, 50, 67, 83, 100, which is 100 exactly when
k = 6, and which does not decrease when k grows. -/
theorem calculateProfileCompletion_value (p q : Profile) :
    (∀ role, calculateProfileCompletion none role = some 0) ∧
    (∃ v : Nat, calculateProfileCompletion (some p) "seeker" = some v ∧
      (v : ℤ) = round ((100 * (seekerFilled p : ℚ)) / 6) ∧
      v = specCompletion (seekerFilled p) ∧ v ∈ [0, 17, 33, 50, 67, 83, 100] ∧
      (v = 100 ↔ seekerFilled p = 6)) ∧
    (∃ v : Nat, calculateProfileCompletion (some p) "employer" = some v ∧
      (v : ℤ) = round ((100 * (employerFilled p : ℚ)) / 6) ∧
      v = specCompletion (employerFilled p) ∧ v ∈ [0, 17, 33, 50, 67, 83, 100] ∧
      (v = 100 ↔ employerFilled p = 6)) ∧
    (seekerFilled p ≤ seekerFilled q →
      ∃ v w : Nat, calculateProfileCompletion (some p) "seeker" = some v ∧
        calculateProfileCompletion (some q) "seeker" = some w ∧ v ≤ w) ∧
    (employerFilled p ≤ employerFilled q →
      ∃ v w : Nat, calculateProfileCompletion (some p) "employer" = some v ∧
        calculateProfileCompletion (some q) "employer" = some w ∧ v ≤ w) := by
  have hs : ∀ x : Profile, calculateProfileCompletion (some x) "seeker" =
      some ((200 * seekerFilled x + 6) / 12) :=
    fun x => calculateProfileCompletion_of_count x "seeker" _ (by decide) (completed_seeker x)
  have he : ∀ x : Profile, calculateProfileCompletion (some x) "employer" =
      some ((200 * employerFilled x + 6) / 12) :=
    fun x => calculateProfileCompletion_of_count x "employer" _ (by decide) (completed_employer x)
  refine ⟨fun _ => rfl, ?_, ?_, ?_, ?_⟩
  · obtain ⟨h1, h2, h3, h4⟩ := completion_round (seekerFilled p) (seekerFilled_le p)
    exact ⟨_, hs p, h1, h2, by rw [h2]; exact h3, by rw [h2]; exact h4⟩
  · obtain ⟨h1, h2, h3, h4⟩ := completion_round (employerFilled p) (employerFilled_le p)
    exact ⟨_, he p, h1, h2, by rw [h2]; exact h3, by rw [h2]; exact h4⟩
  · intro hle
    exact ⟨_, _, hs p, hs q, by omega⟩
  · intro hle
    exact ⟨_, _, he p, he q, by omega⟩

/-- Witness of C25: a seeker profile with bio, one skill and phone, compared
with the empty profile: three fields give 50, none gives 0. -/
theorem calculateProfileCompletion_value_witness :
    calculateProfileCompletion (some halfProfile) "seeker" = some 50 ∧
    ∃ v w : Nat, calculateProfileCompletion (some { userId := 0 }) "seeker" = some v ∧
      calculateProfileCompletion (some halfProfile) "seeker" = some w ∧ v ≤ w :=
  ⟨by decide,
    (calculateProfileCompletion_value { userId := 0 } halfProfile).2.2.2.1 (by decide)⟩

/-! ### Pagination of the job listing -/

theorem listQueryErrors_nil (q : ListQuery) (h : listQueryErrors q = []) :
    1 ≤ q.page.getD 1 ∧ 1 ≤ q.limit.getD 10 ∧ q.limit.getD 10 ≤ 50 := by
  unfold listQueryErrors at h
  rw [List.append_eq_nil] at h
  obtain ⟨hp, hl⟩ := h
  refine ⟨?_, ?_⟩
  · cases hq : q.page with
    | none => decide
    | some p =>
      rw [hq] at hp
      by_cases h1 : 1 ≤ p
      · exact h1
      · simp [h1] at hp
  · cases hq : q.limit with
    | none => decide
    | some l =>
      rw [hq] at hl
      by_cases h1 : 1 ≤ l ∧ l ≤ 50
      · exact h1
      · simp only [h1, if_false] at hl
        cases hl

theorem excessBits_of_lt (n : Nat) (h : n < 2 ^ 53) : excessBits n n = 0 := by
  cases n with
  | zero => rfl
  | succ k => simp only [excessBits, h, if_true]

theorem roundHalfEven_one (n : Nat) : roundHalfEven n 1 = n := by
  unfold roundHalfEven
  simp only [Nat.div_one, Nat.mod_one, Nat.mul_zero]
  rw [if_neg]
  rintro (h | ⟨h, -⟩)
  · exact absurd h (by decide)
  · exact absurd h (by decide)

/-- Whole numbers below 2^53 are binary64 values. -/
theorem toNumber_of_lt (n : Nat) (h : n < 2 ^ 53) : toNumber n = .finite n := by
  unfold toNumber
  simp only [excessBits_of_lt n h, pow_zero, roundHalfEven_one, Nat.mul_one]
  rw [if_pos (Or.inl (by decide))]

theorem scaleUp_spec (fuel n b : Nat) (h : 2 ^ 52 * b ≤ n * 2 ^ fuel) :
    2 ^ 52 * b ≤ n * 2 ^ scaleUp fuel n b := by
  induction fuel generalizing n with
  | zero => simpa [scaleUp] using h
  | succ f ih =>
    unfold scaleUp
    split
    · rename_i h1
      simpa using h1
    · have h2 : 2 ^ 52 * b ≤ 2 * n * 2 ^ f := by
        rw [pow_succ] at h
        calc 2 ^ 52 * b ≤ n * (2 ^ f * 2) := h
          _ = 2 * n * 2 ^ f := by ring
      have h3 := ih (2 * n) h2
      calc 2 ^ 52 * b ≤ 2 * n * 2 ^ scaleUp f (2 * n) b := h3
        _ = n * 2 ^ (scaleUp f (2 * n) b + 1) := by rw [pow_succ]; ring

/-- Rounding the quotient to the nearest multiple of `1 / t` and then up to a
whole number gives the exact ceiling, when `b < 2 * t`. -/
theorem roundHalfEven_ceil (a b t : Nat) (hb : 1 ≤ b) (ht : 1 ≤ t) (hbt : b < 2 * t) :
    (roundHalfEven (a * t) b + t - 1) / t = (a + b - 1) / b := by
  have hbpos : 0 < b := hb
  have htpos : 0 < t := ht
  have ha := Nat.div_add_mod a b
  have hρ := Nat.mod_lt a hbpos
  generalize a / b = q at ha
  generalize a % b = ρ at ha hρ
  have hu := Nat.div_add_mod (ρ * t) b
  have hv := Nat.mod_lt (ρ * t) hbpos
  have hat : a * t = ρ * t + b * (q * t) := by rw [← ha]; ring
  have hm0 : a * t / b = q * t + ρ * t / b := by
    rw [hat, Nat.add_mul_div_left _ _ hbpos]; ring
  have hr : a * t % b = ρ * t % b := by
    rw [hat, Nat.add_mul_mod_self_left]
  have hρt : ρ * t < b * t := Nat.mul_lt_mul_of_pos_right hρ htpos
  have hult : ρ * t / b < t := by
    rw [Nat.div_lt_iff_lt_mul hbpos]
    calc ρ * t < b * t := hρt
      _ = t * b := Nat.mul_comm _ _
  unfold roundHalfEven
  simp only [hm0, hr]
  generalize ρ * t / b = u at hu hult
  generalize ρ * t % b = v at hu hv
  by_cases hz : ρ = 0
  · subst hz
    have hv0 : v = 0 := by
      have : b * u + v = 0 := by simpa using hu
      omega
    have hu0 : u = 0 := by
      have : b * u + v = 0 := by simpa using hu
      rcases Nat.eq_zero_or_pos u with h0 | h0
      · exact h0
      · have := Nat.mul_pos hbpos h0
        omega
    subst hv0 hu0
    have hcond : ¬ (b < 2 * 0 ∨ (2 * 0 = b ∧ (q * t + 0) % 2 = 1)) := by
      rintro (h | ⟨h, -⟩) <;> omega
    rw [if_neg hcond]
    have hR : (a + b - 1) / b = q := by
      apply Nat.div_eq_of_lt_le
      · rw [← ha]; simp only [Nat.add_zero]; rw [Nat.mul_comm]; omega
      · rw [← ha]; simp only [Nat.add_zero]
        rw [Nat.succ_mul, Nat.mul_comm]; omega
    rw [hR]
    apply Nat.div_eq_of_lt_le
    · omega
    · rw [Nat.succ_mul]; omega
  · have hρ1 : 1 ≤ ρ := Nat.one_le_iff_ne_zero.mpr hz
    have hR : (a + b - 1) / b = q + 1 := by
      apply Nat.div_eq_of_lt_le
      · rw [← ha, Nat.add_mul, Nat.one_mul, Nat.mul_comm]; omega
      · rw [← ha]
        rw [Nat.succ_mul, Nat.add_mul, Nat.one_mul, Nat.mul_comm]; omega
    rw [hR]
    have hlow : q * t + 1 ≤
        (if b < 2 * v ∨ (2 * v = b ∧ (q * t + u) % 2 = 1) then q * t + u + 1
          else q * t + u) := by
      rcases Nat.eq_zero_or_pos u with h0 | h0
      · subst h0
        have hvt : v = ρ * t := by
          have : b * 0 + v = ρ * t := hu
          omega
        have hge : t ≤ ρ * t := Nat.le_mul_of_pos_left t hρ1
        rw [if_pos (Or.inl (by omega))]
      · split <;> omega
    have hup : (if b < 2 * v ∨ (2 * v = b ∧ (q * t + u) % 2 = 1) then q * t + u + 1
          else q * t + u) ≤ q * t + t := by
      split <;> omega
    generalize (if b < 2 * v ∨ (2 * v = b ∧ (q * t + u) % 2 = 1) then q * t + u + 1
          else q * t + u) = m at hlow hup
    apply Nat.div_eq_of_lt_le
    · rw [Nat.add_mul, Nat.one_mul]; omega
    · rw [Nat.succ_mul, Nat.add_mul, Nat.one_mul]; omega

/-- Below 2^53 the quotient that binary64 arithmetic computes, rounded up,
is the exact ceiling. -/
theorem ceilQuotient_exact (a b : Nat) (ha : a < 2 ^ 53) (hb1 : 1 ≤ b) (hb2 : b ≤ 50) :
    ceilQuotient a b = (a + b - 1) / b := by
  unfold ceilQuotient
  by_cases h0 : a = 0
  · subst h0
    rw [if_pos rfl]
    symm
    apply Nat.div_eq_of_lt
    omega
  · rw [if_neg h0]
    have hq : a / b < 2 ^ 53 := Nat.lt_of_le_of_lt (Nat.div_le_self a b) ha
    rw [if_pos hq]
    have ha1 : 1 ≤ a := Nat.one_le_iff_ne_zero.mpr h0
    have hfuel : 2 ^ 52 * b ≤ a * 2 ^ (53 + b) := by
      have hb : b ≤ 2 ^ b := Nat.le_of_lt (Nat.lt_two_pow b)
      calc 2 ^ 52 * b ≤ 2 ^ 52 * 2 ^ b := Nat.mul_le_mul_left _ hb
        _ ≤ 2 ^ 53 * 2 ^ b := Nat.mul_le_mul_right _ (by decide)
        _ = 1 * 2 ^ (53 + b) := by rw [pow_add]; ring
        _ ≤ a * 2 ^ (53 + b) := Nat.mul_le_mul_right _ ha1
    have hk := scaleUp_spec (53 + b) a b hfuel
    have htpos : 1 ≤ 2 ^ scaleUp (53 + b) a b := Nat.one_le_two_pow
    have hbt : b < 2 * 2 ^ scaleUp (53 + b) a b := by
      generalize 2 ^ scaleUp (53 + b) a b = t at hk htpos ⊢
      have h1 : a * t < 2 ^ 53 * t := Nat.mul_lt_mul_of_pos_right ha htpos
      have h2 : 2 ^ 52 * b < 2 ^ 52 * (2 * t) := by
        calc 2 ^ 52 * b ≤ a * t := hk
          _ < 2 ^ 53 * t := h1
          _ = 2 ^ 52 * (2 * t) := by ring
      exact Nat.lt_of_mul_lt_mul_left h2
    exact roundHalfEven_ceil a b _ hb1 htpos hbt

theorem ceilDiv_bounds (total limit : Nat) (h1 : 1 ≤ limit) :
    total ≤ (total + limit - 1) / limit * limit ∧
    (total + limit - 1) / limit * limit < total + limit := by
  have h := Nat.div_add_mod (total + limit - 1) limit
  have hm := Nat.mod_lt (total + limit - 1) h1
  rw [Nat.mul_comm] at h
  generalize (total + limit - 1) / limit * limit = x at h ⊢
  omega

theorem ceilDiv_eq_ceil (total limit : Nat) (h1 : 1 ≤ limit) :
    (((total + limit - 1) / limit : Nat) : Int) = ⌈(total : ℚ) / (limit : ℚ)⌉ := by
  obtain ⟨hle, hlt⟩ := ceilDiv_bounds total limit h1
  have hpos : (0 : ℚ) < (limit : ℚ) := by exact_mod_cast h1
  generalize (total + limit - 1) / limit = x at hle hlt
  have hle1 : (total : ℚ) ≤ (x : ℚ) * (limit : ℚ) := by exact_mod_cast hle
  have hlt1 : (x : ℚ) * (limit : ℚ) < (total : ℚ) + (limit : ℚ) := by exact_mod_cast hlt
  symm
  rw [Int.ceil_eq_iff]
  constructor
  · rw [lt_div_iff₀ hpos, Int.cast_natCast, sub_mul, one_mul]
    linarith
  · rw [div_le_iff₀ hpos, Int.cast_natCast]
    exact hle1

/-- C27 (as amended): for a page ≥ 1 and a limit in 1..50 (page 1 and limit
10 when absent) with page·limit below 2^53, and fewer than 2^53 matching jobs,
`GET /jobs` skips (page − 1)·limit matching jobs, answers at most limit jobs,
and its pagination object has current = page, total = the number of matching
jobs and pages = ⌈total/limit⌉, so that pages·limit ≥ total and
(pages − 1)·limit < total; a page below 1 or a limit outside 1..50 is
answered 400, whatever its size. -/
theorem listJobs_pagination (matching : List Job) (q : ListQuery) :
    (listQueryErrors q = [] → q.page.getD 1 * q.limit.getD 10 < 2 ^ 53 →
      matching.length < 2 ^ 53 →
      1 ≤ q.page.getD 1 ∧ 1 ≤ q.limit.getD 10 ∧ q.limit.getD 10 ≤ 50 ∧
      ∃ l, listJobs matching q = .ok 200 "" l ∧
        (l.skipped : Int) = (q.page.getD 1 - 1) * q.limit.getD 10 ∧
        l.jobs = (matching.drop l.skipped).take (q.limit.getD 10).toNat ∧
        (l.jobs.length : Int) ≤ q.limit.getD 10 ∧
        l.pagination.current = .finite (q.page.getD 1).toNat ∧
        ((q.page.getD 1).toNat : Int) = q.page.getD 1 ∧
        l.pagination.total = matching.length ∧
        (l.pagination.pages : Int) = ⌈(matching.length : ℚ) / ((q.limit.getD 10 : Int) : ℚ)⌉ ∧
        (matching.length : Int) ≤ l.pagination.pages * q.limit.getD 10 ∧
        ((l.pagination.pages : Int) - 1) * q.limit.getD 10 < matching.length) ∧
    (((∃ p, q.page = some p ∧ p < 1) ∨ (∃ l, q.limit = some l ∧ (l < 1 ∨ 50 < l))) →
      listQueryErrors q ≠ [] ∧ listJobs matching q = .errors 400 (listQueryErrors q)) := by
  constructor
  · intro h hsmall hlen
    obtain ⟨hp, hl1, hl2⟩ := listQueryErrors_nil q h
    generalize hP : q.page.getD 1 = P at hp hsmall ⊢
    generalize hL : q.limit.getD 10 = L at hl1 hl2 hsmall ⊢
    obtain ⟨p, rfl⟩ : ∃ p : Nat, P = (p : Int) := ⟨P.toNat, by omega⟩
    obtain ⟨l, rfl⟩ : ∃ l : Nat, L = (l : Int) := ⟨L.toNat, by omega⟩
    have hp1 : 1 ≤ p := by exact_mod_cast hp
    have hl1n : 1 ≤ l := by exact_mod_cast hl1
    have hl2n : l ≤ 50 := by exact_mod_cast hl2
    have hpl : p * l < 2 ^ 53 := by exact_mod_cast hsmall
    have hple : p ≤ p * l := Nat.le_mul_of_pos_right p hl1n
    have hp53 : p < 2 ^ 53 := Nat.lt_of_le_of_lt hple hpl
    have hskip : (p - 1) * l < 2 ^ 53 :=
      Nat.lt_of_le_of_lt (Nat.mul_le_mul_right l (Nat.sub_le p 1)) hpl
    have hlist : listJobs matching q = .ok 200 ""
        { jobs := (matching.drop ((p - 1) * l)).take l
          skipped := (p - 1) * l
          pagination :=
            { current := .finite p, pages := ceilQuotient matching.length l,
              total := matching.length } } := by
      unfold listJobs
      simp only [h, ne_eq, not_true_eq_false, if_false, hP, hL, Int.toNat_ofNat]
      rw [toNumber_of_lt p hp53]
      simp only [JsNumber.minusOne, toNumber_of_lt (p - 1) (by omega), JsNumber.times,
        toNumber_of_lt ((p - 1) * l) hskip]
      rw [if_neg]
      have : (2 : Nat) ^ 53 ≤ 2 ^ 63 := by decide
      omega
    have hpages := ceilQuotient_exact matching.length l hlen hl1n hl2n
    obtain ⟨hle, hlt⟩ := ceilDiv_bounds matching.length l hl1n
    refine ⟨hp, hl1, hl2, _, hlist, ?_, ?_, ?_, ?_, ?_, rfl, ?_, ?_, ?_⟩
    · show (((p - 1) * l : Nat) : Int) = ((p : Int) - 1) * (l : Int)
      rw [Nat.cast_mul, Nat.cast_sub hp1]
      rfl
    · show _ = (matching.drop ((p - 1) * l)).take (l : Int).toNat
      rw [Int.toNat_ofNat]
    · have hlen1 : ((matching.drop ((p - 1) * l)).take l).length ≤ l :=
        List.length_take_le _ _
      show ((((matching.drop ((p - 1) * l)).take l).length : Nat) : Int) ≤ (l : Int)
      exact_mod_cast hlen1
    · show JsNumber.finite p = .finite (p : Int).toNat
      rw [Int.toNat_ofNat]
    · exact Int.toNat_of_nonneg (by omega)
    · show ((ceilQuotient matching.length l : Nat) : Int) = _
      rw [hpages]
      exact ceilDiv_eq_ceil _ _ hl1n
    · show (matching.length : Int) ≤ ((ceilQuotient matching.length l : Nat) : Int) * (l : Int)
      rw [hpages]
      exact_mod_cast hle
    · show (((ceilQuotient matching.length l : Nat) : Int) - 1) * (l : Int) <
        (matching.length : Int)
      rw [hpages]
      generalize (matching.length + l - 1) / l = x at hlt
      have hlt1 : (x : Int) * (l : Int) < (matching.length : Int) + (l : Int) := by
        exact_mod_cast hlt
      rw [sub_mul, one_mul]
      linarith
  · intro h
    have hne : listQueryErrors q ≠ [] := by
      unfold listQueryErrors
      rcases h with ⟨p, hq, hp⟩ | ⟨l, hq, hl⟩
      · have : ¬ 1 ≤ p := by omega
        simp [hq, this]
      · have : ¬ (1 ≤ l ∧ l ≤ 50) := by omega
        simp [hq, this]
    refine ⟨hne, ?_⟩
    unfold listJobs
    simp only [hne, ne_eq, not_false_eq_true, if_true]

/-- Witness of C27 (as amended): page 2 with limit 2 of three matching jobs
skips two, and of the 2 pages this one holds the third job. -/
theorem listJobs_pagination_witness :
    listQueryErrors pageTwo = [] ∧
    ∃ l, listJobs threeJobs pageTwo = .ok 200 "" l ∧ (l.skipped : Int) = 2 ∧
      l.jobs = (threeJobs.drop l.skipped).take 2 ∧ l.pagination.total = 3 :=
  match (listJobs_pagination threeJobs pageTwo).1 (by decide) (by decide) (by decide) with
  | ⟨_, _, _, l, hl, hskip, hjobs, _, _, _, htotal, _⟩ =>
    ⟨by decide, l, hl, hskip.trans (by decide), hjobs, htotal⟩

/-- C27 as stated fails: page 2^53 + 1 passes the validator, yet `parseInt`
gives 2^53 for it, so pagination.current is not the page, and the number of
skipped documents is not (page − 1)·limit. -/
theorem listJobs_page_beyond_exact_counterexample :
    listQueryErrors pageBeyondExact = [] ∧
    pageBeyondExact.page.getD 1 = 9007199254740993 ∧
    listJobs threeJobs pageBeyondExact = .ok 200 ""
      { jobs := [], skipped := 90071992547409904,
        pagination := { current := .finite 9007199254740992, pages := 1, total := 3 } } ∧
    ((90071992547409904 : Nat) : Int) ≠
      (pageBeyondExact.page.getD 1 - 1) * pageBeyondExact.limit.getD 10 := by
  decide

/-! ### Notification inboxes -/

theorem filter_map_frame {α : Type} (p : α → Bool) (f : α → α) (l : List α)
    (h : ∀ x ∈ l, f x = x ∨ (p x = false ∧ p (f x) = false)) :
    (l.map f).filter p = l.filter p := by
  induction l with
  | nil => rfl
  | cons a t ih =>
    have iht := ih (fun x hx => h x (List.mem_cons_of_mem a hx))
    rw [List.map_cons]
    rcases h a (List.mem_cons_self a t) with ha | ⟨h1, h2⟩
    · rw [ha, List.filter_cons, List.filter_cons, iht]
    · rw [List.filter_cons, List.filter_cons, iht]
      simp only [h1, h2, Bool.false_eq_true, if_false]

theorem filter_eraseP_frame {α : Type} (p q : α → Bool) (l : List α)
    (h : ∀ x ∈ l, q x = true → p x = false) :
    (l.eraseP q).filter p = l.filter p := by
  induction l with
  | nil => rfl
  | cons a t ih =>
    have iht := ih (fun x hx => h x (List.mem_cons_of_mem a hx))
    by_cases hq : q a = true
    · rw [List.eraseP_cons_of_pos hq, List.filter_cons]
      simp only [h a (List.mem_cons_self a t) hq, Bool.false_eq_true, if_false]
    · rw [List.eraseP_cons_of_neg hq, List.filter_cons, List.filter_cons, iht]

theorem filter_filter_frame {α : Type} (p q : α → Bool) (l : List α)
    (h : ∀ x ∈ l, p x = true → q x = true) :
    (l.filter q).filter p = l.filter p := by
  rw [List.filter_filter]
  apply List.filter_congr
  intro x hx
  cases hp : p x with
  | false => rfl
  | true => rw [h x hx hp]; rfl

theorem unreadCount_eq_inbox (db : Db) (v : ObjectId) :
    unreadCount db v = ((inbox db v).filter (fun n => n.isRead == false)).length := by
  unfold unreadCount inbox
  rw [List.filter_filter]
  congr 1
  apply List.filter_congr
  intro x _
  exact Bool.and_comm _ _

/-- The notification a request by id finds belongs to the requester. -/
theorem find?_notification_some {db : Db} {i u : ObjectId} {n : Notification}
    (h : db.notifications.find? (fun n => n._id == i && n.userId == u) = some n) :
    n._id = i ∧ n.userId = u ∧ n ∈ db.notifications := by
  have h1 := List.find?_some h
  simp only [Bool.and_eq_true, beq_iff_eq] at h1
  exact ⟨h1.1, h1.2, List.mem_of_find?_eq_some h⟩

/-- The inbox of every user other than the requester survives each of the four
writing requests. -/
theorem notification_requests_frame (db : Db) (hids : NotificationIdsUnique db)
    (user : ReqUser) (now : Nat) (id : IdParam) (v : ObjectId) (hv : v ≠ user._id) :
    inbox (markNotificationRead db user now id).1 v = inbox db v ∧
    inbox (markAllNotificationsRead db user now).1 v = inbox db v ∧
    inbox (deleteNotification db user id).1 v = inbox db v ∧
    inbox (deleteAllNotifications db user).1 v = inbox db v := by
  unfold NotificationIdsUnique at hids
  have hne : ∀ x : Notification, x.userId = user._id → (x.userId == v) = false := by
    intro x hx
    rw [hx]
    exact beq_false_of_ne (Ne.symm hv)
  refine ⟨?_, ?_, ?_, ?_⟩
  · unfold markNotificationRead
    split
    · rfl
    · rfl
    · split
      · rfl
      · rename_i i notification hfind
        obtain ⟨-, huser, hmem⟩ := find?_notification_some hfind
        unfold inbox
        apply filter_map_frame
        intro x hx
        by_cases he : x._id = notification._id
        · right
          have hxn : x = notification :=
            eq_of_nodup_map (fun n => n._id) _ hids x notification hx hmem he
          subst hxn
          simp only [if_true]
          exact ⟨hne _ huser, hne _ huser⟩
        · left
          simp only [he, if_false]
  · unfold markAllNotificationsRead inbox
    apply filter_map_frame
    intro x _
    by_cases hc : (x.userId == user._id && x.isRead == false) = true
    · right
      have hu : x.userId = user._id := by
        simp only [Bool.and_eq_true, beq_iff_eq] at hc
        exact hc.1
      simp only [hc, if_true]
      exact ⟨hne _ hu, hne _ hu⟩
    · left
      simp only [hc, Bool.false_eq_true, if_false]
  · unfold deleteNotification
    split
    · rfl
    · rfl
    · split
      · rfl
      · unfold inbox
        apply filter_eraseP_frame
        intro x _ hq
        simp only [Bool.and_eq_true, beq_iff_eq] at hq
        exact hne _ hq.2
  · unfold deleteAllNotifications inbox
    apply filter_filter_frame
    intro x _ hp
    have hxv : x.userId = v := by simpa using hp
    have : (x.userId == user._id) = false := by
      rw [hxv]
      exact beq_false_of_ne hv
    rw [this]
    rfl

/-- C30: on a notifications collection with distinct ids, the four writing
requests of a user (mark one read, mark all read, delete one, delete all)
leave the notifications and the unread count of every other user as they
were; marking read or deleting a notification that belongs to another user is
answered 404 'Notification not found' and changes nothing; after read-all the
requester's unread count is 0 and after delete-all the requester has no
notifications. -/
theorem notifications_per_user (db : Db) (hids : NotificationIdsUnique db) (user : ReqUser)
    (now : Nat) :
    (∀ (id : IdParam) (v : ObjectId), v ≠ user._id →
      (inbox (markNotificationRead db user now id).1 v = inbox db v ∧
        inbox (markAllNotificationsRead db user now).1 v = inbox db v ∧
        inbox (deleteNotification db user id).1 v = inbox db v ∧
        inbox (deleteAllNotifications db user).1 v = inbox db v) ∧
      (unreadCount (markNotificationRead db user now id).1 v = unreadCount db v ∧
        unreadCount (markAllNotificationsRead db user now).1 v = unreadCount db v ∧
        unreadCount (deleteNotification db user id).1 v = unreadCount db v ∧
        unreadCount (deleteAllNotifications db user).1 v = unreadCount db v)) ∧
    (∀ n ∈ db.notifications, n.userId ≠ user._id →
      markNotificationRead db user now (.valid n._id) =
        (db, .error 404 "Notification not found") ∧
      deleteNotification db user (.valid n._id) =
        (db, .error 404 "Notification not found")) ∧
    unreadCount (markAllNotificationsRead db user now).1 user._id = 0 ∧
    inbox (deleteAllNotifications db user).1 user._id = [] := by
  refine ⟨?_, ?_, ?_, ?_⟩
  · intro id v hv
    obtain ⟨h1, h2, h3, h4⟩ := notification_requests_frame db hids user now id v hv
    refine ⟨⟨h1, h2, h3, h4⟩, ?_, ?_, ?_, ?_⟩
    · rw [unreadCount_eq_inbox, unreadCount_eq_inbox, h1]
    · rw [unreadCount_eq_inbox, unreadCount_eq_inbox, h2]
    · rw [unreadCount_eq_inbox, unreadCount_eq_inbox, h3]
    · rw [unreadCount_eq_inbox, unreadCount_eq_inbox, h4]
  · intro n hn hown
    unfold NotificationIdsUnique at hids
    have hnone : db.notifications.find? (fun x => x._id == n._id && x.userId == user._id) =
        none := by
      rw [List.find?_eq_none]
      intro x hx hq
      simp only [Bool.and_eq_true, beq_iff_eq] at hq
      have hxn : x = n := eq_of_nodup_map (fun n => n._id) _ hids x n hx hn hq.1
      rw [hxn] at hq
      exact hown hq.2
    constructor
    · unfold markNotificationRead
      simp only [hnone]
    · unfold deleteNotification
      simp only [hnone]
  · unfold unreadCount markAllNotificationsRead
    rw [List.length_eq_zero, List.filter_eq_nil_iff]
    intro y hy
    obtain ⟨x, -, hxy⟩ := List.mem_map.1 hy
    by_cases hc : (x.userId == user._id && x.isRead == false) = true
    · simp only [hc, if_true] at hxy
      subst hxy
      simp
    · simp only [hc, if_false] at hxy
      subst hxy
      exact hc
  · unfold inbox deleteAllNotifications
    rw [List.filter_eq_nil_iff]
    intro y hy
    have := (List.mem_filter.1 hy).2
    simpa using this

/-- Witness of C30: in the store where the employer and the seeker hold one
notification each, the seeker cannot mark the employer's notification read,
and the seeker's read-all leaves the employer's unread count at 1. -/
theorem notifications_per_user_witness :
    NotificationIdsUnique hiredDb ∧
    markNotificationRead hiredDb seeker1 99 (.valid 2) =
      (hiredDb, .error 404 "Notification not found") ∧
    unreadCount (markAllNotificationsRead hiredDb seeker1 99).1 seeker1._id = 0 ∧
    unreadCount (markAllNotificationsRead hiredDb seeker1 99).1 employer1._id = 1 :=
  ⟨by decide,
    ((notifications_per_user hiredDb (by decide) seeker1 99).2.1
      { _id := 2, userId := 100, type := "application_received",
        title := "New Application Received", message := "Sam applied for Engineer",
        data := { jobId := some 0, applicationId := some 1, fromUserId := some 200 },
        createdAt := 20 }
      (by decide) (by decide)).1,
    (notifications_per_user hiredDb (by decide) seeker1 99).2.2.1,
    by decide⟩

/-! ### Application statistics of a seeker -/

theorem find?_key_map_keep (obj : List (String × Nat)) (k k1 : String) (v : Nat) (h : k1 ≠ k) :
    (obj.map (fun e => if e.1 = k then (k, v) else e)).find? (fun e => e.1 == k1) =
      obj.find? (fun e => e.1 == k1) := by
  induction obj with
  | nil => rfl
  | cons e t ih =>
    rw [List.map_cons, List.find?_cons, List.find?_cons, ih]
    by_cases he : e.1 = k
    · have h1 : (k == k1) = false := beq_false_of_ne (Ne.symm h)
      have h2 : (e.1 == k1) = false := by rw [he]; exact h1
      simp only [he, if_true, h1, h2]
    · simp only [he, if_false]

theorem find?_key_map_set (obj : List (String × Nat)) (k : String) (v : Nat)
    (h : obj.any (fun e => e.1 == k) = true) :
    (obj.map (fun e => if e.1 = k then (k, v) else e)).find? (fun e => e.1 == k) =
      some (k, v) := by
  induction obj with
  | nil => simp at h
  | cons e t ih =>
    rw [List.map_cons, List.find?_cons]
    by_cases he : e.1 = k
    · simp only [he, if_true, beq_self_eq_true]
    · have h2 : (e.1 == k) = false := beq_false_of_ne he
      rw [List.any_cons, h2, Bool.false_or] at h
      simp only [he, if_false, h2]
      exact ih h

theorem find?_none_of_any_false (obj : List (String × Nat)) (k : String)
    (h : ¬ obj.any (fun e => e.1 == k) = true) :
    obj.find? (fun e => e.1 == k) = none := by
  rw [List.find?_eq_none]
  intro e he hk
  exact h (List.any_eq_true.2 ⟨e, he, hk⟩)

/-- Reading a key that was just assigned gives the assigned value. -/
theorem getKey_setKey_same (obj : List (String × Nat)) (k : String) (v : Nat) :
    getKey (setKey obj k v) k = v := by
  unfold getKey setKey
  split
  · rename_i h
    rw [find?_key_map_set obj k v h]
    rfl
  · rename_i h
    rw [List.find?_append, find?_none_of_any_false obj k h]
    simp [List.find?]

/-- An assignment does not change what another key reads. -/
theorem getKey_setKey_other (obj : List (String × Nat)) (k k1 : String) (v : Nat)
    (h : k1 ≠ k) : getKey (setKey obj k v) k1 = getKey obj k1 := by
  unfold getKey setKey
  split
  · rw [find?_key_map_keep obj k k1 v h]
  · rw [List.find?_append]
    have h1 : (k == k1) = false := beq_false_of_ne (Ne.symm h)
    have : [(k, v)].find? (fun e => e.1 == k1) = none := by
      simp [List.find?, h1]
    rw [this, Option.or_none]

/-- One round of the `forEach` loop of the statistics handler. -/
theorem statsStep_total (r : List (String × Nat)) (g : String × Nat) (hg : g.1 ≠ "total") :
    getKey (setKey (setKey r g.1 g.2) "total" (getKey (setKey r g.1 g.2) "total" + g.2))
        "total" = getKey r "total" + g.2 := by
  rw [getKey_setKey_same, getKey_setKey_other _ _ _ _ (Ne.symm hg)]

theorem statsStep_status (r : List (String × Nat)) (g : String × Nat) (k : String)
    (hk : k ≠ "total") :
    getKey (setKey (setKey r g.1 g.2) "total" (getKey (setKey r g.1 g.2) "total" + g.2)) k =
      if k = g.1 then g.2 else getKey r k := by
  rw [getKey_setKey_other _ _ _ _ hk]
  by_cases h : k = g.1
  · rw [if_pos h, h, getKey_setKey_same]
  · rw [if_neg h, getKey_setKey_other _ _ _ _ h]

theorem statsFold_total (gs : List (String × Nat)) (r : List (String × Nat))
    (hgs : ∀ g ∈ gs, g.1 ≠ "total") :
    getKey (gs.foldl (fun result g => setKey (setKey result g.1 g.2) "total"
        (getKey (setKey result g.1 g.2) "total" + g.2)) r) "total" =
      getKey r "total" + (gs.map Prod.snd).sum := by
  induction gs generalizing r with
  | nil => simp
  | cons g t ih =>
    rw [List.foldl_cons, ih _ (fun x hx => hgs x (List.mem_cons_of_mem g hx)),
      statsStep_total r g (hgs g (List.mem_cons_self g t)), List.map_cons, List.sum_cons,
      Nat.add_assoc]

theorem statsFold_status (gs : List (String × Nat)) (r : List (String × Nat)) (k : String)
    (hk : k ≠ "total") (hnd : (gs.map Prod.fst).Nodup) :
    getKey (gs.foldl (fun result g => setKey (setKey result g.1 g.2) "total"
        (getKey (setKey result g.1 g.2) "total" + g.2)) r) k =
      match gs.find? (fun g => g.1 == k) with
      | some g => g.2
      | none => getKey r k := by
  induction gs generalizing r with
  | nil => rfl
  | cons g t ih =>
    rw [List.map_cons, List.nodup_cons] at hnd
    rw [List.foldl_cons, ih _ hnd.2, List.find?_cons]
    cases ht : t.find? (fun g => g.1 == k) with
    | some g1 =>
      have hg1 : g1.1 = k := by simpa using List.find?_some ht
      have hne : g.1 ≠ k := by
        intro he
        apply hnd.1
        rw [he, ← hg1]
        exact List.mem_map_of_mem Prod.fst (List.mem_of_find?_eq_some ht)
      simp only [beq_false_of_ne hne]
    | none =>
      simp only
      rw [statsStep_status r g k hk]
      by_cases he : k = g.1
      · simp only [he, if_true, beq_self_eq_true]
      · have : (g.1 == k) = false := beq_false_of_ne (Ne.symm he)
        simp only [he, if_false, this]

theorem find?_groups (l : List String) (c : String → Nat) (k : String) :
    (l.map (fun s => (s, c s))).find? (fun g => g.1 == k) =
      if k ∈ l then some (k, c k) else none := by
  induction l with
  | nil => rfl
  | cons a t ih =>
    rw [List.map_cons, List.find?_cons]
    by_cases ha : a = k
    · simp [ha]
    · have h1 : (a == k) = false := beq_false_of_ne ha
      simp only [h1, ih, List.mem_cons, Ne.symm ha, false_or]

theorem count_map_status (l : List Application) (s : String) :
    (l.map (fun a => a.status)).count s = (l.filter (fun a => a.status == s)).length := by
  rw [List.count_eq_countP, List.countP_map, List.countP_eq_length_filter]
  rfl

theorem length_by_status (l : List Application) (h : ∀ a ∈ l, a.status ∈ applicationStatuses) :
    l.length =
      (l.filter (fun a => a.status == "pending")).length +
        (l.filter (fun a => a.status == "reviewed")).length +
        (l.filter (fun a => a.status == "shortlisted")).length +
        (l.filter (fun a => a.status == "interview")).length +
        (l.filter (fun a => a.status == "hired")).length +
        (l.filter (fun a => a.status == "rejected")).length := by
  induction l with
  | nil => rfl
  | cons a t ih =>
    have iht := ih (fun x hx => h x (List.mem_cons_of_mem a hx))
    have ha := h a (List.mem_cons_self a t)
    simp only [applicationStatuses, List.mem_cons, List.mem_singleton, List.not_mem_nil,
      or_false] at ha
    simp only [List.length_cons, List.filter_cons]
    rcases ha with ha | ha | ha | ha | ha | ha <;> rw [ha] <;>
      simp only [beq_self_eq_true, if_true, List.length_cons] <;>
      simp +decide only [if_false] <;> omega

theorem status_ne_total (s : String) (h : s ∈ applicationStatuses) : s ≠ "total" := by
  intro he
  subst he
  revert h
  decide

theorem initial_stats_zero (s : String) (h : s ∈ applicationStatuses) :
    getKey [("total", 0), ("pending", 0), ("reviewed", 0), ("shortlisted", 0), ("interview", 0),
      ("hired", 0), ("rejected", 0)] s = 0 := by
  simp only [applicationStatuses, List.mem_cons, List.mem_singleton, List.not_mem_nil,
    or_false] at h
  rcases h with h | h | h | h | h | h <;> rw [h] <;> decide

theorem statusCount_eq (db : Db) (uid : ObjectId) (s : String) :
    statusCount db uid s =
      ((db.applications.filter (fun a => a.seekerId == uid)).filter
        (fun a => a.status == s)).length := by
  unfold statusCount
  rw [List.filter_filter]
  congr 1
  apply List.filter_congr
  intro x _
  exact Bool.and_comm _ _

/-- C26: when every application holds one of the six statuses of the schema,
the object `GET /applications/seeker/stats` answers to a seeker has, under
each status, the number of that seeker's applications with that status (0 when
there are none), and under total the number of that seeker's applications,
which is the sum of the six per-status numbers. -/
theorem seekerStats_counts (db : Db) (hs : StatusesInEnum db) (user : ReqUser) :
    (∀ s ∈ applicationStatuses, getKey (seekerStats db user) s = statusCount db user._id s) ∧
    getKey (seekerStats db user) "total" =
      (db.applications.filter (fun a => a.seekerId == user._id)).length ∧
    getKey (seekerStats db user) "total" =
      getKey (seekerStats db user) "pending" +
        getKey (seekerStats db user) "reviewed" +
        getKey (seekerStats db user) "shortlisted" +
        getKey (seekerStats db user) "interview" +
        getKey (seekerStats db user) "hired" +
        getKey (seekerStats db user) "rejected" := by
  have hmine : ∀ a ∈ db.applications.filter (fun a => a.seekerId == user._id),
      a.status ∈ applicationStatuses := fun a ha => hs a (List.mem_of_mem_filter ha)
  have hkeys : (statusGroups db user._id).map Prod.fst =
      ((db.applications.filter (fun a => a.seekerId == user._id)).map
        (fun a => a.status)).dedup := by
    unfold statusGroups
    simp only [List.map_map]
    exact List.map_id'' (fun _ => rfl) _
  have hnd : ((statusGroups db user._id).map Prod.fst).Nodup := by
    rw [hkeys]
    exact List.nodup_dedup _
  have hnt : ∀ g ∈ statusGroups db user._id, g.1 ≠ "total" := by
    intro g hg
    have hk : g.1 ∈ (statusGroups db user._id).map Prod.fst := List.mem_map_of_mem Prod.fst hg
    rw [hkeys, List.mem_dedup] at hk
    obtain ⟨a, ha, hag⟩ := List.mem_map.1 hk
    rw [← hag]
    exact status_ne_total _ (hmine a ha)
  have hstatus : ∀ s ∈ applicationStatuses,
      getKey (seekerStats db user) s = statusCount db user._id s := by
    intro s hsin
    unfold seekerStats
    rw [statsFold_status _ _ s (status_ne_total s hsin) hnd, statusCount_eq]
    unfold statusGroups
    simp only
    rw [find?_groups]
    by_cases hin : s ∈ ((db.applications.filter (fun a => a.seekerId == user._id)).map
        (fun a => a.status)).dedup
    · rw [if_pos hin]
    · rw [if_neg hin]
      have hnot := hin
      rw [List.mem_dedup] at hnot
      simp only [initial_stats_zero s hsin]
      symm
      rw [List.length_eq_zero, List.filter_eq_nil_iff]
      intro a ha hst
      apply hnot
      have : a.status = s := by simpa using hst
      rw [← this]
      exact List.mem_map_of_mem (fun a => a.status) ha
  have htotal : getKey (seekerStats db user) "total" =
      (db.applications.filter (fun a => a.seekerId == user._id)).length := by
    unfold seekerStats
    rw [statsFold_total _ _ hnt]
    unfold statusGroups
    simp only [List.map_map]
    have hfun : (Prod.snd ∘ fun s => (s, ((db.applications.filter
          (fun a => a.seekerId == user._id)).filter (fun a => a.status == s)).length)) =
        fun s => ((db.applications.filter (fun a => a.seekerId == user._id)).map
          (fun a => a.status)).count s := by
      funext s
      rw [count_map_status]
      rfl
    rw [hfun, List.sum_map_count_dedup_eq_length, List.length_map]
    exact Nat.zero_add _
  refine ⟨hstatus, htotal, ?_⟩
  rw [htotal, length_by_status _ hmine]
  rw [hstatus "pending" (by decide), hstatus "reviewed" (by decide),
    hstatus "shortlisted" (by decide), hstatus "interview" (by decide),
    hstatus "hired" (by decide), hstatus "rejected" (by decide)]
  simp only [statusCount_eq]

/-- Witness of C26: the seeker of the scenario has one application, which was
marked hired. -/
theorem seekerStats_counts_witness :
    StatusesInEnum hiredDb ∧
    getKey (seekerStats hiredDb seeker1) "hired" = 1 ∧
    getKey (seekerStats hiredDb seeker1) "pending" = 0 ∧
    getKey (seekerStats hiredDb seeker1) "total" = 1 :=
  ⟨by decide,
    ((seekerStats_counts hiredDb (by decide) seeker1).1 "hired" (by decide)).trans (by decide),
    by decide, by decide⟩

end Amdox
